import Mathlib

/-!
# Recent ISO list (`pcsx2/gui/RecentIsoList.cpp`)

A shallow embedding of `RecentIsoManager`: the ordered store of recently used
image paths, its projection onto a menu, the selection handler and the
settings load/save code, followed by theorems about them.

Conventions of the embedding:
* a `wxMenuItem*` is a natural number handle, `none` standing for `NULL`;
* `m_Menu` is `none` for a null menu and otherwise carries the menu's content;
* a null dereference or an out-of-range vector access is a `Fault`;
* `pxAssert` is the release-build macro: it does not alter control flow;
* `m_MaxLength` (an unsigned count) is a `Nat`, `m_cursel` and item
  identifiers are `Int`; the one sum that can leave the range of a 32-bit `int`,
  the item identifier `m_firstIdForMenuItems_or_wxID_ANY + id`, wraps (`wrapInt32`).
-/

namespace RecentIso

/-! ## Menu host -/

/-- The identifier `wxID_ANY`. -/
def wxID_ANY : Int := -1

/-- The identifier `wxID_SEPARATOR`. -/
def wxID_SEPARATOR : Int := -2

/-- The smallest value of a 32-bit `int`. -/
def INT_MIN : Int := -2147483648

/-- The largest value of a 32-bit `int`. -/
def INT_MAX : Int := 2147483647

/-- The value a 32-bit `int` holds for the integer `x`: `x` modulo `2^32`, taken in
the range from `INT_MIN` to `INT_MAX`. -/
def wrapInt32 (x : Int) : Int := (x + 2147483648) % 4294967296 - 2147483648

/-- Kinds of item a menu can hold. -/
inductive ItemKind
  | separator
  | normal
  | radio
  deriving DecidableEq, Repr

/-- Modelled from the spec: the `wxMenuItem` objects of the menu host (section 6,
"create/destroy separator, create/destroy selectable (radio-style) item with
(identifier, label, tooltip), enable/disable item, append trailing action item").
An item records the identifier, label and tooltip it was created with. -/
structure MenuItem where
  handle : Nat
  id : Int
  kind : ItemKind
  label : String
  help : String
  enabled : Bool
  checked : Bool
  deriving DecidableEq, Repr

/-- Modelled from the spec: the `wxMenu` of the menu host (section 6). `items` is
the visible content in display order, `destroyed` the log of `Destroy` requests,
oldest first. -/
structure Menu where
  items : List MenuItem
  destroyed : List Nat
  deriving DecidableEq, Repr

/-- The largest number of a list, `0` for the empty list. -/
def maxOf (l : List Nat) : Nat := l.foldr max 0

/-- Modelled from the spec: the handle the menu host gives to the next item it
creates; it differs from every handle the menu holds or has destroyed. -/
def Menu.freshHandle (m : Menu) : Nat :=
  max (maxOf (m.items.map (fun it => it.handle))) (maxOf m.destroyed) + 1

/-- Modelled from the spec: the menu host appends a new item at the end of the menu
and returns its fresh handle; the item starts enabled and unchecked. -/
def Menu.appendItem (m : Menu) (id : Int) (kind : ItemKind) (label help : String) :
    Nat × Menu :=
  (m.freshHandle,
   { m with items := m.items ++ [⟨m.freshHandle, id, kind, label, help, true, false⟩] })

/-- Modelled from the spec: `wxMenu::AppendSeparator` of the menu host. -/
def Menu.AppendSeparator (m : Menu) : Nat × Menu :=
  m.appendItem wxID_SEPARATOR ItemKind.separator "" ""

/-- Modelled from the spec: `wxMenu::Append(id, label)` of the menu host. -/
def Menu.Append (m : Menu) (id : Int) (label : String) : Nat × Menu :=
  m.appendItem id ItemKind.normal label ""

/-- Modelled from the spec: `wxMenu::AppendRadioItem(id, label, help)` of the menu
host. -/
def Menu.AppendRadioItem (m : Menu) (id : Int) (label help : String) : Nat × Menu :=
  m.appendItem id ItemKind.radio label help

/-- Modelled from the spec: `wxMenu::Destroy(item)` of the menu host; the item
leaves the menu and the request is logged. -/
def Menu.Destroy (m : Menu) (h : Nat) : Menu :=
  { m with
    items := m.items.filter (fun it => it.handle != h)
    destroyed := m.destroyed ++ [h] }

/-- Modelled from the spec: `wxMenuItem::Check()` of the menu host ("marks its
projected menu item active"). -/
def Menu.Check (m : Menu) (h : Nat) : Menu :=
  { m with
    items := m.items.map (fun it => if it.handle = h then { it with checked := true } else it) }

/-- Modelled from the spec: `wxMenuItem::Enable(flag)` of the menu host. -/
def Menu.Enable (m : Menu) (h : Nat) (flag : Bool) : Menu :=
  { m with
    items := m.items.map (fun it => if it.handle = h then { it with enabled := flag } else it) }

/-- Modelled from the spec: `wxMenuItem::GetId()` of the menu host, for the item
with handle `h`. -/
def Menu.GetId (m : Menu) (h : Nat) : Option Int :=
  (m.items.find? (fun it => it.handle == h)).map (fun it => it.id)

/-! ## Collaborators and configuration -/

/-- The value of `g_Conf->CdvdSource`. -/
inductive CDVD_SourceType
  | Iso
  | Disc
  | NoDisc
  deriving DecidableEq, Repr

/-- The fields of the live configuration `g_Conf` read by this unit. -/
structure AppConfig where
  RecentIsoCount : Nat
  AskOnBoot : Bool
  CdvdSource : CDVD_SourceType
  CurrentIso : String

/-- The collaborators that do not change while the program runs: the path helpers
`Path::Normalize` and `Path::GetFilename`, the two fixed menu identifiers of
`MenuIdentifiers`, the text of `GetMsg_IsoImageChanged()`, and the `wxFileName`
conversions of the settings code: `storedPath portable p` is the text the settings
sink keeps for the path `p`, `GetFullName t` and `GetFullPath t` are
`wxFileName::GetFullName` and `wxFileName::GetFullPath` of the value the settings
source yields for the stored text `t`. -/
structure Env where
  Normalize : String → String
  GetFilename : String → String
  MenuId_IsoClearMissing : Int
  MenuId_IsoClear : Int
  GetMsg_IsoImageChanged : String
  storedPath : Bool → String → String
  GetFullName : String → String
  GetFullPath : String → String

/-- What an operation observes of the outside world when it runs: the file system
probe `wxFileExists`, the live configuration `g_Conf`, the result of `IsPortable()`,
and whether `SwapOrReset_Iso` returns normally for a path (`false`: it throws). -/
structure World where
  wxFileExists : String → Bool
  g_Conf : AppConfig
  IsPortable : Bool
  swapSucceeds : String → Bool

/-! ## Data model -/

/-- `RecentIsoManager::RecentItem`. -/
structure RecentItem where
  Filename : String
  ItemPtr : Option Nat
  deriving DecidableEq, Repr

/-- The member variables of `RecentIsoManager`. -/
structure RecentIsoManager where
  m_Items : List RecentItem
  m_Menu : Option Menu
  m_MaxLength : Nat
  m_cursel : Int
  m_firstIdForMenuItems_or_wxID_ANY : Int
  m_Separator : Option Nat
  m_ClearSeparator : Option Nat
  m_Clear : Option Nat
  m_ClearMissing : Option Nat
  deriving DecidableEq, Repr

/-- Undefined behaviour the code can run into. -/
inductive Fault
  | nullDeref
  | outOfBounds
  deriving DecidableEq, Repr

/-- A call `m_Menu->f(...)` that creates an item: a fault when `m_Menu` is null. -/
def callMenu (s : RecentIsoManager) (f : Menu → Nat × Menu) :
    Except Fault (Nat × RecentIsoManager) :=
  match s.m_Menu with
  | none => Except.error Fault.nullDeref
  | some m => Except.ok ((f m).1, { s with m_Menu := some (f m).2 })

/-- The call `m_Menu->Destroy(item)`. -/
def destroyHandle (s : RecentIsoManager) (h : Nat) : RecentIsoManager :=
  { s with m_Menu := s.m_Menu.map (fun m => m.Destroy h) }

/-- The call `item->Check()` on a non-null item pointer. -/
def checkItem (s : RecentIsoManager) (h : Nat) : RecentIsoManager :=
  { s with m_Menu := s.m_Menu.map (fun m => m.Check h) }

/-- The call `item->Enable(flag)` on a non-null item pointer. -/
def enableItem (s : RecentIsoManager) (h : Nat) (flag : Bool) : RecentIsoManager :=
  { s with m_Menu := s.m_Menu.map (fun m => m.Enable h flag) }

/-- The call `filename.Replace("&", "&&", true)`: every ampersand is doubled. -/
def escapeAmpersand (s : String) : String :=
  String.mk (s.toList.flatMap (fun c => if c = '&' then ['&', '&'] else [c]))

/-! ## Menu projection -/

/-- The loop of `RemoveAllFromMenu`, `for (i = cnt-1; i >= 0; --i)`: the first
argument is `i + 1`. -/
def removeLoop : Nat → RecentIsoManager → RecentIsoManager
  | 0, s => s
  | i + 1, s =>
    match s.m_Items[i]? with
    | none => removeLoop i s
    | some curitem =>
      match curitem.ItemPtr with
      | none => removeLoop i s
      | some h =>
        removeLoop i
          { destroyHandle s h with
            m_Items := s.m_Items.set i { curitem with ItemPtr := none } }

/-- `RecentIsoManager::RemoveAllFromMenu`. -/
def RemoveAllFromMenu (s : RecentIsoManager) : RecentIsoManager :=
  match s.m_Menu with
  | none => s
  | some _ =>
    let s1 := removeLoop s.m_Items.length s
    let s2 :=
      match s1.m_Separator with
      | none => s1
      | some h => { destroyHandle s1 h with m_Separator := none }
    let s3 :=
      match s2.m_ClearSeparator with
      | none => s2
      | some h => { destroyHandle s2 h with m_ClearSeparator := none }
    let s4 :=
      match s3.m_Clear with
      | none => s3
      | some h => { destroyHandle s3 h with m_Clear := none }
    match s4.m_ClearMissing with
    | none => s4
    | some h => { destroyHandle s4 h with m_ClearMissing := none }

/-- `RecentIsoManager::InsertIntoMenu`; `id` is the position in `m_Items`. The
identifier `wxid` is the sum `m_firstIdForMenuItems_or_wxID_ANY + id` of two 32-bit
`int`s, held in a 32-bit `int`. -/
def InsertIntoMenu (E : Env) (W : World) (s : RecentIsoManager) (id : Nat) :
    Except Fault RecentIsoManager :=
  match s.m_Menu with
  | none => Except.ok s
  | some menu =>
    match s.m_Items[id]? with
    | none => Except.error Fault.outOfBounds
    | some curitem =>
      let wxid : Int :=
        if s.m_firstIdForMenuItems_or_wxID_ANY ≠ wxID_ANY then
          wrapInt32 (s.m_firstIdForMenuItems_or_wxID_ANY + (id : Int))
        else wxID_ANY
      let filename := escapeAmpersand (E.GetFilename curitem.Filename)
      let r := menu.AppendRadioItem wxid filename curitem.Filename
      let menu2 := r.2.Enable r.1 (W.wxFileExists curitem.Filename && !W.g_Conf.AskOnBoot)
      Except.ok
        { s with
          m_Items := s.m_Items.set id { curitem with ItemPtr := some r.1 }
          m_Menu := some menu2 }

/-- The loop of `Repopulate`, `for (i = cnt-1; i >= 0; --i) InsertIntoMenu(i)`: the
first argument is `i + 1`. -/
def repopulateLoop (E : Env) (W : World) : Nat → RecentIsoManager → Except Fault RecentIsoManager
  | 0, s => Except.ok s
  | i + 1, s =>
    match InsertIntoMenu E W s i with
    | Except.error f => Except.error f
    | Except.ok s1 => repopulateLoop E W i s1

/-- `RecentIsoManager::Repopulate`. -/
def Repopulate (E : Env) (W : World) (s : RecentIsoManager) : Except Fault RecentIsoManager :=
  let cnt := s.m_Items.length
  if cnt ≤ 0 then Except.ok s
  else
    match callMenu s Menu.AppendSeparator with
    | Except.error f => Except.error f
    | Except.ok (sep, s0) =>
      match repopulateLoop E W cnt { s0 with m_Separator := some sep } with
      | Except.error f => Except.error f
      | Except.ok s1 =>
        match callMenu s1 Menu.AppendSeparator with
        | Except.error f => Except.error f
        | Except.ok (csep, s2) =>
          match callMenu { s2 with m_ClearSeparator := some csep }
              (fun m => m.Append E.MenuId_IsoClearMissing "Clear missing files") with
          | Except.error f => Except.error f
          | Except.ok (cm, s3) =>
            match callMenu { s3 with m_ClearMissing := some cm }
                (fun m => m.Append E.MenuId_IsoClear "Clear ISO list") with
            | Except.error f => Except.error f
            | Except.ok (c, s4) => Except.ok { s4 with m_Clear := some c }

/-! ## Entry store -/

/-- The scan of `Add`, `for (i = 0; i < cnt; ++i) if (m_Items[i].Filename == normalized)`:
the index and entry of the first match at or after position `i`. -/
def addScan (normalized : String) : List RecentItem → Nat → Option (Nat × RecentItem)
  | [], _ => none
  | it :: rest, i =>
    if it.Filename = normalized then some (i, it) else addScan normalized rest (i + 1)

/-- The loop `while (m_Items.size() > m_MaxLength) m_Items.erase(m_Items.begin())`. -/
def evictLoop (maxLength : Nat) : List RecentItem → List RecentItem
  | [] => []
  | it :: rest =>
    if (it :: rest).length > maxLength then evictLoop maxLength rest else it :: rest

/-- The last statement of `Add`, `m_Items[m_cursel = m_Items.size()-1].ItemPtr->Check()`. -/
def selectLast (s : RecentIsoManager) : Except Fault RecentIsoManager :=
  match s.m_Items[s.m_Items.length - 1]? with
  | none => Except.error Fault.outOfBounds
  | some it =>
    match it.ItemPtr with
    | none => Except.error Fault.nullDeref
    | some h => Except.ok (checkItem { s with m_cursel := (s.m_Items.length : Int) - 1 } h)

/-- The part of `Add` that follows the scan: the path is new, so the projection is
removed, the entry appended, the oldest entries evicted and the menu rebuilt. -/
def addNew (E : Env) (W : World) (s : RecentIsoManager) (normalized : String) :
    Except Fault RecentIsoManager :=
  let s1 := RemoveAllFromMenu s
  let s2 := { s1 with m_Items := s1.m_Items ++ [RecentItem.mk normalized none] }
  let s3 := { s2 with m_Items := evictLoop s2.m_MaxLength s2.m_Items }
  match Repopulate E W s3 with
  | Except.error f => Except.error f
  | Except.ok s4 => selectLast s4

/-- `RecentIsoManager::Add`. -/
def Add (E : Env) (W : World) (s : RecentIsoManager) (src : String) :
    Except Fault RecentIsoManager :=
  if src = "" then Except.ok s
  else
    let normalized := E.Normalize src
    let cnt := s.m_Items.length
    if cnt ≤ 0 then
      match callMenu s Menu.AppendSeparator with
      | Except.error f => Except.error f
      | Except.ok (sep, s0) => addNew E W { s0 with m_Separator := some sep } normalized
    else
      match addScan normalized s.m_Items 0 with
      | some (i, it) =>
        match it.ItemPtr with
        | none => Except.ok { s with m_cursel := (i : Int) }
        | some h => Except.ok (checkItem { s with m_cursel := (i : Int) } h)
      | none => addNew E W s normalized

/-- `RecentIsoManager::Clear`. -/
def Clear (E : Env) (W : World) (s : RecentIsoManager) : Except Fault RecentIsoManager :=
  let s1 := RemoveAllFromMenu s
  Repopulate E W { s1 with m_Items := [] }

/-- `RecentIsoManager::GetMissingFiles`. -/
def GetMissingFiles (W : World) (s : RecentIsoManager) : List RecentItem :=
  s.m_Items.filter (fun item => !W.wxFileExists item.Filename)

/-- `RecentIsoManager::ClearMissing`. -/
def ClearMissing (E : Env) (W : World) (s : RecentIsoManager) : Except Fault RecentIsoManager :=
  let s1 := RemoveAllFromMenu s
  let existing_files := s1.m_Items.filter (fun item => W.wxFileExists item.Filename)
  Repopulate E W { s1 with m_Items := existing_files }

/-- The loop of `EnableItems` over the entries still to visit. -/
def enableLoop (W : World) (display : Bool) :
    List RecentItem → RecentIsoManager → Except Fault RecentIsoManager
  | [], s => Except.ok s
  | list :: rest, s =>
    match list.ItemPtr with
    | none => Except.error Fault.nullDeref
    | some h => enableLoop W display rest (enableItem s h (display && W.wxFileExists list.Filename))

/-- `RecentIsoManager::EnableItems`. -/
def EnableItems (W : World) (s : RecentIsoManager) (display : Bool) :
    Except Fault RecentIsoManager :=
  enableLoop W display s.m_Items s

/-! ## Selection -/

/-- The part of a `wxCommandEvent` used here: its identifier and whether `Skip()`
was called on it. -/
structure wxCommandEvent where
  id : Int
  skipped : Bool
  deriving DecidableEq, Repr

/-- What the selection handler asks of the emulation core, in order. -/
inductive CoreEffect
  | pause
  | swap (path : String) (message : String)
  | resume
  deriving DecidableEq, Repr

/-- Modelled from the spec: constructing a `ScopedCoreThreadPopup` (its code is not
in this unit) suspends the core; section 5: "on entry it suspends the engine". -/
def scopedPauseAcquire : List CoreEffect := [CoreEffect.pause]

/-- Modelled from the spec: leaving the scope of a `ScopedCoreThreadPopup` (its code
is not in this unit); section 5: "on every exit path (normal return, early skip, or
propagated failure) it either explicitly allows resume or lets automatic release
restore prior run state". The argument tells whether `AllowResume()` was called. -/
def scopedPauseRelease (_allowResume : Bool) : List CoreEffect := [CoreEffect.resume]

/-- The test of the scan in `OnChangedSelection`:
`(ItemPtr != NULL) && (ItemPtr->GetId() == evt.GetId())`. -/
def selectionMatches (s : RecentIsoManager) (evtId : Int) (it : RecentItem) : Bool :=
  match it.ItemPtr with
  | none => false
  | some h =>
    match s.m_Menu with
    | none => false
    | some m => m.GetId h == some evtId

/-- The scan of `OnChangedSelection`: the value of `i` when the loop ends, starting
at position `i` with the listed entries still to visit. -/
def selectionScan (s : RecentIsoManager) (evtId : Int) : List RecentItem → Nat → Nat
  | [], i => i
  | it :: rest, i =>
    if selectionMatches s evtId it then i else selectionScan s evtId rest (i + 1)

/-- What a call of `OnChangedSelection` leaves behind: the manager, the event, the
requests made to the core, and whether an exception of `SwapOrReset_Iso` leaves
the handler. -/
structure SelectionOutcome where
  state : RecentIsoManager
  evt : wxCommandEvent
  trace : List CoreEffect
  thrown : Bool
  deriving DecidableEq, Repr

/-- `RecentIsoManager::OnChangedSelection`. -/
def OnChangedSelection (E : Env) (W : World) (s : RecentIsoManager) (evt : wxCommandEvent) :
    Except Fault SelectionOutcome :=
  let i := selectionScan s evt.id s.m_Items 0
  if i ≥ s.m_Items.length then
    Except.ok { state := s, evt := { evt with skipped := true }, trace := [], thrown := false }
  else
    match s.m_Items[i]? with
    | none => Except.error Fault.outOfBounds
    | some it =>
      if W.g_Conf.CdvdSource = CDVD_SourceType.Iso ∧ it.Filename = W.g_Conf.CurrentIso then
        Except.ok { state := s, evt := { evt with skipped := true }, trace := [], thrown := false }
      else
        let s1 := { s with m_cursel := (i : Int) }
        let t0 := scopedPauseAcquire
        match s1.m_Menu with
        | none => Except.error Fault.nullDeref
        | some _ =>
          let t1 := t0 ++ [CoreEffect.swap it.Filename E.GetMsg_IsoImageChanged]
          if W.swapSucceeds it.Filename then
            Except.ok { state := s1, evt := evt, trace := t1 ++ scopedPauseRelease true,
                        thrown := false }
          else
            Except.ok { state := s1, evt := evt, trace := t1 ++ scopedPauseRelease false,
                        thrown := true }

/-! ## Settings -/

/-- Modelled from the spec: the settings object behind `IniInterface` (section 6,
"scoped named group, ordered keyed string/path entries with typed default
fallback, is saving vs loading mode flag"). `group` is the content of the group
`RecentIso`: the pair `(i, t)` is the key `Filename%02d` of index `i` with text `t`. -/
structure IniInterface where
  IsOk : Bool
  IsSaving : Bool
  group : List (Nat × String)
  deriving DecidableEq, Repr

/-- Modelled from the spec: `ini.GetConfig().DeleteGroup(L"RecentIso")`. -/
def IniInterface.DeleteGroup (ini : IniInterface) : IniInterface :=
  { ini with group := [] }

/-- Modelled from the spec: `ini.Entry(key, value, default, ...)` on a saving
settings sink writes the value under the key. -/
def IniInterface.write (ini : IniInterface) (i : Nat) (text : String) : IniInterface :=
  { ini with group := (ini.group.filter (fun kv => kv.1 != i)) ++ [(i, text)] }

/-- Modelled from the spec: `ini.Entry(key, value, default, ...)` on a loading
settings source yields the stored text, `none` (the default) when the key is absent. -/
def IniInterface.read (ini : IniInterface) (i : Nat) : Option String :=
  ini.group.lookup i

/-- The loop of `LoadListFrom`, `for (i = 0; i < m_MaxLength; ++i)`: `n` iterations
remain and the next key index is `i`. An absent key leaves `loadtmp` the empty
`wxFileName`, whose full name is empty. -/
def loadLoop (E : Env) (W : World) (ini : IniInterface) :
    Nat → Nat → RecentIsoManager → Except Fault RecentIsoManager
  | 0, _, s => Except.ok s
  | n + 1, i, s =>
    match ini.read i with
    | none => loadLoop E W ini n (i + 1) s
    | some loadtmp =>
      if E.GetFullName loadtmp ≠ "" then
        match Add E W s (E.GetFullPath loadtmp) with
        | Except.error f => Except.error f
        | Except.ok s1 => loadLoop E W ini n (i + 1) s1
      else loadLoop E W ini n (i + 1) s

/-- `RecentIsoManager::LoadListFrom`. The calls of `SetRecordDefaults` act on the
settings object only. -/
def LoadListFrom (E : Env) (W : World) (s : RecentIsoManager) (ini : IniInterface) :
    Except Fault RecentIsoManager :=
  if !ini.IsOk then Except.ok s
  else
    let s1 := RemoveAllFromMenu s
    let s2 := { s1 with m_MaxLength := W.g_Conf.RecentIsoCount }
    match loadLoop E W ini s2.m_MaxLength 0 s2 with
    | Except.error f => Except.error f
    | Except.ok s3 => Add E W s3 W.g_Conf.CurrentIso

/-- The saving loop of `AppStatusEvent_OnUiSettingsLoadSave`, `for (i = 0; i < cnt; ++i)`,
over the entries still to write, the next key index being `i`. -/
def saveLoop (E : Env) (W : World) : List RecentItem → Nat → IniInterface → IniInterface
  | [], _, ini => ini
  | it :: rest, i, ini =>
    saveLoop E W rest (i + 1) (ini.write i (E.storedPath W.IsPortable it.Filename))

/-- `RecentIsoManager::AppStatusEvent_OnUiSettingsLoadSave`, for the settings object
`evt.GetIni()`. -/
def AppStatusEvent_OnUiSettingsLoadSave (E : Env) (W : World) (s : RecentIsoManager)
    (ini : IniInterface) : Except Fault (RecentIsoManager × IniInterface) :=
  if ini.IsSaving then
    Except.ok (s, saveLoop E W s.m_Items 0 ini.DeleteGroup)
  else
    match LoadListFrom E W s ini with
    | Except.error f => Except.error f
    | Except.ok s1 => Except.ok (s1, ini)

/-- The constructor `RecentIsoManager::RecentIsoManager`, `loader` being the settings
read by its `IniLoader`. -/
def construct (E : Env) (W : World) (menu : Option Menu) (firstId : Int)
    (loader : IniInterface) : Except Fault RecentIsoManager :=
  LoadListFrom E W
    { m_Items := []
      m_Menu := menu
      m_MaxLength := W.g_Conf.RecentIsoCount
      m_cursel := 0
      m_firstIdForMenuItems_or_wxID_ANY := firstId
      m_Separator := none
      m_ClearSeparator := none
      m_Clear := none
      m_ClearMissing := none }
    loader

/-- The operations that change a manager after its construction. -/
inductive Op
  | add (src : String)
  | clear
  | clearMissing
  | loadListFrom (ini : IniInterface)
  | select (evt : wxCommandEvent)
  deriving DecidableEq, Repr

/-- One operation, run in the world it observes. -/
def step (E : Env) (W : World) (s : RecentIsoManager) : Op → Except Fault RecentIsoManager
  | Op.add src => Add E W s src
  | Op.clear => Clear E W s
  | Op.clearMissing => ClearMissing E W s
  | Op.loadListFrom ini => LoadListFrom E W s ini
  | Op.select evt =>
    match OnChangedSelection E W s evt with
    | Except.error f => Except.error f
    | Except.ok r => Except.ok r.state

/-- A sequence of operations, each with the world it runs in, stopping at the first
fault. -/
def run (E : Env) : RecentIsoManager → List (World × Op) → Except Fault RecentIsoManager
  | s, [] => Except.ok s
  | s, (W, op) :: rest =>
    match step E W s op with
    | Except.error f => Except.error f
    | Except.ok s1 => run E s1 rest

/-- A store with no entries and nothing projected, as the constructor leaves it
before it loads the saved list. -/
def emptyStore (menu : Option Menu) (maxLength : Nat) (firstId : Int) : RecentIsoManager :=
  { m_Items := []
    m_Menu := menu
    m_MaxLength := maxLength
    m_cursel := 0
    m_firstIdForMenuItems_or_wxID_ANY := firstId
    m_Separator := none
    m_ClearSeparator := none
    m_Clear := none
    m_ClearMissing := none }

/-- A sequence of `Add` calls, each with the world it runs in, stopping at the first
fault. -/
def addAll (E : Env) : RecentIsoManager → List (World × String) → Except Fault RecentIsoManager
  | s, [] => Except.ok s
  | s, (W, src) :: rest =>
    match Add E W s src with
    | Except.error f => Except.error f
    | Except.ok s1 => addAll E s1 rest

/-- The paths held by the store, oldest first. -/
def filenames (s : RecentIsoManager) : List String :=
  s.m_Items.map (fun it => it.Filename)

/-- An empty menu. -/
def emptyMenu : Menu := { items := [], destroyed := [] }

/-- A test environment: paths are already normal, the display name is the path. -/
def testEnv : Env :=
  { Normalize := fun p => p
    GetFilename := fun p => p
    MenuId_IsoClearMissing := 101
    MenuId_IsoClear := 102
    GetMsg_IsoImageChanged := "changed"
    storedPath := fun _ p => p
    GetFullName := fun p => p
    GetFullPath := fun p => p }

/-- A test world in which every file exists. -/
def testWorld : World :=
  { wxFileExists := fun _ => true
    g_Conf := { RecentIsoCount := 2, AskOnBoot := false, CdvdSource := CDVD_SourceType.Iso,
                CurrentIso := "" }
    IsPortable := false
    swapSucceeds := fun _ => true }

/-! ## Closed forms of the projection, used to state and prove the theorems -/

/-- The item `InsertIntoMenu` creates for the entry `it` at position `id`. -/
def radioItemFor (E : Env) (W : World) (firstId : Int) (h : Nat) (id : Nat) (it : RecentItem) :
    MenuItem :=
  { handle := h
    id := if firstId ≠ wxID_ANY then wrapInt32 (firstId + (id : Int)) else wxID_ANY
    kind := ItemKind.radio
    label := escapeAmpersand (E.GetFilename it.Filename)
    help := it.Filename
    enabled := W.wxFileExists it.Filename && !W.g_Conf.AskOnBoot
    checked := false }

/-- The radio items of a projection, in menu order: the argument lists the entries
newest first, the first of them receives the handle `h`. -/
def radioItems (E : Env) (W : World) (firstId : Int) : List RecentItem → Nat → List MenuItem
  | [], _ => []
  | it :: older, h => radioItemFor E W firstId h older.length it :: radioItems E W firstId older (h + 1)

/-- The entries, newest first, each with the handle of its radio item. -/
def assignHandles : List RecentItem → Nat → List RecentItem
  | [], _ => []
  | it :: older, h => { it with ItemPtr := some h } :: assignHandles older (h + 1)

/-- A separator item with handle `h`. -/
def separatorItem (h : Nat) : MenuItem :=
  { handle := h, id := wxID_SEPARATOR, kind := ItemKind.separator, label := "", help := "",
    enabled := true, checked := false }

/-- An action item with handle `h`. -/
def actionItem (h : Nat) (id : Int) (label : String) : MenuItem :=
  { handle := h, id := id, kind := ItemKind.normal, label := label, help := "",
    enabled := true, checked := false }

/-- The state `Repopulate` produces from a store with entries and the menu `m`. -/
def repopulated (E : Env) (W : World) (s : RecentIsoManager) (m : Menu) : RecentIsoManager :=
  let f := m.freshHandle
  let n := s.m_Items.length
  { s with
    m_Items := (assignHandles s.m_Items.reverse (f + 1)).reverse
    m_Menu := some
      { m with
        items := m.items ++ separatorItem f ::
          (radioItems E W s.m_firstIdForMenuItems_or_wxID_ANY s.m_Items.reverse (f + 1) ++
            [separatorItem (f + n + 1),
             actionItem (f + n + 2) E.MenuId_IsoClearMissing "Clear missing files",
             actionItem (f + n + 3) E.MenuId_IsoClear "Clear ISO list"]) }
    m_Separator := some f
    m_ClearSeparator := some (f + n + 1)
    m_ClearMissing := some (f + n + 2)
    m_Clear := some (f + n + 3) }

/-- An entry with its item pointer reset to `NULL`. -/
def clearPtr (it : RecentItem) : RecentItem := { it with ItemPtr := none }

/-- The menu after `Destroy` was called for each of the handles in turn. -/
def destroyAll (m : Menu) (hs : List Nat) : Menu := hs.foldl Menu.Destroy m

/-- The handles `RemoveAllFromMenu` destroys, in the order in which it does so. -/
def projectedHandles (s : RecentIsoManager) : List Nat :=
  s.m_Items.reverse.filterMap (fun it => it.ItemPtr) ++ s.m_Separator.toList ++
    s.m_ClearSeparator.toList ++ s.m_Clear.toList ++ s.m_ClearMissing.toList

/-- The state `Add` produces when the normalized path is new, from a store with the
menu `m`. -/
def added (E : Env) (W : World) (s : RecentIsoManager) (m : Menu) (normalized : String) :
    RecentIsoManager :=
  let m1 := destroyAll m (projectedHandles s)
  let s4 := repopulated E W
    { s with
      m_Items := evictLoop s.m_MaxLength (s.m_Items.map clearPtr ++ [RecentItem.mk normalized none])
      m_Menu := some m1
      m_Separator := none
      m_ClearSeparator := none
      m_Clear := none
      m_ClearMissing := none } m1
  checkItem { s4 with m_cursel := (s4.m_Items.length : Int) - 1 } (m1.freshHandle + 1)

/-- The paths of the store after `Add` of a path whose normalized form is `p`, in the
words of the specification: an already present path changes nothing, a new one is
appended and the oldest paths are evicted until at most `cap` remain. -/
def addPath (cap : Nat) (paths : List String) (p : String) : List String :=
  if p ∈ paths then paths else (paths ++ [p]).drop (paths.length + 1 - cap)

/-- The store on which the new-entry part of `Add` starts: an empty store has just
received a separator. -/
def addPrepared (s : RecentIsoManager) (m : Menu) : RecentIsoManager :=
  if s.m_Items.length ≤ 0 then
    { s with m_Menu := some m.AppendSeparator.2, m_Separator := some m.AppendSeparator.1 }
  else s

/-- The menu of `addPrepared`. -/
def preparedMenu (s : RecentIsoManager) (m : Menu) : Menu :=
  if s.m_Items.length ≤ 0 then m.AppendSeparator.2 else m

/-- The paths of the store after a sequence of `Add` calls with the given raw paths,
in the words of the specification: an empty raw path is ignored, any other is
normalized and added. -/
def addPaths (E : Env) (cap : Nat) : List String → List String → List String
  | paths, [] => paths
  | paths, src :: rest =>
    addPaths E cap (if src = "" then paths else addPath cap paths (E.Normalize src)) rest

/-- A store with the two projected entries `A` and `B` and room for one only. -/
def overfullStore : RecentIsoManager :=
  { m_Items := [RecentItem.mk "A" (some 3), RecentItem.mk "B" (some 2)]
    m_Menu := some
      { items := [separatorItem 1,
                  radioItemFor testEnv testWorld 5000 2 1 (RecentItem.mk "B" none),
                  radioItemFor testEnv testWorld 5000 3 0 (RecentItem.mk "A" none)]
        destroyed := [] }
    m_MaxLength := 1
    m_cursel := 1
    m_firstIdForMenuItems_or_wxID_ANY := 5000
    m_Separator := some 1
    m_ClearSeparator := none
    m_Clear := none
    m_ClearMissing := none }

/-- A store with the two unprojected entries `B` and `C`. -/
def storeBC : RecentIsoManager :=
  { emptyStore (some emptyMenu) 2 5000 with
    m_Items := [RecentItem.mk "B" none, RecentItem.mk "C" none] }

/-- A world in which every file but `B` exists. -/
def worldWithoutB : World :=
  { testWorld with wxFileExists := fun p => p != "B" }

/-- A store with the three unprojected entries `A`, `B` and `C`. -/
def storeABC : RecentIsoManager :=
  { emptyStore (some emptyMenu) 3 5000 with
    m_Items := [RecentItem.mk "A" none, RecentItem.mk "B" none, RecentItem.mk "C" none] }

/-- A world in which the image `A` is recorded as current while the source is the
disc drive. -/
def discWorld : World :=
  { testWorld with
    g_Conf := { RecentIsoCount := 2, AskOnBoot := false, CdvdSource := CDVD_SourceType.Disc,
                CurrentIso := "A" } }

/-- A world in which the image `A` is the current source. -/
def isoWorld : World :=
  { testWorld with
    g_Conf := { RecentIsoCount := 2, AskOnBoot := false, CdvdSource := CDVD_SourceType.Iso,
                CurrentIso := "A" } }

/-- A world in which swapping to an image fails. -/
def failingWorld : World :=
  { testWorld with swapSucceeds := fun _ => false }

/-- A store with the two unprojected entries `X` and `Y`. -/
def storeXY : RecentIsoManager :=
  { emptyStore (some emptyMenu) 2 5000 with
    m_Items := [RecentItem.mk "X" none, RecentItem.mk "Y" none] }

/-- A settings sink in saving mode that still holds an old entry. -/
def savingIni : IniInterface :=
  { IsOk := true, IsSaving := true, group := [(5, "old")] }

/-- Whether, along a sequence of operations, every `LoadListFrom` with a usable
settings source runs with a configured capacity `g_Conf->RecentIsoCount` that is
not smaller than the number of entries held at that moment. -/
def loadsFit (E : Env) : RecentIsoManager → List (World × Op) → Bool
  | _, [] => true
  | s, (W, op) :: rest =>
    (match op with
     | Op.loadListFrom ini => !ini.IsOk || decide (s.m_Items.length ≤ W.g_Conf.RecentIsoCount)
     | _ => true) &&
    (match step E W s op with
     | Except.ok s1 => loadsFit E s1 rest
     | Except.error _ => true)

/-- Saved settings with the two paths `A` and `B`. -/
def iniAB : IniInterface :=
  { IsOk := true, IsSaving := false, group := [(0, "A"), (1, "B")] }

/-- A world whose configured capacity is one. -/
def smallWorld : World :=
  { testWorld with
    g_Conf := { RecentIsoCount := 1, AskOnBoot := false, CdvdSource := CDVD_SourceType.Iso,
                CurrentIso := "" } }

/-- Whether nothing of the store is projected: every item pointer and the four other
handles are null. -/
def nothingProjected (s : RecentIsoManager) : Prop :=
  (∀ it ∈ s.m_Items, it.ItemPtr = none) ∧ s.m_Separator = none ∧ s.m_ClearSeparator = none ∧
    s.m_Clear = none ∧ s.m_ClearMissing = none

instance nothingProjectedDecidable (s : RecentIsoManager) : Decidable (nothingProjected s) := by
  unfold nothingProjected
  infer_instance

/-- The menu item an entry's `ItemPtr` points to, if it is not null and the item is
in the menu. -/
def itemOf (s : RecentIsoManager) (it : RecentItem) : Option MenuItem :=
  match it.ItemPtr, s.m_Menu with
  | some h, some m => m.items.find? (fun x => x.handle == h)
  | _, _ => none

/-- Whether the entry at index `i` is projected as a radio item that carries the
identifier `m_firstIdForMenuItems_or_wxID_ANY + i` and shows the entry's path. -/
def entryCorrelated (s : RecentIsoManager) (i : Nat) (it : RecentItem) : Prop :=
  ∃ x, itemOf s it = some x ∧ x.id = s.m_firstIdForMenuItems_or_wxID_ANY + (i : Int) ∧
    x.help = it.Filename ∧ x.kind = ItemKind.radio

/-- Whether every entry is correlated with its index. -/
def identifiersCorrelated (s : RecentIsoManager) : Prop :=
  ∀ (i : Nat) (it : RecentItem), s.m_Items[i]? = some it → entryCorrelated s i it

/-- Whether the identifiers of the items of different entries differ. -/
def identifiersDistinct (s : RecentIsoManager) : Prop :=
  ∀ (i j : Nat) (it jt : RecentItem), s.m_Items[i]? = some it → s.m_Items[j]? = some jt →
    (itemOf s it).map (fun x => x.id) = (itemOf s jt).map (fun x => x.id) → i = j

/-- Whether the scan of `OnChangedSelection` for the identifier
`m_firstIdForMenuItems_or_wxID_ANY + i` stops at index `i`, for every index `i` of
the store. -/
def scanFindsEntries (s : RecentIsoManager) : Prop :=
  ∀ (i : Nat) (it : RecentItem), s.m_Items[i]? = some it →
    selectionScan s (s.m_firstIdForMenuItems_or_wxID_ANY + (i : Int)) s.m_Items 0 = i

/-- Whether the sum `base + i` lies in the range of a 32-bit `int` for every index `i`
below `n`. -/
def identifiersFit (base : Int) (n : Nat) : Prop :=
  ∀ i, i < n → INT_MIN ≤ base + (i : Int) ∧ base + (i : Int) ≤ INT_MAX

instance identifiersFitDecidable (base : Int) (n : Nat) : Decidable (identifiersFit base n) := by
  unfold identifiersFit
  infer_instance

/-- The store `B`, `C` with the largest 32-bit `int` as identifier base. -/
def storeAtIntMax : RecentIsoManager :=
  { emptyStore (some emptyMenu) 2 INT_MAX with
    m_Items := [RecentItem.mk "B" none, RecentItem.mk "C" none] }

/-- A world of capacity two in which the image `C` is current. -/
def worldWithCurrentC : World :=
  { testWorld with
    g_Conf := { RecentIsoCount := 2, AskOnBoot := false, CdvdSource := CDVD_SourceType.Iso,
                CurrentIso := "C" } }

/-- The condition of `pxAssert( m_Separator == NULL )` in `Add`; `true` when the call
does not reach the assertion. -/
def addAssertion (s : RecentIsoManager) (src : String) : Bool :=
  if src = "" then true
  else if s.m_Items.length ≤ 0 then s.m_Separator.isNone
  else true

/-- Whether a store without entries has no separator and no action projected. -/
def emptyMeansUnprojected (s : RecentIsoManager) : Prop :=
  s.m_Items = [] → s.m_Separator = none ∧ s.m_ClearSeparator = none ∧
    s.m_ClearMissing = none ∧ s.m_Clear = none

/-- Whether `m_cursel` is a valid index whenever the store has entries. -/
def selectionValidIfNonempty (s : RecentIsoManager) : Prop :=
  s.m_Items ≠ [] → ∃ k : Nat, s.m_cursel = (k : Int) ∧ k < s.m_Items.length

/-- Whether, along a sequence of operations, every `ClearMissing` runs when no entry
is missing, so that it removes none. -/
def clearMissingRemovesNothing (E : Env) : RecentIsoManager → List (World × Op) → Bool
  | _, [] => true
  | s, (W, op) :: rest =>
    (match op with
     | Op.clearMissing => (GetMissingFiles W s).isEmpty
     | _ => true) &&
    (match step E W s op with
     | Except.ok s1 => clearMissingRemovesNothing E s1 rest
     | Except.error _ => true)

/-- Saved settings without any path. -/
def iniEmpty : IniInterface :=
  { IsOk := true, IsSaving := false, group := [] }

/-- The calls `ItemPtr->Enable(flag)` that `EnableItems` makes, in order, as pairs of
handle and flag. -/
def enableFlags (W : World) (display : Bool) (l : List RecentItem) : List (Nat × Bool) :=
  l.filterMap (fun it => it.ItemPtr.map (fun h => (h, display && W.wxFileExists it.Filename)))

/-- A menu item after the calls `Enable` listed in `flags`. -/
def enabledAfter (flags : List (Nat × Bool)) (x : MenuItem) : MenuItem :=
  flags.foldl (fun y hb => if y.handle = hb.1 then { y with enabled := hb.2 } else y) x

/-! ## The menu host and the projection loops -/

theorem le_maxOf {l : List Nat} {x : Nat} (h : x ∈ l) : x ≤ maxOf l := by
  induction l with
  | nil => simp at h
  | cons a t ih =>
    simp only [maxOf, List.foldr_cons] at *
    rcases List.mem_cons.mp h with rfl | h
    · exact le_max_left _ _
    · exact le_trans (ih h) (le_max_right _ _)

theorem maxOf_append (l1 l2 : List Nat) : maxOf (l1 ++ l2) = max (maxOf l1) (maxOf l2) := by
  induction l1 with
  | nil => simp [maxOf]
  | cons a t ih =>
    simp only [maxOf, List.cons_append, List.foldr_cons] at *
    rw [ih, max_assoc]

theorem handle_lt_freshHandle (m : Menu) {it : MenuItem} (h : it ∈ m.items) :
    it.handle < m.freshHandle := by
  have : it.handle ≤ maxOf (m.items.map (fun it => it.handle)) :=
    le_maxOf (List.mem_map.mpr ⟨it, h, rfl⟩)
  unfold Menu.freshHandle
  omega

theorem freshHandle_snoc (m : Menu) (x : MenuItem) (hx : x.handle = m.freshHandle) :
    ({ m with items := m.items ++ [x] } : Menu).freshHandle = m.freshHandle + 1 := by
  simp only [Menu.freshHandle, List.map_append, maxOf_append, List.map_cons, List.map_nil, hx]
  simp only [maxOf, List.foldr_cons, List.foldr_nil]
  omega

theorem freshHandle_Enable (m : Menu) (h : Nat) (b : Bool) :
    (m.Enable h b).freshHandle = m.freshHandle := by
  simp only [Menu.Enable, Menu.freshHandle, List.map_map]
  congr 3
  apply List.map_congr_left
  intro a _
  simp only [Function.comp]
  split <;> rfl

theorem Enable_items_of_fresh (m : Menu) (b : Bool) (x : MenuItem) (hx : x.handle = m.freshHandle) :
    ({ m with items := m.items ++ [x] } : Menu).Enable m.freshHandle b
      = { m with items := m.items ++ [{ x with enabled := b }] } := by
  simp only [Menu.Enable, List.map_append, List.map_cons, List.map_nil, hx, if_true]
  congr 2
  conv_rhs => rw [← List.map_id m.items]
  apply List.map_congr_left
  intro a ha
  have := handle_lt_freshHandle m ha
  simp [Nat.ne_of_lt this]

theorem InsertIntoMenu_eq (E : Env) (W : World) (s : RecentIsoManager) (m : Menu)
    (pre suf : List RecentItem) (x : RecentItem)
    (hm : s.m_Menu = some m) (hi : s.m_Items = pre ++ x :: suf) :
    InsertIntoMenu E W s pre.length = Except.ok
      { s with
        m_Items := pre ++ { x with ItemPtr := some m.freshHandle } :: suf
        m_Menu := some { m with items := m.items ++
          [radioItemFor E W s.m_firstIdForMenuItems_or_wxID_ANY m.freshHandle pre.length x] } } := by
  have hget : s.m_Items[pre.length]? = some x := by
    rw [hi, List.getElem?_append_right (le_refl _)]; simp
  have hset : s.m_Items.set pre.length { x with ItemPtr := some m.freshHandle }
      = pre ++ { x with ItemPtr := some m.freshHandle } :: suf := by
    rw [hi]; simp
  unfold InsertIntoMenu
  simp only [hm, hget, hset, Menu.AppendRadioItem, Menu.appendItem]
  rw [Enable_items_of_fresh m _ _ rfl]
  rfl

theorem repopulateLoop_eq (E : Env) (W : World) (rpre : List RecentItem) :
    ∀ (s : RecentIsoManager) (m : Menu) (suf : List RecentItem),
      s.m_Menu = some m → s.m_Items = rpre.reverse ++ suf →
      repopulateLoop E W rpre.length s = Except.ok
        { s with
          m_Items := (assignHandles rpre m.freshHandle).reverse ++ suf
          m_Menu := some { m with items := (m.items ++
            radioItems E W s.m_firstIdForMenuItems_or_wxID_ANY rpre m.freshHandle) } } := by
  induction rpre with
  | nil =>
    intro s m suf hm hi
    simp only [List.length_nil, repopulateLoop, assignHandles, radioItems, List.reverse_nil,
      List.nil_append, List.append_nil]
    simp only [List.reverse_nil, List.nil_append] at hi
    rw [← hi, ← hm]
  | cons x older ih =>
    intro s m suf hm hi
    have hi2 : s.m_Items = older.reverse ++ x :: suf := by
      rw [hi]; simp
    have hins := InsertIntoMenu_eq E W s m older.reverse suf x hm hi2
    rw [List.length_reverse] at hins
    simp only [List.length_cons, repopulateLoop, hins]
    rw [ih _ _ ({ x with ItemPtr := some m.freshHandle } :: suf) rfl rfl]
    have hf : ({ m with items := m.items ++
          [radioItemFor E W s.m_firstIdForMenuItems_or_wxID_ANY m.freshHandle older.length x] } : Menu).freshHandle
        = m.freshHandle + 1 := freshHandle_snoc m _ rfl
    simp [hf, assignHandles, radioItems]

theorem freshHandle_radioItems (E : Env) (W : World) (fid : Int) (rpre : List RecentItem) :
    ∀ (m : Menu),
      ({ m with items := m.items ++ radioItems E W fid rpre m.freshHandle } : Menu).freshHandle
        = m.freshHandle + rpre.length := by
  induction rpre with
  | nil => intro m; simp [radioItems]
  | cons x older ih =>
    intro m
    have hf := freshHandle_snoc m (radioItemFor E W fid m.freshHandle older.length x) rfl
    have h := ih { m with items := m.items ++ [radioItemFor E W fid m.freshHandle older.length x] }
    rw [hf] at h
    simp only [radioItems, List.length_cons]
    simp only [List.append_assoc, List.singleton_append] at h
    rw [h]; omega

theorem callMenu_eq (s : RecentIsoManager) (m : Menu) (f : Menu → Nat × Menu)
    (hm : s.m_Menu = some m) :
    callMenu s f = Except.ok ((f m).1, { s with m_Menu := some (f m).2 }) := by
  simp [callMenu, hm]

theorem Repopulate_eq (E : Env) (W : World) (s : RecentIsoManager) (m : Menu)
    (hm : s.m_Menu = some m) (hne : s.m_Items ≠ []) :
    Repopulate E W s = Except.ok (repopulated E W s m) := by
  have hlen : ¬ s.m_Items.length ≤ 0 := by
    cases h : s.m_Items with
    | nil => exact absurd h hne
    | cons a t => simp
  have hf0 : ({ m with items := m.items ++ [separatorItem m.freshHandle] } : Menu).freshHandle
      = m.freshHandle + 1 := freshHandle_snoc m _ rfl
  have hloop := repopulateLoop_eq E W s.m_Items.reverse
    { s with m_Menu := some { m with items := m.items ++ [separatorItem m.freshHandle] },
             m_Separator := some m.freshHandle }
    { m with items := m.items ++ [separatorItem m.freshHandle] } [] rfl (by simp)
  rw [List.length_reverse, hf0] at hloop
  simp only [List.append_nil] at hloop
  have hf1 := freshHandle_radioItems E W s.m_firstIdForMenuItems_or_wxID_ANY s.m_Items.reverse
    { m with items := m.items ++ [separatorItem m.freshHandle] }
  rw [hf0, List.length_reverse] at hf1
  simp only at hf1
  unfold Repopulate
  simp only [hlen, if_false, callMenu_eq s m _ hm, Menu.AppendSeparator, Menu.appendItem]
  have hsep : (⟨m.freshHandle, wxID_SEPARATOR, ItemKind.separator, "", "", true, false⟩ : MenuItem)
      = separatorItem m.freshHandle := rfl
  rw [hsep, hloop]
  have hf2 := freshHandle_snoc
    { m with items := m.items ++ [separatorItem m.freshHandle] ++
        radioItems E W s.m_firstIdForMenuItems_or_wxID_ANY s.m_Items.reverse (m.freshHandle + 1) }
    (separatorItem (m.freshHandle + 1 + s.m_Items.length)) (by rw [hf1]; rfl)
  rw [hf1] at hf2
  have hf3 := freshHandle_snoc
    { m with items := m.items ++ [separatorItem m.freshHandle] ++
        radioItems E W s.m_firstIdForMenuItems_or_wxID_ANY s.m_Items.reverse (m.freshHandle + 1) ++
        [separatorItem (m.freshHandle + 1 + s.m_Items.length)] }
    (actionItem (m.freshHandle + 1 + s.m_Items.length + 1) E.MenuId_IsoClearMissing
      "Clear missing files") (by rw [hf2]; rfl)
  rw [hf2] at hf3
  simp only at hf2 hf3
  have hs : ∀ h, (⟨h, wxID_SEPARATOR, ItemKind.separator, "", "", true, false⟩ : MenuItem)
      = separatorItem h := fun _ => rfl
  have ha : ∀ h i l, (⟨h, i, ItemKind.normal, l, "", true, false⟩ : MenuItem)
      = actionItem h i l := fun _ _ _ => rfl
  simp only [callMenu, Menu.AppendSeparator, Menu.Append, Menu.appendItem, hf1, hs, ha, hf2, hf3]
  simp only [repopulated, List.append_assoc, List.singleton_append, List.cons_append,
    List.nil_append]
  have e1 : m.freshHandle + 1 + s.m_Items.length = m.freshHandle + s.m_Items.length + 1 := by omega
  have e2 : m.freshHandle + 1 + s.m_Items.length + 1 = m.freshHandle + s.m_Items.length + 2 := by
    omega
  have e3 : m.freshHandle + 1 + s.m_Items.length + 1 + 1 = m.freshHandle + s.m_Items.length + 3 := by
    omega
  rw [e3, e2, e1]

theorem removeLoop_eq (rpre : List RecentItem) :
    ∀ (s : RecentIsoManager) (m : Menu) (suf : List RecentItem),
      s.m_Menu = some m → s.m_Items = rpre.reverse ++ suf →
      removeLoop rpre.length s =
        { s with
          m_Items := (rpre.map clearPtr).reverse ++ suf
          m_Menu := some (destroyAll m (rpre.filterMap (fun it => it.ItemPtr))) } := by
  induction rpre with
  | nil =>
    intro s m suf hm hi
    simp only [List.reverse_nil, List.nil_append] at hi
    simp only [List.length_nil, removeLoop, List.map_nil, List.reverse_nil, List.nil_append,
      List.filterMap_nil, destroyAll, List.foldl_nil]
    rw [← hi, ← hm]
  | cons x older ih =>
    intro s m suf hm hi
    have hi2 : s.m_Items = older.reverse ++ x :: suf := by rw [hi]; simp
    have hget : s.m_Items[older.length]? = some x := by
      rw [hi2, List.getElem?_append_right (by simp)]; simp
    simp only [List.length_cons, removeLoop, hget]
    cases hx : x.ItemPtr with
    | none =>
      simp only
      rw [ih s m (x :: suf) hm hi2]
      have : clearPtr x = x := by
        cases x; simp only [clearPtr]; simp only at hx; rw [hx]
      simp [hx, this]
    | some h =>
      simp only
      have hset : s.m_Items.set older.length { x with ItemPtr := none }
          = older.reverse ++ clearPtr x :: suf := by
        rw [hi2]; simp [clearPtr]
      rw [hset]
      rw [ih _ (m.Destroy h) (clearPtr x :: suf) (by simp [destroyHandle, hm]) rfl]
      simp [hx, destroyAll, destroyHandle]

theorem RemoveAllFromMenu_eq (s : RecentIsoManager) (m : Menu) (hm : s.m_Menu = some m) :
    RemoveAllFromMenu s =
      { s with
        m_Items := s.m_Items.map clearPtr
        m_Menu := some (destroyAll m (projectedHandles s))
        m_Separator := none
        m_ClearSeparator := none
        m_Clear := none
        m_ClearMissing := none } := by
  have hloop := removeLoop_eq s.m_Items.reverse s m [] hm (by simp)
  rw [List.length_reverse] at hloop
  simp only [List.append_nil, List.map_reverse, List.reverse_reverse] at hloop
  unfold RemoveAllFromMenu
  simp only [hm, hloop, projectedHandles, destroyAll, List.foldl_append]
  cases s.m_Separator <;> cases s.m_ClearSeparator <;> cases s.m_Clear <;>
    cases s.m_ClearMissing <;> simp [destroyHandle]

theorem RemoveAllFromMenu_null (s : RecentIsoManager) (hm : s.m_Menu = none) :
    RemoveAllFromMenu s = s := by
  simp [RemoveAllFromMenu, hm]

/-! ## The entry store -/

theorem evictLoop_eq_drop (cap : Nat) (l : List RecentItem) :
    evictLoop cap l = l.drop (l.length - cap) := by
  induction l with
  | nil => simp [evictLoop]
  | cons x rest ih =>
    unfold evictLoop
    by_cases h : (x :: rest).length > cap
    · simp only [h, if_true, ih]
      simp only [List.length_cons] at h ⊢
      have : rest.length + 1 - cap = (rest.length - cap) + 1 := by omega
      rw [this, List.drop_succ_cons]
    · simp only [h, if_false]
      simp only [List.length_cons] at h ⊢
      have : rest.length + 1 - cap = 0 := by omega
      rw [this, List.drop_zero]

theorem evictLoop_length_le (cap : Nat) (l : List RecentItem) : (evictLoop cap l).length ≤ cap := by
  rw [evictLoop_eq_drop, List.length_drop]; omega

theorem evictLoop_snoc_ne_nil (cap : Nat) (l : List RecentItem) (x : RecentItem) (h : 1 ≤ cap) :
    evictLoop cap (l ++ [x]) ≠ [] := by
  intro hn
  have := congrArg List.length hn
  rw [evictLoop_eq_drop, List.length_drop] at this
  simp at this
  omega

theorem addScan_none (n : String) (l : List RecentItem) :
    ∀ i, addScan n l i = none ↔ n ∉ l.map (fun it => it.Filename) := by
  induction l with
  | nil => intro i; simp [addScan]
  | cons x rest ih =>
    intro i
    unfold addScan
    by_cases h : x.Filename = n
    · simp [h]
    · simp only [h, if_false, ih (i + 1), List.map_cons, List.mem_cons, not_or]
      constructor
      · intro h2; exact ⟨fun e => h e.symm, h2⟩
      · intro h2; exact h2.2

theorem addScan_some (n : String) (l : List RecentItem) :
    ∀ i j it, addScan n l i = some (j, it) →
      ∃ k, j = i + k ∧ l[k]? = some it ∧ it.Filename = n ∧
        ∀ k2, k2 < k → ∀ jt, l[k2]? = some jt → jt.Filename ≠ n := by
  induction l with
  | nil => intro i j it h; simp [addScan] at h
  | cons x rest ih =>
    intro i j it h
    unfold addScan at h
    by_cases hx : x.Filename = n
    · simp only [hx, if_true, Option.some.injEq, Prod.mk.injEq] at h
      refine ⟨0, by omega, by simp [h.2], h.2 ▸ hx, ?_⟩
      intro k2 hk2; omega
    · simp only [hx, if_false] at h
      obtain ⟨k, hj, hk, hf, hfirst⟩ := ih (i + 1) j it h
      refine ⟨k + 1, by omega, by simpa using hk, hf, ?_⟩
      intro k2 hk2 jt hjt
      cases k2 with
      | zero => simp at hjt; rw [← hjt]; exact hx
      | succ k3 =>
        simp at hjt
        exact hfirst k3 (by omega) jt hjt

theorem addScan_first (n : String) (l : List RecentItem) :
    ∀ i k it, l[k]? = some it → it.Filename = n →
      (∀ k2, k2 < k → ∀ jt, l[k2]? = some jt → jt.Filename ≠ n) →
      addScan n l i = some (i + k, it) := by
  induction l with
  | nil => intro i k it h; simp at h
  | cons x rest ih =>
    intro i k it hk hf hfirst
    unfold addScan
    cases k with
    | zero =>
      simp at hk
      simp [hk, hf]
    | succ k1 =>
      have hx : x.Filename ≠ n := hfirst 0 (by omega) x (by simp)
      simp only [hx, if_false]
      simp at hk
      rw [ih (i + 1) k1 it hk hf (fun k2 hk2 jt hjt => hfirst (k2 + 1) (by omega) jt (by simpa using hjt))]
      congr 2; omega

theorem assignHandles_length (l : List RecentItem) : ∀ h, (assignHandles l h).length = l.length := by
  induction l with
  | nil => intro h; rfl
  | cons x rest ih => intro h; simp [assignHandles, ih]

theorem assignHandles_filenames (l : List RecentItem) :
    ∀ h, (assignHandles l h).map (fun it => it.Filename) = l.map (fun it => it.Filename) := by
  induction l with
  | nil => intro h; rfl
  | cons x rest ih => intro h; simp [assignHandles, ih]

theorem repopulated_length (E : Env) (W : World) (s : RecentIsoManager) (m : Menu) :
    (repopulated E W s m).m_Items.length = s.m_Items.length := by
  simp [repopulated, assignHandles_length]

theorem repopulated_filenames (E : Env) (W : World) (s : RecentIsoManager) (m : Menu) :
    filenames (repopulated E W s m) = filenames s := by
  simp [repopulated, filenames, assignHandles_filenames]

theorem selectLast_repopulated (E : Env) (W : World) (s : RecentIsoManager) (m : Menu)
    (hne : s.m_Items ≠ []) :
    selectLast (repopulated E W s m) = Except.ok
      (checkItem { repopulated E W s m with
          m_cursel := ((repopulated E W s m).m_Items.length : Int) - 1 } (m.freshHandle + 1)) := by
  have hlen := repopulated_length E W s m
  obtain ⟨x, older, hrev⟩ : ∃ x older, s.m_Items.reverse = x :: older := by
    cases h : s.m_Items.reverse with
    | nil => exact absurd (List.reverse_eq_nil_iff.mp h) hne
    | cons x older => exact ⟨x, older, rfl⟩
  have hitems : (repopulated E W s m).m_Items
      = (assignHandles older (m.freshHandle + 1 + 1)).reverse ++ [{ x with ItemPtr := some (m.freshHandle + 1) }] := by
    simp [repopulated, hrev, assignHandles]
  have hget : (repopulated E W s m).m_Items[(repopulated E W s m).m_Items.length - 1]?
      = some { x with ItemPtr := some (m.freshHandle + 1) } := by
    rw [hitems]
    simp
  unfold selectLast
  rw [hget]

theorem addNew_eq (E : Env) (W : World) (s : RecentIsoManager) (m : Menu) (n : String)
    (hm : s.m_Menu = some m) (hcap : 1 ≤ s.m_MaxLength) :
    addNew E W s n = Except.ok (added E W s m n) := by
  unfold addNew
  simp only [RemoveAllFromMenu_eq s m hm]
  rw [Repopulate_eq E W _ (destroyAll m (projectedHandles s)) rfl
    (evictLoop_snoc_ne_nil _ _ _ hcap)]
  simp only
  rw [selectLast_repopulated E W _ _ (evictLoop_snoc_ne_nil _ _ _ hcap)]
  rfl

theorem checkItem_fields (s : RecentIsoManager) (h : Nat) :
    (checkItem s h).m_Items = s.m_Items ∧ (checkItem s h).m_MaxLength = s.m_MaxLength ∧
    (checkItem s h).m_cursel = s.m_cursel ∧
    (checkItem s h).m_firstIdForMenuItems_or_wxID_ANY = s.m_firstIdForMenuItems_or_wxID_ANY ∧
    (checkItem s h).m_Separator = s.m_Separator ∧
    (checkItem s h).m_ClearSeparator = s.m_ClearSeparator ∧
    (checkItem s h).m_Clear = s.m_Clear ∧ (checkItem s h).m_ClearMissing = s.m_ClearMissing ∧
    (checkItem s h).m_Menu = s.m_Menu.map (fun m => m.Check h) :=
  ⟨rfl, rfl, rfl, rfl, rfl, rfl, rfl, rfl, rfl⟩

theorem added_filenames (E : Env) (W : World) (s : RecentIsoManager) (m : Menu) (n : String) :
    filenames (added E W s m n) = (filenames s ++ [n]).drop ((filenames s).length + 1 - s.m_MaxLength) := by
  have h1 : filenames (added E W s m n)
      = (evictLoop s.m_MaxLength (s.m_Items.map clearPtr ++ [RecentItem.mk n none])).map
          (fun it => it.Filename) := by
    simp only [added]
    unfold filenames
    rw [(checkItem_fields _ _).1]
    simp [repopulated, assignHandles_filenames]
  have hc : ((fun it => it.Filename) ∘ clearPtr) = (fun it : RecentItem => it.Filename) := by
    funext a; rfl
  rw [h1, evictLoop_eq_drop, List.map_drop]
  simp [filenames, hc]

theorem added_length_le (E : Env) (W : World) (s : RecentIsoManager) (m : Menu) (n : String) :
    (added E W s m n).m_Items.length ≤ s.m_MaxLength := by
  simp only [added]
  rw [(checkItem_fields _ _).1]
  simp only [repopulated_length]
  exact evictLoop_length_le _ _

theorem added_fields (E : Env) (W : World) (s : RecentIsoManager) (m : Menu) (n : String) :
    (added E W s m n).m_MaxLength = s.m_MaxLength ∧
    (added E W s m n).m_firstIdForMenuItems_or_wxID_ANY = s.m_firstIdForMenuItems_or_wxID_ANY ∧
    (∃ m2, (added E W s m n).m_Menu = some m2) := by
  refine ⟨rfl, rfl, ?_⟩
  simp only [added]
  rw [(checkItem_fields _ _).2.2.2.2.2.2.2.2]
  simp [repopulated]

theorem Repopulate_nil (E : Env) (W : World) (s : RecentIsoManager) (h : s.m_Items = []) :
    Repopulate E W s = Except.ok s := by
  simp [Repopulate, h]

theorem Repopulate_null (E : Env) (W : World) (s : RecentIsoManager) (hm : s.m_Menu = none)
    (hne : s.m_Items ≠ []) : Repopulate E W s = Except.error Fault.nullDeref := by
  have hlen : ¬ s.m_Items.length ≤ 0 := by
    cases h : s.m_Items with
    | nil => exact absurd h hne
    | cons a t => simp
  simp [Repopulate, hlen, callMenu, hm]

theorem selectLast_nil (s : RecentIsoManager) (h : s.m_Items = []) :
    selectLast s = Except.error Fault.outOfBounds := by
  simp [selectLast, h]

theorem addNew_ok (E : Env) (W : World) (s s2 : RecentIsoManager) (n : String)
    (h : addNew E W s n = Except.ok s2) :
    ∃ m, s.m_Menu = some m ∧ 1 ≤ s.m_MaxLength ∧ s2 = added E W s m n := by
  cases hm : s.m_Menu with
  | none =>
    exfalso
    unfold addNew at h
    simp only [RemoveAllFromMenu_null s hm] at h
    by_cases hne : evictLoop s.m_MaxLength (s.m_Items ++ [RecentItem.mk n none]) = []
    · rw [Repopulate_nil E W _ hne] at h
      simp only at h
      rw [selectLast_nil _ hne] at h
      cases h
    · rw [Repopulate_null E W
        { s with m_Items := evictLoop s.m_MaxLength (s.m_Items ++ [RecentItem.mk n none]) }
        hm hne] at h
      cases h
  | some m =>
    by_cases hcap : 1 ≤ s.m_MaxLength
    · refine ⟨m, rfl, hcap, ?_⟩
      rw [addNew_eq E W s m n hm hcap] at h
      cases h; rfl
    · exfalso
      have hnil : ∀ l, evictLoop s.m_MaxLength l = [] := by
        intro l
        rw [evictLoop_eq_drop]
        have : s.m_MaxLength = 0 := by omega
        simp [this]
      unfold addNew at h
      simp only [RemoveAllFromMenu_eq s m hm] at h
      rw [Repopulate_nil E W _ (hnil _)] at h
      simp only at h
      rw [selectLast_nil _ (hnil _)] at h
      cases h

theorem addPrepared_fields (s : RecentIsoManager) (m : Menu) (hm : s.m_Menu = some m) :
    (addPrepared s m).m_Items = s.m_Items ∧ (addPrepared s m).m_MaxLength = s.m_MaxLength ∧
    (addPrepared s m).m_firstIdForMenuItems_or_wxID_ANY = s.m_firstIdForMenuItems_or_wxID_ANY ∧
    (addPrepared s m).m_Menu = some (preparedMenu s m) := by
  unfold addPrepared preparedMenu
  split <;> simp [hm]

theorem Add_empty (E : Env) (W : World) (s : RecentIsoManager) : Add E W s "" = Except.ok s := by
  simp [Add]

theorem Add_present (E : Env) (W : World) (s : RecentIsoManager) (src : String) (i : Nat)
    (it : RecentItem) (hsrc : src ≠ "") (hi : s.m_Items[i]? = some it)
    (hf : it.Filename = E.Normalize src)
    (hfirst : ∀ j, j < i → ∀ jt, s.m_Items[j]? = some jt → jt.Filename ≠ E.Normalize src) :
    Add E W s src = Except.ok
      (match it.ItemPtr with
       | none => { s with m_cursel := (i : Int) }
       | some h => checkItem { s with m_cursel := (i : Int) } h) := by
  have hscan := addScan_first (E.Normalize src) s.m_Items 0 i it hi hf hfirst
  have hlen : ¬ s.m_Items.length ≤ 0 := by
    have := (List.getElem?_eq_some_iff.mp hi).1
    omega
  unfold Add
  simp only [hsrc, if_false, hlen, hscan, Nat.zero_add]
  cases it.ItemPtr <;> rfl

theorem Add_new (E : Env) (W : World) (s : RecentIsoManager) (m : Menu) (src : String)
    (hsrc : src ≠ "") (hnew : E.Normalize src ∉ filenames s) (hm : s.m_Menu = some m) :
    Add E W s src = addNew E W (addPrepared s m) (E.Normalize src) := by
  have hscan := (addScan_none (E.Normalize src) s.m_Items 0).mpr hnew
  unfold Add
  simp only [hsrc, if_false]
  by_cases hlen : s.m_Items.length ≤ 0
  · simp only [hlen, if_true, callMenu, addPrepared, hm]
  · simp only [hlen, if_false, hscan, addPrepared]

theorem Add_new_null (E : Env) (W : World) (s : RecentIsoManager) (src : String)
    (hsrc : src ≠ "") (hnew : E.Normalize src ∉ filenames s) (hm : s.m_Menu = none) :
    ∃ f, Add E W s src = Except.error f := by
  have hscan := (addScan_none (E.Normalize src) s.m_Items 0).mpr hnew
  unfold Add
  simp only [hsrc, if_false]
  by_cases hlen : s.m_Items.length ≤ 0
  · simp only [hlen, if_true, callMenu, hm]
    exact ⟨_, rfl⟩
  · simp only [hlen, if_false, hscan]
    cases h : addNew E W s (E.Normalize src) with
    | error f => exact ⟨f, rfl⟩
    | ok s2 =>
      obtain ⟨m, hm2, _⟩ := addNew_ok E W s s2 _ h
      rw [hm] at hm2; cases hm2

/-- What a completed `Add` guarantees, for any store. -/
theorem Add_ok (E : Env) (W : World) (s s2 : RecentIsoManager) (src : String)
    (h : Add E W s src = Except.ok s2) :
    s2.m_MaxLength = s.m_MaxLength ∧
    s2.m_firstIdForMenuItems_or_wxID_ANY = s.m_firstIdForMenuItems_or_wxID_ANY ∧
    s2.m_Menu.isSome = s.m_Menu.isSome ∧
    filenames s2 = (if src = "" then filenames s
      else addPath s.m_MaxLength (filenames s) (E.Normalize src)) ∧
    (s.m_Items.length ≤ s.m_MaxLength → s2.m_Items.length ≤ s2.m_MaxLength) := by
  by_cases hsrc : src = ""
  · subst hsrc
    rw [Add_empty] at h
    cases h
    simp
  · simp only [hsrc, if_false]
    by_cases hin : E.Normalize src ∈ filenames s
    · have hin2 := hin
      simp only [filenames] at hin2
      have hsc : addScan (E.Normalize src) s.m_Items 0 ≠ none := by
        intro hn
        exact (addScan_none _ _ 0).mp hn hin2
      obtain ⟨⟨j, it⟩, hj⟩ := Option.ne_none_iff_exists'.mp hsc
      obtain ⟨k, hk, hget, hf, hfirst⟩ := addScan_some _ _ 0 j it hj
      rw [Add_present E W s src k it hsrc hget hf hfirst] at h
      simp only [addPath, hin, if_true]
      cases hp : it.ItemPtr with
      | none =>
        rw [hp] at h
        cases h
        simp [filenames]
      | some hd =>
        rw [hp] at h
        cases h
        simp [filenames, checkItem]
    · cases hm : s.m_Menu with
      | none =>
        obtain ⟨f, hf⟩ := Add_new_null E W s src hsrc hin hm
        rw [hf] at h; cases h
      | some m =>
        rw [Add_new E W s m src hsrc hin hm] at h
        obtain ⟨m1, hm1, hcap, rfl⟩ := addNew_ok E W _ _ _ h
        have hp := addPrepared_fields s m hm
        have hfn : filenames (addPrepared s m) = filenames s := by
          simp [filenames, hp.1]
        have ha := added_fields E W (addPrepared s m) m1 (E.Normalize src)
        obtain ⟨m2, hm2⟩ := ha.2.2
        refine ⟨by rw [ha.1, hp.2.1], by rw [ha.2.1, hp.2.2.1], by simp [hm2], ?_, ?_⟩
        · rw [added_filenames, hfn, hp.2.1]
          simp [addPath, hin]
        · intro _
          rw [ha.1]
          exact added_length_le _ _ _ _ _

/-- With a menu and a capacity of at least one, `Add` completes. -/
theorem Add_total (E : Env) (W : World) (s : RecentIsoManager) (m : Menu) (src : String)
    (hm : s.m_Menu = some m) (hcap : 1 ≤ s.m_MaxLength) :
    ∃ s2, Add E W s src = Except.ok s2 := by
  by_cases hsrc : src = ""
  · subst hsrc; exact ⟨s, Add_empty E W s⟩
  · by_cases hin : E.Normalize src ∈ filenames s
    · have hin2 := hin
      simp only [filenames] at hin2
      have hsc : addScan (E.Normalize src) s.m_Items 0 ≠ none := by
        intro hn
        exact (addScan_none _ _ 0).mp hn hin2
      obtain ⟨⟨j, it⟩, hj⟩ := Option.ne_none_iff_exists'.mp hsc
      obtain ⟨k, hk, hget, hf, hfirst⟩ := addScan_some _ _ 0 j it hj
      exact ⟨_, Add_present E W s src k it hsrc hget hf hfirst⟩
    · have hp := addPrepared_fields s m hm
      rw [Add_new E W s m src hsrc hin hm]
      exact ⟨_, addNew_eq E W _ _ _ hp.2.2.2 (by rw [hp.2.1]; exact hcap)⟩

theorem addAll_eq (E : Env) (calls : List (World × String)) :
    ∀ (s : RecentIsoManager) (m : Menu), s.m_Menu = some m → 1 ≤ s.m_MaxLength →
      ∃ s2 m2, addAll E s calls = Except.ok s2 ∧ s2.m_Menu = some m2 ∧
        s2.m_MaxLength = s.m_MaxLength ∧
        filenames s2 = addPaths E s.m_MaxLength (filenames s) (calls.map Prod.snd) := by
  induction calls with
  | nil => intro s m hm _; exact ⟨s, m, rfl, hm, rfl, rfl⟩
  | cons c rest ih =>
    intro s m hm hcap
    obtain ⟨W, src⟩ := c
    obtain ⟨s1, h1⟩ := Add_total E W s m src hm hcap
    have hp := Add_ok E W s s1 src h1
    have hsome : ∃ m1, s1.m_Menu = some m1 := by
      have := hp.2.2.1
      rw [hm] at this
      exact Option.isSome_iff_exists.mp this
    obtain ⟨m1, hm1⟩ := hsome
    obtain ⟨s2, m2, h2, hm2, hc2, hf2⟩ := ih s1 m1 hm1 (by rw [hp.1]; exact hcap)
    refine ⟨s2, m2, ?_, hm2, by rw [hc2, hp.1], ?_⟩
    · simp only [addAll, h1, h2]
    · rw [hf2, hp.1, hp.2.2.2.1]
      simp [addPaths]

theorem addPath_nodup (cap : Nat) (paths : List String) (p : String) (h : paths.Nodup) :
    (addPath cap paths p).Nodup := by
  unfold addPath
  split
  · exact h
  · rename_i hp
    have : (paths ++ [p]).Nodup := by
      rw [List.nodup_append]
      refine ⟨h, List.nodup_singleton p, ?_⟩
      intro a ha hb
      simp at hb
      exact hp (hb ▸ ha)
    exact this.sublist (List.drop_sublist _ _)

theorem addPath_mem (cap : Nat) (paths : List String) (p q : String) (h : q ∈ addPath cap paths p) :
    q ∈ paths ∨ q = p := by
  unfold addPath at h
  split at h
  · exact Or.inl h
  · have := List.mem_of_mem_drop h
    simpa using this

theorem addPath_length_le (cap : Nat) (paths : List String) (p : String)
    (h : paths.length ≤ cap) : (addPath cap paths p).length ≤ cap := by
  unfold addPath
  split
  · exact h
  · simp; omega

theorem addPaths_nodup (E : Env) (cap : Nat) (srcs : List String) :
    ∀ paths, paths.Nodup → (addPaths E cap paths srcs).Nodup := by
  induction srcs with
  | nil => intro paths h; exact h
  | cons src rest ih =>
    intro paths h
    simp only [addPaths]
    apply ih
    split
    · exact h
    · exact addPath_nodup _ _ _ h

theorem addPaths_mem (E : Env) (cap : Nat) (srcs : List String) :
    ∀ paths q, q ∈ addPaths E cap paths srcs →
      q ∈ paths ∨ ∃ src ∈ srcs, src ≠ "" ∧ q = E.Normalize src := by
  induction srcs with
  | nil => intro paths q h; exact Or.inl h
  | cons src rest ih =>
    intro paths q h
    simp only [addPaths] at h
    rcases ih _ q h with h1 | ⟨x, hx, hne, hq⟩
    · by_cases hs : src = ""
      · simp only [hs, if_true] at h1; exact Or.inl h1
      · simp only [hs, if_false] at h1
        rcases addPath_mem _ _ _ _ h1 with h2 | h2
        · exact Or.inl h2
        · exact Or.inr ⟨src, List.mem_cons_self _ _, hs, h2⟩
    · exact Or.inr ⟨x, List.mem_cons_of_mem _ hx, hne, hq⟩

theorem addPaths_length_le (E : Env) (cap : Nat) (srcs : List String) :
    ∀ paths, paths.length ≤ cap → (addPaths E cap paths srcs).length ≤ cap := by
  induction srcs with
  | nil => intro paths h; exact h
  | cons src rest ih =>
    intro paths h
    simp only [addPaths]
    apply ih
    split
    · exact h
    · exact addPath_length_le _ _ _ h

theorem drop_snoc_drop (cap : Nat) (l : List String) (x : String) (hcap : 1 ≤ cap) :
    (l.drop (l.length - cap) ++ [x]).drop ((l.drop (l.length - cap)).length + 1 - cap)
      = (l ++ [x]).drop (l.length + 1 - cap) := by
  by_cases h : l.length ≤ cap
  · have h0 : l.length - cap = 0 := by omega
    simp [h0]
  · have h1 : (l.drop (l.length - cap)).length + 1 - cap = 1 := by
      rw [List.length_drop]; omega
    have h2 : l.length + 1 - cap = (l.length - cap) + 1 := by omega
    have e1 : (l ++ [x]).drop (l.length - cap) = l.drop (l.length - cap) ++ [x] :=
      List.drop_append_of_le_length (by omega)
    rw [h1, h2, ← List.drop_drop, e1]

theorem addPaths_fifo (E : Env) (cap : Nat) (hcap : 1 ≤ cap) (srcs : List String) :
    ∀ pre : List String, (pre ++ srcs).Nodup → (∀ p ∈ srcs, p ≠ "") →
      (∀ p ∈ srcs, E.Normalize p = p) →
      addPaths E cap (pre.drop (pre.length - cap)) srcs
        = (pre ++ srcs).drop ((pre ++ srcs).length - cap) := by
  induction srcs with
  | nil => intro pre _ _ _; simp [addPaths]
  | cons src rest ih =>
    intro pre hnd hne hnorm
    have hs : src ≠ "" := hne src (List.mem_cons_self _ _)
    have hn : E.Normalize src = src := hnorm src (List.mem_cons_self _ _)
    have hnotin : src ∉ pre := by
      intro hin
      have := (List.nodup_append.mp hnd).2.2 hin (List.mem_cons_self _ _)
      exact this
    have hnotin2 : src ∉ pre.drop (pre.length - cap) := fun h => hnotin (List.mem_of_mem_drop h)
    simp only [addPaths, hs, if_false, hn, addPath, hnotin2]
    rw [drop_snoc_drop cap pre src hcap]
    have := ih (pre ++ [src]) (by simpa using hnd)
      (fun p hp => hne p (List.mem_cons_of_mem _ hp))
      (fun p hp => hnorm p (List.mem_cons_of_mem _ hp))
    simp only [List.length_append, List.length_singleton, List.append_assoc,
      List.singleton_append] at this
    simp only [List.length_append, List.length_cons]
    rw [this]
    congr 1

theorem addNew_capacity_zero (E : Env) (W : World) (s : RecentIsoManager) (m : Menu) (n : String)
    (hm : s.m_Menu = some m) (hcap : s.m_MaxLength = 0) :
    addNew E W s n = Except.error Fault.outOfBounds := by
  have hnil : ∀ l, evictLoop s.m_MaxLength l = [] := by
    intro l
    rw [evictLoop_eq_drop, hcap]
    simp
  unfold addNew
  simp only [RemoveAllFromMenu_eq s m hm]
  rw [Repopulate_nil E W _ (hnil _)]
  simp only
  rw [selectLast_nil _ (hnil _)]

/-! ## Claims about sequences of `Add` -/

/-- C1: with a capacity of at least one, any sequence of `Add` calls on an initially
empty store (raw paths arbitrary, duplicates included) completes, and after each
call (every prefix `calls.take k` of the sequence) no two entries of `m_Items` have
the same `Filename`; each `Filename` is the normalized form, under the function
`Normalize`, of a non-empty raw path that was added. -/
theorem C1_add_keeps_filenames_unique (E : Env) (menu : Menu) (cap : Nat) (firstId : Int)
    (calls : List (World × String)) (k : Nat) (hcap : 1 ≤ cap) :
    ∃ s, addAll E (emptyStore (some menu) cap firstId) (calls.take k) = Except.ok s ∧
      (s.m_Items.map (fun it => it.Filename)).Nodup ∧
      ∀ it ∈ s.m_Items, ∃ c ∈ calls.take k, c.2 ≠ "" ∧ it.Filename = E.Normalize c.2 := by
  obtain ⟨s, m2, hs, _, _, hf⟩ :=
    addAll_eq E (calls.take k) (emptyStore (some menu) cap firstId) menu rfl hcap
  refine ⟨s, hs, ?_, ?_⟩
  · have := addPaths_nodup E cap ((calls.take k).map Prod.snd) [] List.nodup_nil
    simp only [filenames, emptyStore, List.map_nil] at hf
    rw [hf]
    exact this
  · intro it hit
    have hmem : it.Filename ∈ filenames s := List.mem_map.mpr ⟨it, hit, rfl⟩
    rw [hf] at hmem
    rcases addPaths_mem E _ _ _ _ hmem with h | ⟨src, hsrc, hne, hq⟩
    · simp [filenames, emptyStore] at h
    · obtain ⟨c, hc, rfl⟩ := List.mem_map.mp hsrc
      exact ⟨c, hc, hne, hq⟩

/-- Witness of C1: three calls, one of them a duplicate, with capacity two. -/
theorem C1_add_keeps_filenames_unique_witness :
    ∃ s, addAll testEnv (emptyStore (some emptyMenu) 2 wxID_ANY)
        ([(testWorld, "A"), (testWorld, "A"), (testWorld, "B")].take 3) = Except.ok s ∧
      (s.m_Items.map (fun it => it.Filename)).Nodup ∧
      ∀ it ∈ s.m_Items, ∃ c ∈ [(testWorld, "A"), (testWorld, "A"), (testWorld, "B")].take 3,
        c.2 ≠ "" ∧ it.Filename = testEnv.Normalize c.2 :=
  C1_add_keeps_filenames_unique testEnv emptyMenu 2 wxID_ANY
    [(testWorld, "A"), (testWorld, "A"), (testWorld, "B")] 3 (by decide)

/-- C2: the capacity bound after `Add`. With capacity zero `Add` of any non-empty path
to the empty store does not complete: the entry just appended is evicted and the
final statement indexes the empty vector. With a capacity of at least one every
sequence of `Add` calls on an initially empty store completes and, after each call,
the number of entries is at most the capacity, which is unchanged. -/
theorem C2_add_capacity_bound :
    (∀ (E : Env) (W : World) (menu : Menu) (firstId : Int) (src : String), src ≠ "" →
      Add E W (emptyStore (some menu) 0 firstId) src = Except.error Fault.outOfBounds) ∧
    (∀ (E : Env) (menu : Menu) (cap : Nat) (firstId : Int) (calls : List (World × String))
      (k : Nat), 1 ≤ cap →
      ∃ s, addAll E (emptyStore (some menu) cap firstId) (calls.take k) = Except.ok s ∧
        s.m_Items.length ≤ cap ∧ s.m_MaxLength = cap) := by
  constructor
  · intro E W menu firstId src hsrc
    have hnew : E.Normalize src ∉ filenames (emptyStore (some menu) 0 firstId) := by
      simp [filenames, emptyStore]
    have hp := addPrepared_fields (emptyStore (some menu) 0 firstId) menu rfl
    rw [Add_new E W _ menu src hsrc hnew rfl]
    exact addNew_capacity_zero E W _ _ _ hp.2.2.2 (by rw [hp.2.1]; rfl)
  · intro E menu cap firstId calls k hcap
    obtain ⟨s, m2, hs, _, hc, hf⟩ :=
      addAll_eq E (calls.take k) (emptyStore (some menu) cap firstId) menu rfl hcap
    refine ⟨s, hs, ?_, hc⟩
    have := addPaths_length_le E cap ((calls.take k).map Prod.snd) [] (Nat.zero_le _)
    have hl : s.m_Items.length = (filenames s).length := by simp [filenames]
    rw [hl, hf]
    exact this

/-- C3: with a capacity `cap` of at least one, adding pairwise distinct, non-empty,
already normalized paths in order to an empty store completes and leaves exactly
the last `min n cap` of them, in insertion order. -/
theorem C3_add_evicts_oldest_first (E : Env) (menu : Menu) (cap : Nat) (firstId : Int)
    (calls : List (World × String)) (hcap : 1 ≤ cap)
    (hdistinct : (calls.map Prod.snd).Nodup)
    (hnonempty : ∀ c ∈ calls, c.2 ≠ "")
    (hnormal : ∀ c ∈ calls, E.Normalize c.2 = c.2) :
    ∃ s, addAll E (emptyStore (some menu) cap firstId) calls = Except.ok s ∧
      s.m_Items.map (fun it => it.Filename) = (calls.map Prod.snd).drop (calls.length - cap) ∧
      s.m_Items.length = min calls.length cap := by
  obtain ⟨s, m2, hs, _, _, hf⟩ :=
    addAll_eq E calls (emptyStore (some menu) cap firstId) menu rfl hcap
  have hfifo := addPaths_fifo E cap hcap (calls.map Prod.snd) [] (by simpa using hdistinct)
    (by
      intro p hp
      obtain ⟨c, hc, rfl⟩ := List.mem_map.mp hp
      exact hnonempty c hc)
    (by
      intro p hp
      obtain ⟨c, hc, rfl⟩ := List.mem_map.mp hp
      exact hnormal c hc)
  simp only [List.drop_nil, List.nil_append, List.length_map] at hfifo
  have hf2 : s.m_Items.map (fun it => it.Filename)
      = (calls.map Prod.snd).drop (calls.length - cap) := by
    have : filenames s = s.m_Items.map (fun it => it.Filename) := rfl
    rw [← this, hf]
    simpa [filenames, emptyStore] using hfifo
  refine ⟨s, hs, hf2, ?_⟩
  have := congrArg List.length hf2
  simp only [List.length_map, List.length_drop] at this
  omega

/-- Witness of C3: adding `A`, `B`, `C` with capacity two leaves `B`, `C`. -/
theorem C3_add_evicts_oldest_first_witness :
    ∃ s, addAll testEnv (emptyStore (some emptyMenu) 2 wxID_ANY)
        [(testWorld, "A"), (testWorld, "B"), (testWorld, "C")] = Except.ok s ∧
      s.m_Items.map (fun it => it.Filename) = ["B", "C"] ∧ s.m_Items.length = 2 :=
  C3_add_evicts_oldest_first testEnv emptyMenu 2 wxID_ANY
    [(testWorld, "A"), (testWorld, "B"), (testWorld, "C")] (by decide) (by decide)
    (by decide) (by decide)

/-- Witness of C2: `Add` of `A` with capacity zero faults, and three calls with
capacity one keep the bound. -/
theorem C2_add_capacity_bound_witness :
    Add testEnv testWorld (emptyStore (some emptyMenu) 0 wxID_ANY) "A"
        = Except.error Fault.outOfBounds ∧
    ∃ s, addAll testEnv (emptyStore (some emptyMenu) 1 wxID_ANY)
        ([(testWorld, "A"), (testWorld, "B"), (testWorld, "A")].take 3) = Except.ok s ∧
      s.m_Items.length ≤ 1 ∧ s.m_MaxLength = 1 :=
  ⟨C2_add_capacity_bound.1 testEnv testWorld emptyMenu wxID_ANY "A" (by decide),
   C2_add_capacity_bound.2 testEnv emptyMenu 1 wxID_ANY
     [(testWorld, "A"), (testWorld, "B"), (testWorld, "A")] 3 (by decide)⟩

/-! ## Claims about single operations -/

/-- C4: `Add` of a non-empty raw path whose normalized form is the `Filename` of the
entry at index `i`, the first entry with that `Filename`, completes and leaves the
entries (length, order, paths, item pointers), the capacity, the identifier base and
the separator and action handles unchanged, whatever the capacity; `m_cursel`
becomes `i`; the menu is unchanged when the entry has no item, and otherwise only
changes by `Check` on the entry's item: no item is created or destroyed and every
property of every item other than its check mark is as before. -/
theorem C4_readd_changes_selection_only (E : Env) (W : World) (s : RecentIsoManager)
    (src : String) (i : Nat) (it : RecentItem)
    (hsrc : src ≠ "") (hi : s.m_Items[i]? = some it) (hf : it.Filename = E.Normalize src)
    (hfirst : ∀ j, j < i → ∀ jt, s.m_Items[j]? = some jt → jt.Filename ≠ E.Normalize src) :
    ∃ s2, Add E W s src = Except.ok s2 ∧
      s2.m_Items = s.m_Items ∧ s2.m_MaxLength = s.m_MaxLength ∧ s2.m_cursel = (i : Int) ∧
      s2.m_firstIdForMenuItems_or_wxID_ANY = s.m_firstIdForMenuItems_or_wxID_ANY ∧
      s2.m_Separator = s.m_Separator ∧ s2.m_ClearSeparator = s.m_ClearSeparator ∧
      s2.m_Clear = s.m_Clear ∧ s2.m_ClearMissing = s.m_ClearMissing ∧
      s2.m_Menu = (match it.ItemPtr with
        | none => s.m_Menu
        | some h => s.m_Menu.map (fun m => m.Check h)) ∧
      s2.m_Menu.map (fun m => (m.items.map (fun x => { x with checked := false }), m.destroyed))
        = s.m_Menu.map (fun m => (m.items.map (fun x => { x with checked := false }), m.destroyed)) := by
  refine ⟨_, Add_present E W s src i it hsrc hi hf hfirst, ?_⟩
  cases hp : it.ItemPtr with
  | none => simp
  | some h =>
    refine ⟨rfl, rfl, rfl, rfl, rfl, rfl, rfl, rfl, rfl, ?_⟩
    show (s.m_Menu.map (fun m => m.Check h)).map _ = _
    cases s.m_Menu with
    | none => rfl
    | some m =>
      simp only [Option.map_some', Menu.Check, List.map_map, Option.some.injEq, Prod.mk.injEq,
        and_true]
      apply List.map_congr_left
      intro a _
      simp only [Function.comp]
      split <;> rfl

/-- Witness of C4: re-adding `A` to a store that holds two entries with capacity one. -/
theorem C4_readd_changes_selection_only_witness :
    ∃ s2, Add testEnv testWorld overfullStore "A" = Except.ok s2 ∧
      s2.m_Items = overfullStore.m_Items ∧ s2.m_MaxLength = overfullStore.m_MaxLength ∧
      s2.m_cursel = ((0 : Nat) : Int) ∧
      s2.m_firstIdForMenuItems_or_wxID_ANY = overfullStore.m_firstIdForMenuItems_or_wxID_ANY ∧
      s2.m_Separator = overfullStore.m_Separator ∧
      s2.m_ClearSeparator = overfullStore.m_ClearSeparator ∧
      s2.m_Clear = overfullStore.m_Clear ∧ s2.m_ClearMissing = overfullStore.m_ClearMissing ∧
      s2.m_Menu = (match (RecentItem.mk "A" (some 3)).ItemPtr with
        | none => overfullStore.m_Menu
        | some h => overfullStore.m_Menu.map (fun m => m.Check h)) ∧
      s2.m_Menu.map (fun m => (m.items.map (fun x => { x with checked := false }), m.destroyed))
        = overfullStore.m_Menu.map
            (fun m => (m.items.map (fun x => { x with checked := false }), m.destroyed)) :=
  C4_readd_changes_selection_only testEnv testWorld overfullStore "A" 0 (RecentItem.mk "A" (some 3))
    (by decide) (by rfl) (by rfl) (by intro j hj; omega)

theorem radioItems_help (E : Env) (W : World) (fid : Int) (l : List RecentItem) :
    ∀ h, (radioItems E W fid l h).map (fun r => r.help) = l.map (fun it => it.Filename) := by
  induction l with
  | nil => intro h; rfl
  | cons x rest ih => intro h; simp [radioItems, radioItemFor, ih]

theorem radioItems_handles (E : Env) (W : World) (fid : Int) (l : List RecentItem) :
    ∀ h, (radioItems E W fid l h).map (fun r => some r.handle)
      = (assignHandles l h).map (fun it => it.ItemPtr) := by
  induction l with
  | nil => intro h; rfl
  | cons x rest ih => intro h; simp [radioItems, radioItemFor, assignHandles, ih]

theorem radioItems_kind (E : Env) (W : World) (fid : Int) (l : List RecentItem) :
    ∀ h, ∀ r ∈ radioItems E W fid l h, r.kind = ItemKind.radio := by
  induction l with
  | nil => intro h r hr; simp [radioItems] at hr
  | cons x rest ih =>
    intro h r hr
    simp only [radioItems, List.mem_cons] at hr
    rcases hr with rfl | hr
    · rfl
    · exact ih _ r hr

/-- C5: `Repopulate` leaves a store without entries as it is. For a store with the
entries `e0 .. e(n-1)` and a non-null menu it completes and appends to the menu, in
this order: a separator, the radio items of `e(n-1), ..., e0` (`radioItems` of the
reversed entries: their tooltips are the paths newest first), a second separator,
the action `Clear missing files` and the action `Clear ISO list`; nothing is
destroyed, the paths of the entries are unchanged, each entry holds the handle of
its own radio item, and the four other handles are those of the separators and
actions. -/
theorem C5_repopulate_projects_newest_first (E : Env) (W : World) (s : RecentIsoManager) :
    (s.m_Items = [] → Repopulate E W s = Except.ok s) ∧
    (∀ m, s.m_Menu = some m → s.m_Items ≠ [] →
      ∃ s2 m2 radios, Repopulate E W s = Except.ok s2 ∧ s2.m_Menu = some m2 ∧
        radios = radioItems E W s.m_firstIdForMenuItems_or_wxID_ANY s.m_Items.reverse
          (m.freshHandle + 1) ∧
        m2.items = m.items ++ [separatorItem m.freshHandle] ++ radios ++
          [separatorItem (m.freshHandle + s.m_Items.length + 1),
           actionItem (m.freshHandle + s.m_Items.length + 2) E.MenuId_IsoClearMissing
             "Clear missing files",
           actionItem (m.freshHandle + s.m_Items.length + 3) E.MenuId_IsoClear
             "Clear ISO list"] ∧
        m2.destroyed = m.destroyed ∧
        radios.length = s.m_Items.length ∧
        (∀ r ∈ radios, r.kind = ItemKind.radio) ∧
        radios.map (fun r => r.help) = (s.m_Items.map (fun it => it.Filename)).reverse ∧
        s2.m_Items.map (fun it => it.Filename) = s.m_Items.map (fun it => it.Filename) ∧
        s2.m_Items.reverse.map (fun it => it.ItemPtr) = radios.map (fun r => some r.handle) ∧
        s2.m_Separator = some m.freshHandle ∧
        s2.m_ClearSeparator = some (m.freshHandle + s.m_Items.length + 1) ∧
        s2.m_ClearMissing = some (m.freshHandle + s.m_Items.length + 2) ∧
        s2.m_Clear = some (m.freshHandle + s.m_Items.length + 3) ∧
        s2.m_MaxLength = s.m_MaxLength ∧ s2.m_cursel = s.m_cursel) := by
  refine ⟨Repopulate_nil E W s, ?_⟩
  intro m hm hne
  refine ⟨repopulated E W s m, _, _, Repopulate_eq E W s m hm hne, rfl, rfl, ?_, rfl, ?_, ?_, ?_,
    ?_, ?_, rfl, rfl, rfl, rfl, rfl, rfl⟩
  · simp
  · have := congrArg List.length
      (radioItems_help E W s.m_firstIdForMenuItems_or_wxID_ANY s.m_Items.reverse (m.freshHandle + 1))
    simpa using this
  · exact radioItems_kind E W _ _ _
  · rw [radioItems_help, List.map_reverse]
  · exact repopulated_filenames E W s m
  · rw [radioItems_handles]
    simp [repopulated]

/-- Witness of C5: the store `B`, `C` is projected as `C`, `B`. -/
theorem C5_repopulate_projects_newest_first_witness :
    ∃ s2 m2, Repopulate testEnv testWorld storeBC = Except.ok s2 ∧ s2.m_Menu = some m2 ∧
      m2.items.map (fun r => (r.kind, r.label)) =
        [(ItemKind.separator, ""), (ItemKind.radio, "C"), (ItemKind.radio, "B"),
         (ItemKind.separator, ""), (ItemKind.normal, "Clear missing files"),
         (ItemKind.normal, "Clear ISO list")] := by
  obtain ⟨s2, m2, radios, h, hm, hr, hitems, _⟩ :=
    (C5_repopulate_projects_newest_first testEnv testWorld storeBC).2 emptyMenu rfl (by decide)
  refine ⟨s2, m2, h, hm, ?_⟩
  rw [hitems, hr]
  decide

theorem filter_filenames (f : String → Bool) (l : List RecentItem) :
    (l.filter (fun it => f it.Filename)).map (fun it => it.Filename)
      = (l.map (fun it => it.Filename)).filter f := by
  induction l with
  | nil => rfl
  | cons x rest ih =>
    simp only [List.filter_cons, List.map_cons]
    split <;> simp [ih]

theorem RemoveAllFromMenu_fields (s : RecentIsoManager) :
    filenames (RemoveAllFromMenu s) = filenames s ∧
    (RemoveAllFromMenu s).m_Items.length = s.m_Items.length ∧
    (RemoveAllFromMenu s).m_MaxLength = s.m_MaxLength ∧
    (RemoveAllFromMenu s).m_cursel = s.m_cursel ∧
    (RemoveAllFromMenu s).m_firstIdForMenuItems_or_wxID_ANY = s.m_firstIdForMenuItems_or_wxID_ANY ∧
    (RemoveAllFromMenu s).m_Menu.isSome = s.m_Menu.isSome := by
  cases hm : s.m_Menu with
  | none => rw [RemoveAllFromMenu_null s hm]; simp [hm]
  | some m =>
    rw [RemoveAllFromMenu_eq s m hm]
    have hc : ((fun it => it.Filename) ∘ clearPtr) = (fun it : RecentItem => it.Filename) := by
      funext a; rfl
    simp [filenames, hc]

/-- What a completed `Repopulate` guarantees, for any store. -/
theorem Repopulate_ok (E : Env) (W : World) (s s2 : RecentIsoManager)
    (h : Repopulate E W s = Except.ok s2) :
    filenames s2 = filenames s ∧ s2.m_Items.length = s.m_Items.length ∧
    s2.m_MaxLength = s.m_MaxLength ∧ s2.m_cursel = s.m_cursel ∧
    s2.m_firstIdForMenuItems_or_wxID_ANY = s.m_firstIdForMenuItems_or_wxID_ANY ∧
    s2.m_Menu.isSome = s.m_Menu.isSome := by
  by_cases hne : s.m_Items = []
  · rw [Repopulate_nil E W s hne] at h
    cases h
    simp
  · cases hm : s.m_Menu with
    | none => rw [Repopulate_null E W s hm hne] at h; cases h
    | some m =>
      rw [Repopulate_eq E W s m hm hne] at h
      cases h
      refine ⟨repopulated_filenames E W s m, repopulated_length E W s m, rfl, rfl, rfl, ?_⟩
      simp [repopulated]

/-- With a menu, `Repopulate` completes. -/
theorem Repopulate_total (E : Env) (W : World) (s : RecentIsoManager) (m : Menu)
    (hm : s.m_Menu = some m) : ∃ s2, Repopulate E W s = Except.ok s2 := by
  by_cases hne : s.m_Items = []
  · exact ⟨s, Repopulate_nil E W s hne⟩
  · exact ⟨_, Repopulate_eq E W s m hm hne⟩

/-- What a completed `ClearMissing` guarantees, for any store. -/
theorem ClearMissing_ok (E : Env) (W : World) (s s2 : RecentIsoManager)
    (h : ClearMissing E W s = Except.ok s2) :
    filenames s2 = (filenames s).filter W.wxFileExists ∧
    s2.m_Items.length ≤ s.m_Items.length ∧
    s2.m_MaxLength = s.m_MaxLength ∧ s2.m_cursel = s.m_cursel ∧
    s2.m_firstIdForMenuItems_or_wxID_ANY = s.m_firstIdForMenuItems_or_wxID_ANY ∧
    s2.m_Menu.isSome = s.m_Menu.isSome := by
  unfold ClearMissing at h
  have hr := RemoveAllFromMenu_fields s
  have hp := Repopulate_ok E W _ s2 h
  simp only [filenames] at hp hr ⊢
  refine ⟨?_, ?_, by rw [hp.2.2.1, hr.2.2.1], by rw [hp.2.2.2.1, hr.2.2.2.1],
    by rw [hp.2.2.2.2.1, hr.2.2.2.2.1], by rw [hp.2.2.2.2.2, hr.2.2.2.2.2]⟩
  · rw [hp.1, filter_filenames, hr.1]
  · rw [hp.2.1, ← hr.2.1]
    exact List.length_filter_le _ _

/-- With a menu, `ClearMissing` completes. -/
theorem ClearMissing_total (E : Env) (W : World) (s : RecentIsoManager) (m : Menu)
    (hm : s.m_Menu = some m) : ∃ s2, ClearMissing E W s = Except.ok s2 := by
  unfold ClearMissing
  have hr := (RemoveAllFromMenu_fields s).2.2.2.2.2
  rw [hm] at hr
  obtain ⟨m1, hm1⟩ := Option.isSome_iff_exists.mp hr
  exact Repopulate_total E W _ m1 hm1

/-- What a completed `Clear` guarantees, for any store. -/
theorem Clear_ok (E : Env) (W : World) (s s2 : RecentIsoManager)
    (h : Clear E W s = Except.ok s2) :
    s2.m_Items = [] ∧ s2.m_MaxLength = s.m_MaxLength ∧ s2.m_cursel = s.m_cursel ∧
    s2.m_firstIdForMenuItems_or_wxID_ANY = s.m_firstIdForMenuItems_or_wxID_ANY ∧
    s2.m_Menu = (RemoveAllFromMenu s).m_Menu ∧
    s2.m_Separator = (RemoveAllFromMenu s).m_Separator ∧
    s2.m_ClearSeparator = (RemoveAllFromMenu s).m_ClearSeparator ∧
    s2.m_Clear = (RemoveAllFromMenu s).m_Clear ∧
    s2.m_ClearMissing = (RemoveAllFromMenu s).m_ClearMissing := by
  unfold Clear at h
  have hr := RemoveAllFromMenu_fields s
  rw [Repopulate_nil E W _ rfl] at h
  cases h
  exact ⟨rfl, hr.2.2.1, hr.2.2.2.1, hr.2.2.2.2.1, rfl, rfl, rfl, rfl, rfl⟩

/-- `Clear` completes on every store. -/
theorem Clear_total (E : Env) (W : World) (s : RecentIsoManager) :
    ∃ s2, Clear E W s = Except.ok s2 := by
  unfold Clear
  exact ⟨_, Repopulate_nil E W _ rfl⟩

/-- C6: for every store and every file-existence predicate, whenever `ClearMissing`
completes the paths of the entries are exactly the previous paths that exist, in
their previous relative order, and the capacity is unchanged; on a store with a
non-null menu `ClearMissing` does complete. -/
theorem C6_clear_missing_keeps_existing_in_order (E : Env) (W : World) (s : RecentIsoManager) :
    (∀ s2, ClearMissing E W s = Except.ok s2 →
      s2.m_Items.map (fun it => it.Filename)
        = (s.m_Items.map (fun it => it.Filename)).filter W.wxFileExists ∧
      s2.m_MaxLength = s.m_MaxLength) ∧
    (∀ m, s.m_Menu = some m → ∃ s2, ClearMissing E W s = Except.ok s2 ∧
      s2.m_Items.map (fun it => it.Filename)
        = (s.m_Items.map (fun it => it.Filename)).filter W.wxFileExists ∧
      s2.m_MaxLength = s.m_MaxLength) := by
  constructor
  · intro s2 h
    have hp := ClearMissing_ok E W s s2 h
    exact ⟨hp.1, hp.2.2.1⟩
  · intro m hm
    obtain ⟨s2, h⟩ := ClearMissing_total E W s m hm
    have hp := ClearMissing_ok E W s s2 h
    exact ⟨s2, h, hp.1, hp.2.2.1⟩

/-- Witness of C6: of `A`, `B`, `C` with `B` missing, `A` and `C` remain. -/
theorem C6_clear_missing_keeps_existing_in_order_witness :
    ∃ s2, ClearMissing testEnv worldWithoutB storeABC = Except.ok s2 ∧
      s2.m_Items.map (fun it => it.Filename) = ["A", "C"] ∧ s2.m_MaxLength = 3 :=
  (C6_clear_missing_keeps_existing_in_order testEnv worldWithoutB storeABC).2 emptyMenu rfl

theorem selectionScan_first (s : RecentIsoManager) (id : Int) (l : List RecentItem) :
    ∀ i k it, l[k]? = some it → selectionMatches s id it = true →
      (∀ k2, k2 < k → ∀ jt, l[k2]? = some jt → selectionMatches s id jt = false) →
      selectionScan s id l i = i + k := by
  induction l with
  | nil => intro i k it h; simp at h
  | cons x rest ih =>
    intro i k it hk hmatch hfirst
    unfold selectionScan
    cases k with
    | zero =>
      simp at hk
      simp [hk, hmatch]
    | succ k1 =>
      have hx : selectionMatches s id x = false := hfirst 0 (by omega) x (by simp)
      simp only [hx, Bool.false_eq_true, if_false]
      simp at hk
      rw [ih (i + 1) k1 it hk hmatch
        (fun k2 hk2 jt hjt => hfirst (k2 + 1) (by omega) jt (by simpa using hjt))]
      omega

theorem selectionScan_none (s : RecentIsoManager) (id : Int) (l : List RecentItem) :
    ∀ i, (∀ it ∈ l, selectionMatches s id it = false) → selectionScan s id l i = i + l.length := by
  induction l with
  | nil => intro i _; rfl
  | cons x rest ih =>
    intro i h
    unfold selectionScan
    simp only [h x (List.mem_cons_self _ _), Bool.false_eq_true, if_false]
    rw [ih (i + 1) (fun it hit => h it (List.mem_cons_of_mem _ hit))]
    simp only [List.length_cons]; omega

theorem selectionMatches_of (s : RecentIsoManager) (id : Int) (it : RecentItem) (h : Nat)
    (m : Menu) (hptr : it.ItemPtr = some h) (hm : s.m_Menu = some m)
    (hid : m.GetId h = some id) : selectionMatches s id it = true := by
  simp [selectionMatches, hptr, hm, hid]

/-- C7, counterexample: after adding `A` and `B` the entry `A` at index 0 is
projected with identifier 5000 and `m_cursel` is 1; `A` is the recorded current
image, but the source is the disc drive. The selection event 5000 pauses the core,
swaps to `A` and resumes, sets `m_cursel` to 0, and is not skipped. -/
theorem C7_counterexample :
    ∃ s r, addAll testEnv (emptyStore (some emptyMenu) 2 5000)
        [(testWorld, "A"), (testWorld, "B")] = Except.ok s ∧
      s.m_Items[0]? = some (RecentItem.mk "A" (some 9)) ∧
      s.m_Menu.bind (fun m => m.GetId 9) = some 5000 ∧
      discWorld.g_Conf.CurrentIso = "A" ∧
      s.m_cursel = 1 ∧
      OnChangedSelection testEnv discWorld s ⟨5000, false⟩ = Except.ok r ∧
      r.trace = [CoreEffect.pause, CoreEffect.swap "A" "changed", CoreEffect.resume] ∧
      r.evt.skipped = false ∧ r.state.m_cursel = 0 :=
  ⟨_, _, rfl, rfl, rfl, rfl, rfl, rfl, rfl, rfl, rfl⟩

/-- C7, amended: when the scan of `OnChangedSelection` stops at the entry at index `i`
(its item has the identifier of the event and no earlier entry matches), the path of
that entry equals `g_Conf->CurrentIso` and `g_Conf->CdvdSource` is `Iso`, the handler
requests no pause, no swap and no resume, leaves the manager unchanged, throws
nothing and only marks the event as skipped. -/
theorem C7_redundant_selection_is_skipped (E : Env) (W : World) (s : RecentIsoManager)
    (evt : wxCommandEvent) (i : Nat) (it : RecentItem) (h : Nat) (m : Menu)
    (hi : s.m_Items[i]? = some it) (hptr : it.ItemPtr = some h) (hm : s.m_Menu = some m)
    (hid : m.GetId h = some evt.id)
    (hfirst : ∀ j, j < i → ∀ jt, s.m_Items[j]? = some jt → selectionMatches s evt.id jt = false)
    (hiso : W.g_Conf.CdvdSource = CDVD_SourceType.Iso)
    (hcur : it.Filename = W.g_Conf.CurrentIso) :
    OnChangedSelection E W s evt = Except.ok
      { state := s, evt := { evt with skipped := true }, trace := [], thrown := false } := by
  have hscan := selectionScan_first s evt.id s.m_Items 0 i it hi
    (selectionMatches_of s evt.id it h m hptr hm hid) hfirst
  have hlt : i < s.m_Items.length := (List.getElem?_eq_some_iff.mp hi).1
  unfold OnChangedSelection
  simp only [hscan, Nat.zero_add, ge_iff_le, Nat.not_le.mpr hlt, if_false, hi, hiso, hcur,
    and_self, if_true]

/-- Witness of C7: with the image `A` as current source, selecting `A` is skipped. -/
theorem C7_redundant_selection_is_skipped_witness :
    OnChangedSelection testEnv isoWorld overfullStore ⟨5000, false⟩ = Except.ok
      { state := overfullStore, evt := { (⟨5000, false⟩ : wxCommandEvent) with skipped := true },
        trace := [], thrown := false } :=
  C7_redundant_selection_is_skipped testEnv isoWorld overfullStore ⟨5000, false⟩ 0
    (RecentItem.mk "A" (some 3)) 3
    { items := [separatorItem 1,
                radioItemFor testEnv testWorld 5000 2 1 (RecentItem.mk "B" none),
                radioItemFor testEnv testWorld 5000 3 0 (RecentItem.mk "A" none)]
      destroyed := [] }
    rfl rfl rfl rfl (by intro j hj; omega) rfl rfl

/-- C8: when the scan of `OnChangedSelection` stops at the entry at index `i` (its
item has the identifier of the event and no earlier entry matches) and that entry
is not the current image of an `Iso` source, the handler completes, sets `m_cursel`
to `i` and changes nothing else of the manager, does not skip the event, and
requests exactly a pause, a swap to the path of entry `i` with the image-changed
message, and a resume, one of each and in this order; an exception leaves the
handler exactly when the swap fails, and the resume is requested then too. -/
theorem C8_effective_selection_swaps_once (E : Env) (W : World) (s : RecentIsoManager)
    (evt : wxCommandEvent) (i : Nat) (it : RecentItem) (h : Nat) (m : Menu)
    (hi : s.m_Items[i]? = some it) (hptr : it.ItemPtr = some h) (hm : s.m_Menu = some m)
    (hid : m.GetId h = some evt.id)
    (hfirst : ∀ j, j < i → ∀ jt, s.m_Items[j]? = some jt → selectionMatches s evt.id jt = false)
    (hother : ¬ (W.g_Conf.CdvdSource = CDVD_SourceType.Iso ∧ it.Filename = W.g_Conf.CurrentIso)) :
    ∃ r, OnChangedSelection E W s evt = Except.ok r ∧
      r.state = { s with m_cursel := (i : Int) } ∧ r.evt = evt ∧
      r.trace = [CoreEffect.pause, CoreEffect.swap it.Filename E.GetMsg_IsoImageChanged,
                 CoreEffect.resume] ∧
      r.trace.count CoreEffect.pause = 1 ∧ r.trace.count CoreEffect.resume = 1 ∧
      (r.trace.filter (fun e => e != CoreEffect.pause && e != CoreEffect.resume)).length = 1 ∧
      r.thrown = !W.swapSucceeds it.Filename := by
  have hscan := selectionScan_first s evt.id s.m_Items 0 i it hi
    (selectionMatches_of s evt.id it h m hptr hm hid) hfirst
  have hlt : i < s.m_Items.length := (List.getElem?_eq_some_iff.mp hi).1
  unfold OnChangedSelection
  simp only [hscan, Nat.zero_add, ge_iff_le, Nat.not_le.mpr hlt, if_false, hi, hother, hm,
    scopedPauseAcquire, scopedPauseRelease]
  cases hsw : W.swapSucceeds it.Filename
  · refine ⟨_, rfl, rfl, rfl, rfl, ?_, ?_, ?_, rfl⟩
    · simp [List.count_cons]
    · simp [List.count_cons]
    · simp [List.filter_cons]
  · refine ⟨_, rfl, rfl, rfl, rfl, ?_, ?_, ?_, rfl⟩
    · simp [List.count_cons]
    · simp [List.count_cons]
    · simp [List.filter_cons]

/-- Witness of C8: selecting `B` while the swap fails still pauses, swaps and resumes
once, and the failure leaves the handler. -/
theorem C8_effective_selection_swaps_once_witness :
    ∃ r, OnChangedSelection testEnv failingWorld overfullStore ⟨5001, false⟩ = Except.ok r ∧
      r.state = { overfullStore with m_cursel := ((1 : Nat) : Int) } ∧
      r.evt = ⟨5001, false⟩ ∧
      r.trace = [CoreEffect.pause, CoreEffect.swap "B" "changed", CoreEffect.resume] ∧
      r.trace.count CoreEffect.pause = 1 ∧ r.trace.count CoreEffect.resume = 1 ∧
      (r.trace.filter (fun e => e != CoreEffect.pause && e != CoreEffect.resume)).length = 1 ∧
      r.thrown = true :=
  C8_effective_selection_swaps_once testEnv failingWorld overfullStore ⟨5001, false⟩ 1
    (RecentItem.mk "B" (some 2)) 2
    { items := [separatorItem 1,
                radioItemFor testEnv testWorld 5000 2 1 (RecentItem.mk "B" none),
                radioItemFor testEnv testWorld 5000 3 0 (RecentItem.mk "A" none)]
      destroyed := [] }
    rfl rfl rfl rfl
    (by
      intro j hj jt hjt
      have hj0 : j = 0 := by omega
      subst hj0
      have : jt = RecentItem.mk "A" (some 3) := by
        have h0 : overfullStore.m_Items[0]? = some (RecentItem.mk "A" (some 3)) := rfl
        rw [h0] at hjt
        exact (Option.some.inj hjt).symm
      subst this
      rfl)
    (by decide)

theorem lookup_filter_append (g : List (Nat × String)) (i k : Nat) (t : String) :
    List.lookup k (g.filter (fun kv => kv.1 != i) ++ [(i, t)])
      = if k = i then some t else List.lookup k g := by
  induction g with
  | nil =>
    by_cases h : k = i
    · simp [List.lookup, h]
    · have : (k == i) = false := by simpa using h
      simp [List.lookup, h, this]
  | cons kv rest ih =>
    obtain ⟨a, b⟩ := kv
    by_cases ha : a = i
    · subst ha
      simp only [List.filter_cons, bne_self_eq_false, Bool.false_eq_true, if_false, ih]
      by_cases h : k = a
      · simp [h]
      · have : (k == a) = false := by simpa using h
        simp [List.lookup, h, this]
    · have hne : (a != i) = true := by simpa using ha
      simp only [List.filter_cons, hne, if_true, List.cons_append, List.lookup]
      by_cases h : k = a
      · subst h
        simp [ha]
      · have : (k == a) = false := by simpa using h
        simp only [this, ih]

theorem read_write (ini : IniInterface) (i k : Nat) (t : String) :
    (ini.write i t).read k = if k = i then some t else ini.read k := by
  simp only [IniInterface.write, IniInterface.read]
  exact lookup_filter_append ini.group i k t

theorem saveLoop_read (E : Env) (W : World) (items : List RecentItem) :
    ∀ (i : Nat) (ini : IniInterface) (k : Nat),
      (saveLoop E W items i ini).read k =
        if k < i then ini.read k
        else match items[k - i]? with
          | some it => some (E.storedPath W.IsPortable it.Filename)
          | none => ini.read k := by
  induction items with
  | nil => intro i ini k; simp [saveLoop]
  | cons x rest ih =>
    intro i ini k
    simp only [saveLoop]
    rw [ih (i + 1) _ k]
    by_cases h1 : k < i
    · have h2 : k < i + 1 := by omega
      have h3 : k ≠ i := by omega
      simp [h1, h2, read_write, h3]
    · by_cases h2 : k = i
      · subst h2
        simp [read_write]
      · have h3 : ¬ k < i + 1 := by omega
        have h4 : k - i = (k - (i + 1)) + 1 := by omega
        simp only [h1, h3, if_false, read_write, h2]
        rw [h4, List.getElem?_cons_succ]

theorem saveLoop_fields (E : Env) (W : World) (items : List RecentItem) :
    ∀ (i : Nat) (ini : IniInterface),
      (saveLoop E W items i ini).IsOk = ini.IsOk ∧
      (saveLoop E W items i ini).IsSaving = ini.IsSaving := by
  induction items with
  | nil => intro i ini; exact ⟨rfl, rfl⟩
  | cons x rest ih =>
    intro i ini
    simp only [saveLoop]
    have := ih (i + 1) (ini.write i (E.storedPath W.IsPortable x.Filename))
    exact this

theorem take_succ_of_getElem? (P : List String) (i : Nat) (p : String) (h : P[i]? = some p) :
    P.take (i + 1) = P.take i ++ [p] := by
  rw [List.take_succ, h]; rfl

theorem take_of_getElem?_none (P : List String) (i n : Nat) (h : P[i]? = none) :
    P.take (i + n) = P.take i := by
  have hl : P.length ≤ i := List.getElem?_eq_none_iff.mp h
  rw [List.take_of_length_le (by omega), List.take_of_length_le hl]

theorem loadLoop_saved (E : Env) (W : World) (loader : IniInterface) (stored : String → String)
    (P : List String)
    (hread : ∀ k, loader.read k = (P[k]?).map stored)
    (hnd : P.Nodup)
    (hgood : ∀ p ∈ P, p ≠ "" ∧ E.Normalize p = p ∧ E.GetFullName (stored p) ≠ "" ∧
      E.GetFullPath (stored p) = p) :
    ∀ (n i : Nat) (s : RecentIsoManager) (m : Menu), s.m_Menu = some m →
      P.length ≤ s.m_MaxLength → filenames s = P.take i →
      ∃ s2 m2, loadLoop E W loader n i s = Except.ok s2 ∧ s2.m_Menu = some m2 ∧
        s2.m_MaxLength = s.m_MaxLength ∧ filenames s2 = P.take (i + n) := by
  intro n
  induction n with
  | zero => intro i s m hm _ hf; exact ⟨s, m, rfl, hm, rfl, by simpa using hf⟩
  | succ n ih =>
    intro i s m hm hcap hf
    cases hp : P[i]? with
    | none =>
      have hr : loader.read i = none := by rw [hread, hp]; rfl
      have hf1 : filenames s = P.take (i + 1) := by
        rw [take_of_getElem?_none P i 1 hp]; exact hf
      obtain ⟨s2, m2, h2, hm2, hc2, hf2⟩ := ih (i + 1) s m hm hcap hf1
      refine ⟨s2, m2, ?_, hm2, hc2, ?_⟩
      · simp only [loadLoop, hr, h2]
      · rw [hf2]; congr 1; omega
    | some p =>
      have hr : loader.read i = some (stored p) := by rw [hread, hp]; rfl
      have hmem : p ∈ P := by
        obtain ⟨hlt0, hget⟩ := List.getElem?_eq_some_iff.mp hp
        rw [← hget]
        exact List.getElem_mem _
      obtain ⟨hne, hnorm, hname, hpath⟩ := hgood p hmem
      have hlt : i < P.length := (List.getElem?_eq_some_iff.mp hp).1
      have hcap1 : 1 ≤ s.m_MaxLength := by omega
      obtain ⟨s1, h1⟩ := Add_total E W s m p hm hcap1
      have hp1 := Add_ok E W s s1 p h1
      obtain ⟨m1, hm1⟩ : ∃ m1, s1.m_Menu = some m1 := by
        have := hp1.2.2.1
        rw [hm] at this
        exact Option.isSome_iff_exists.mp this
      have htake := take_succ_of_getElem? P i p hp
      have hnotin : p ∉ P.take i := by
        have hnd2 : (P.take (i + 1)).Nodup := hnd.sublist (List.take_sublist _ _)
        rw [htake] at hnd2
        intro hin
        exact (List.nodup_append.mp hnd2).2.2 hin (List.mem_singleton_self p)
      have hf1 : filenames s1 = P.take (i + 1) := by
        rw [hp1.2.2.2.1]
        simp only [hne, if_false, hnorm, addPath, hf, hnotin]
        have : (P.take i).length + 1 - s.m_MaxLength = 0 := by
          rw [List.length_take]; omega
        rw [this, List.drop_zero, htake]
      obtain ⟨s2, m2, h2, hm2, hc2, hf2⟩ := ih (i + 1) s1 m1 hm1 (by rw [hp1.1]; exact hcap) hf1
      refine ⟨s2, m2, ?_, hm2, by rw [hc2, hp1.1], ?_⟩
      · simp only [loadLoop, hr, hname, ne_eq, not_false_eq_true, if_true, hpath, h1, h2]
      · rw [hf2]; congr 1; omega

/-- C9: let a store hold entries with pairwise distinct, non-empty, normalized paths
whose stored text has a non-empty file name and is read back as the same path. Saving
it through `AppStatusEvent_OnUiSettingsLoadSave` (settings in saving mode) completes
and leaves the store as it is; loading the written group from a usable settings
source with `LoadListFrom` into a fresh empty store, the configured capacity being at
least the number of entries and the current image unset, completes and yields the
same paths in the same order, with that capacity. -/
theorem C9_save_then_load_round_trip (E : Env) (Wsave Wload : World) (s : RecentIsoManager)
    (ini : IniInterface) (menu : Menu) (firstId : Int)
    (hsaving : ini.IsSaving = true)
    (hdistinct : (s.m_Items.map (fun it => it.Filename)).Nodup)
    (hgood : ∀ it ∈ s.m_Items, it.Filename ≠ "" ∧ E.Normalize it.Filename = it.Filename ∧
      E.GetFullName (E.storedPath Wsave.IsPortable it.Filename) ≠ "" ∧
      E.GetFullPath (E.storedPath Wsave.IsPortable it.Filename) = it.Filename)
    (hcap : s.m_Items.length ≤ Wload.g_Conf.RecentIsoCount)
    (hcur : Wload.g_Conf.CurrentIso = "") :
    ∃ written, AppStatusEvent_OnUiSettingsLoadSave E Wsave s ini = Except.ok (s, written) ∧
      ∀ loader : IniInterface, loader.IsOk = true → loader.group = written.group →
        ∃ s2, LoadListFrom E Wload
            (emptyStore (some menu) Wload.g_Conf.RecentIsoCount firstId) loader = Except.ok s2 ∧
          s2.m_Items.map (fun it => it.Filename) = s.m_Items.map (fun it => it.Filename) ∧
          s2.m_MaxLength = Wload.g_Conf.RecentIsoCount := by
  refine ⟨saveLoop E Wsave s.m_Items 0 ini.DeleteGroup, ?_, ?_⟩
  · simp [AppStatusEvent_OnUiSettingsLoadSave, hsaving]
  · intro loader hok hgrp
    have hread : ∀ k, loader.read k
        = ((s.m_Items.map (fun it => it.Filename))[k]?).map (E.storedPath Wsave.IsPortable) := by
      intro k
      have h1 : loader.read k = (saveLoop E Wsave s.m_Items 0 ini.DeleteGroup).read k := by
        simp only [IniInterface.read, hgrp]
      rw [h1, saveLoop_read]
      simp only [Nat.not_lt_zero, if_false, Nat.sub_zero, List.getElem?_map]
      cases s.m_Items[k]? with
      | none => simp [IniInterface.read, IniInterface.DeleteGroup]
      | some it => rfl
    have hgood2 : ∀ p ∈ s.m_Items.map (fun it => it.Filename), p ≠ "" ∧ E.Normalize p = p ∧
        E.GetFullName (E.storedPath Wsave.IsPortable p) ≠ "" ∧
        E.GetFullPath (E.storedPath Wsave.IsPortable p) = p := by
      intro p hp
      obtain ⟨it, hit, rfl⟩ := List.mem_map.mp hp
      exact hgood it hit
    have hrm : RemoveAllFromMenu (emptyStore (some menu) Wload.g_Conf.RecentIsoCount firstId)
        = emptyStore (some menu) Wload.g_Conf.RecentIsoCount firstId := by
      rw [RemoveAllFromMenu_eq _ menu rfl]
      simp [emptyStore, projectedHandles, destroyAll]
    obtain ⟨s2, m2, h2, _, hc2, hf2⟩ := loadLoop_saved E Wload loader
      (E.storedPath Wsave.IsPortable) (s.m_Items.map (fun it => it.Filename)) hread hdistinct
      hgood2 Wload.g_Conf.RecentIsoCount 0
      (emptyStore (some menu) Wload.g_Conf.RecentIsoCount firstId) menu rfl
      (by simpa [emptyStore] using hcap) (by simp [filenames, emptyStore])
    refine ⟨s2, ?_, ?_, hc2⟩
    · unfold LoadListFrom
      simp only [hok, Bool.not_true, Bool.false_eq_true, if_false, hrm]
      have h3 : loadLoop E Wload loader Wload.g_Conf.RecentIsoCount 0
          { emptyStore (some menu) Wload.g_Conf.RecentIsoCount firstId with
            m_MaxLength := Wload.g_Conf.RecentIsoCount } = Except.ok s2 := h2
      rw [h3]
      simp only [hcur, Add_empty]
    · have : filenames s2 = s2.m_Items.map (fun it => it.Filename) := rfl
      rw [← this, hf2, Nat.zero_add, List.take_of_length_le (by simpa using hcap)]

/-- Witness of C9: the entries `X`, `Y` saved and loaded with capacity two. -/
theorem C9_save_then_load_round_trip_witness :
    ∃ written, AppStatusEvent_OnUiSettingsLoadSave testEnv testWorld storeXY savingIni
        = Except.ok (storeXY, written) ∧
      ∀ loader : IniInterface, loader.IsOk = true → loader.group = written.group →
        ∃ s2, LoadListFrom testEnv testWorld
            (emptyStore (some emptyMenu) testWorld.g_Conf.RecentIsoCount wxID_ANY) loader
              = Except.ok s2 ∧
          s2.m_Items.map (fun it => it.Filename) = ["X", "Y"] ∧
          s2.m_MaxLength = 2 :=
  C9_save_then_load_round_trip testEnv testWorld testWorld storeXY savingIni emptyMenu wxID_ANY
    rfl (by decide) (by decide) (by decide) rfl

theorem loadLoop_ok (E : Env) (W : World) (ini : IniInterface) :
    ∀ (n i : Nat) (s s2 : RecentIsoManager), loadLoop E W ini n i s = Except.ok s2 →
      s2.m_MaxLength = s.m_MaxLength ∧
      s2.m_firstIdForMenuItems_or_wxID_ANY = s.m_firstIdForMenuItems_or_wxID_ANY ∧
      s2.m_Menu.isSome = s.m_Menu.isSome ∧
      (s.m_Items.length ≤ s.m_MaxLength → s2.m_Items.length ≤ s2.m_MaxLength) := by
  intro n
  induction n with
  | zero =>
    intro i s s2 h
    simp only [loadLoop] at h
    cases h
    exact ⟨rfl, rfl, rfl, fun h => h⟩
  | succ n ih =>
    intro i s s2 h
    simp only [loadLoop] at h
    cases hr : ini.read i with
    | none =>
      rw [hr] at h
      exact ih (i + 1) s s2 h
    | some t =>
      rw [hr] at h
      dsimp only at h
      by_cases hn : E.GetFullName t ≠ ""
      · rw [if_pos hn] at h
        cases ha : Add E W s (E.GetFullPath t) with
        | error f => rw [ha] at h; cases h
        | ok s1 =>
          rw [ha] at h
          simp only at h
          have h1 := Add_ok E W s s1 _ ha
          have h2 := ih (i + 1) s1 s2 h
          exact ⟨by rw [h2.1, h1.1], by rw [h2.2.1, h1.2.1], by rw [h2.2.2.1, h1.2.2.1],
            fun hle => h2.2.2.2 (h1.2.2.2.2 hle)⟩
      · rw [if_neg hn] at h
        exact ih (i + 1) s s2 h

/-- What a completed `LoadListFrom` guarantees, for any store. -/
theorem LoadListFrom_ok (E : Env) (W : World) (s s2 : RecentIsoManager) (ini : IniInterface)
    (h : LoadListFrom E W s ini = Except.ok s2) :
    (ini.IsOk = false ∧ s2 = s) ∨
    (ini.IsOk = true ∧ s2.m_MaxLength = W.g_Conf.RecentIsoCount ∧
      s2.m_firstIdForMenuItems_or_wxID_ANY = s.m_firstIdForMenuItems_or_wxID_ANY ∧
      s2.m_Menu.isSome = s.m_Menu.isSome ∧
      (s.m_Items.length ≤ W.g_Conf.RecentIsoCount → s2.m_Items.length ≤ s2.m_MaxLength)) := by
  unfold LoadListFrom at h
  cases hok : ini.IsOk with
  | false =>
    left
    simp only [hok, Bool.not_false, if_true] at h
    cases h
    exact ⟨rfl, rfl⟩
  | true =>
    right
    simp only [hok, Bool.not_true, Bool.false_eq_true, if_false] at h
    have hr := RemoveAllFromMenu_fields s
    cases hl : loadLoop E W ini W.g_Conf.RecentIsoCount 0
        { RemoveAllFromMenu s with m_MaxLength := W.g_Conf.RecentIsoCount } with
    | error f => rw [hl] at h; cases h
    | ok s3 =>
      rw [hl] at h
      simp only at h
      have h1 := loadLoop_ok E W ini _ _ _ _ hl
      have h2 := Add_ok E W s3 s2 _ h
      simp only at h1
      refine ⟨rfl, by rw [h2.1, h1.1], by rw [h2.2.1, h1.2.1, hr.2.2.2.2.1],
        by rw [h2.2.2.1, h1.2.2.1, hr.2.2.2.2.2], ?_⟩
      intro hle
      apply h2.2.2.2.2
      apply h1.2.2.2
      rw [hr.2.1]
      exact hle

/-- What a completed `OnChangedSelection` leaves of the store. -/
theorem OnChangedSelection_ok (E : Env) (W : World) (s : RecentIsoManager) (evt : wxCommandEvent)
    (r : SelectionOutcome) (h : OnChangedSelection E W s evt = Except.ok r) :
    r.state.m_Items = s.m_Items ∧ r.state.m_MaxLength = s.m_MaxLength ∧
    r.state.m_Menu = s.m_Menu ∧
    r.state.m_firstIdForMenuItems_or_wxID_ANY = s.m_firstIdForMenuItems_or_wxID_ANY := by
  unfold OnChangedSelection at h
  simp only at h
  split at h
  · cases h; exact ⟨rfl, rfl, rfl, rfl⟩
  · split at h
    · cases h
    · split at h
      · cases h; exact ⟨rfl, rfl, rfl, rfl⟩
      · split at h
        · cases h
        · split at h <;> (cases h; exact ⟨rfl, rfl, rfl, rfl⟩)

theorem step_keeps_bound (E : Env) (W : World) (s s2 : RecentIsoManager) (op : Op)
    (h : step E W s op = Except.ok s2)
    (hfit : ∀ ini, op = Op.loadListFrom ini → ini.IsOk = true →
      s.m_Items.length ≤ W.g_Conf.RecentIsoCount)
    (hinv : s.m_Items.length ≤ s.m_MaxLength) : s2.m_Items.length ≤ s2.m_MaxLength := by
  cases op with
  | add src => exact (Add_ok E W s s2 src h).2.2.2.2 hinv
  | clear =>
    have := Clear_ok E W s s2 h
    rw [this.1]; exact Nat.zero_le _
  | clearMissing =>
    have := ClearMissing_ok E W s s2 h
    rw [this.2.2.1]
    exact le_trans this.2.1 hinv
  | loadListFrom ini =>
    rcases LoadListFrom_ok E W s s2 ini h with ⟨_, rfl⟩ | ⟨hok, _, _, _, hle⟩
    · exact hinv
    · exact hle (hfit ini rfl hok)
  | select evt =>
    simp only [step] at h
    cases hr : OnChangedSelection E W s evt with
    | error f => rw [hr] at h; cases h
    | ok r =>
      rw [hr] at h
      simp only at h
      cases h
      have := OnChangedSelection_ok E W s evt r hr
      rw [this.1, this.2.1]
      exact hinv

theorem construct_bound (E : Env) (W : World) (menu : Option Menu) (firstId : Int)
    (loader : IniInterface) (s0 : RecentIsoManager)
    (h : construct E W menu firstId loader = Except.ok s0) :
    s0.m_Items.length ≤ s0.m_MaxLength := by
  unfold construct at h
  rcases LoadListFrom_ok E W _ s0 loader h with ⟨_, rfl⟩ | ⟨_, _, _, _, hle⟩
  · exact Nat.zero_le _
  · exact hle (Nat.zero_le _)

theorem run_keeps_bound (E : Env) (ops : List (World × Op)) :
    ∀ (s s2 : RecentIsoManager), run E s ops = Except.ok s2 → loadsFit E s ops = true →
      s.m_Items.length ≤ s.m_MaxLength → s2.m_Items.length ≤ s2.m_MaxLength := by
  induction ops with
  | nil =>
    intro s s2 h _ hinv
    simp only [run] at h
    cases h
    exact hinv
  | cons c rest ih =>
    intro s s2 h hfit hinv
    obtain ⟨W, op⟩ := c
    simp only [run] at h
    simp only [loadsFit, Bool.and_eq_true] at hfit
    cases hs : step E W s op with
    | error f => rw [hs] at h; cases h
    | ok s1 =>
      rw [hs] at h hfit
      simp only at h hfit
      apply ih s1 s2 h hfit.2
      apply step_keeps_bound E W s s1 op hs _ hinv
      intro ini hop hok
      have h1 := hfit.1
      rw [hop] at h1
      simpa [hok] using h1

/-- C10, counterexample: the manager is constructed with capacity two from saved
settings holding `A` and `B`; the configured capacity then drops to one and the same
settings are loaded again. Both paths are already present, nothing is evicted, and
the store holds two entries with capacity one. -/
theorem C10_counterexample :
    ∃ s0 s, construct testEnv testWorld (some emptyMenu) 5000 iniAB = Except.ok s0 ∧
      s0.m_Items.length = 2 ∧ s0.m_MaxLength = 2 ∧
      run testEnv s0 [(smallWorld, Op.loadListFrom iniAB)] = Except.ok s ∧
      s.m_Items.length = 2 ∧ s.m_MaxLength = 1 ∧ ¬ (s.m_Items.length ≤ s.m_MaxLength) :=
  ⟨_, _, rfl, rfl, rfl, rfl, rfl, rfl, by decide⟩

/-- C10, amended: in every state reached from the constructed store by a sequence of
`Add`, `Clear`, `ClearMissing`, `LoadListFrom` and selection events in which every
`LoadListFrom` with a usable settings source runs with a configured capacity not
smaller than the number of entries held at that moment, the number of entries is at
most the current capacity. -/
theorem C10_capacity_bound_when_loads_fit (E : Env) (W0 : World) (menu : Option Menu)
    (firstId : Int) (loader : IniInterface) (ops : List (World × Op))
    (s0 s : RecentIsoManager)
    (hconstruct : construct E W0 menu firstId loader = Except.ok s0)
    (hrun : run E s0 ops = Except.ok s)
    (hfit : loadsFit E s0 ops = true) :
    s.m_Items.length ≤ s.m_MaxLength :=
  run_keeps_bound E ops s0 s hrun hfit (construct_bound E W0 menu firstId loader s0 hconstruct)

/-- Witness of C10: a constructed store, then an `Add` that evicts, a reload with the
same capacity and a `ClearMissing`. -/
theorem C10_capacity_bound_when_loads_fit_witness :
    ∃ s0 s, construct testEnv testWorld (some emptyMenu) 5000 iniAB = Except.ok s0 ∧
      run testEnv s0 [(testWorld, Op.add "C"), (testWorld, Op.loadListFrom iniAB),
        (worldWithoutB, Op.clearMissing)] = Except.ok s ∧
      loadsFit testEnv s0 [(testWorld, Op.add "C"), (testWorld, Op.loadListFrom iniAB),
        (worldWithoutB, Op.clearMissing)] = true ∧
      s.m_Items.map (fun it => it.Filename) = ["A"] ∧
      s.m_Items.length ≤ s.m_MaxLength :=
  ⟨_, _, rfl, rfl, rfl, rfl,
    C10_capacity_bound_when_loads_fit testEnv testWorld (some emptyMenu) 5000 iniAB
      [(testWorld, Op.add "C"), (testWorld, Op.loadListFrom iniAB),
        (worldWithoutB, Op.clearMissing)] _ _ rfl rfl rfl⟩

/-- C13: inputs that are not for this manager leave it as it is. A selection event
whose identifier is the identifier of no entry's item (in particular any event when
no entry has an item) leaves the whole manager, menu included, unchanged, requests
nothing of the core, throws nothing and is marked skipped; `Add` of the empty path
and `LoadListFrom` with an unusable settings source return the manager unchanged,
menu and capacity included. -/
theorem C13_ignored_inputs_change_nothing (E : Env) (W : World) (s : RecentIsoManager) :
    (∀ evt : wxCommandEvent,
      (∀ it ∈ s.m_Items, ∀ h m, it.ItemPtr = some h → s.m_Menu = some m →
        m.GetId h ≠ some evt.id) →
      OnChangedSelection E W s evt = Except.ok
        { state := s, evt := { evt with skipped := true }, trace := [], thrown := false }) ∧
    (∀ evt : wxCommandEvent, (∀ it ∈ s.m_Items, it.ItemPtr = none) →
      OnChangedSelection E W s evt = Except.ok
        { state := s, evt := { evt with skipped := true }, trace := [], thrown := false }) ∧
    Add E W s "" = Except.ok s ∧
    (∀ ini : IniInterface, ini.IsOk = false → LoadListFrom E W s ini = Except.ok s) := by
  have key : ∀ evt : wxCommandEvent,
      (∀ it ∈ s.m_Items, selectionMatches s evt.id it = false) →
      OnChangedSelection E W s evt = Except.ok
        { state := s, evt := { evt with skipped := true }, trace := [], thrown := false } := by
    intro evt h
    have hscan := selectionScan_none s evt.id s.m_Items 0 h
    unfold OnChangedSelection
    simp only [hscan, Nat.zero_add, ge_iff_le, le_refl, if_true]
  refine ⟨?_, ?_, Add_empty E W s, ?_⟩
  · intro evt h
    apply key
    intro it hit
    unfold selectionMatches
    cases hp : it.ItemPtr with
    | none => rfl
    | some hd =>
      cases hm : s.m_Menu with
      | none => rfl
      | some m =>
        have := h it hit hd m hp hm
        simpa using this
  · intro evt h
    apply key
    intro it hit
    simp [selectionMatches, h it hit]
  · intro ini hok
    simp [LoadListFrom, hok]

/-- Witness of C13: an event with an identifier of no item, and one on a store whose
entries have no item. -/
theorem C13_ignored_inputs_change_nothing_witness :
    OnChangedSelection testEnv testWorld overfullStore ⟨7, false⟩ = Except.ok
      { state := overfullStore, evt := { (⟨7, false⟩ : wxCommandEvent) with skipped := true },
        trace := [], thrown := false } ∧
    OnChangedSelection testEnv testWorld storeBC ⟨5000, false⟩ = Except.ok
      { state := storeBC, evt := { (⟨5000, false⟩ : wxCommandEvent) with skipped := true },
        trace := [], thrown := false } ∧
    LoadListFrom testEnv testWorld overfullStore { iniAB with IsOk := false }
      = Except.ok overfullStore :=
  ⟨(C13_ignored_inputs_change_nothing testEnv testWorld overfullStore).1 ⟨7, false⟩
     (by
       intro it hit h m hp hm
       have hm2 : m = { items := [separatorItem 1,
                  radioItemFor testEnv testWorld 5000 2 1 (RecentItem.mk "B" none),
                  radioItemFor testEnv testWorld 5000 3 0 (RecentItem.mk "A" none)]
                        destroyed := [] } := (Option.some.inj hm).symm
       subst hm2
       have hit2 : it = RecentItem.mk "A" (some 3) ∨ it = RecentItem.mk "B" (some 2) := by
         simpa [overfullStore] using hit
       rcases hit2 with rfl | rfl
       · have : h = 3 := (Option.some.inj hp).symm
         subst this
         decide
       · have : h = 2 := (Option.some.inj hp).symm
         subst this
         decide),
   (C13_ignored_inputs_change_nothing testEnv testWorld storeBC).2.1 ⟨5000, false⟩ (by decide),
   (C13_ignored_inputs_change_nothing testEnv testWorld overfullStore).2.2.2
     { iniAB with IsOk := false } rfl⟩

/-- C14: `GetMissingFiles` is a function of the store and the file system only, so it
changes neither the store, the handles, `m_cursel` nor the menu. For every store and
every file-existence predicate it returns exactly the entries whose path does not
exist, in store order. With the entries `ClearMissing` keeps it partitions the
entries, and right after a completed `ClearMissing` it returns nothing. -/
theorem C14_get_missing_files_is_a_pure_filter (E : Env) (W : World) (s : RecentIsoManager) :
    (GetMissingFiles W s).Sublist s.m_Items ∧
    (∀ it, it ∈ GetMissingFiles W s ↔ it ∈ s.m_Items ∧ W.wxFileExists it.Filename = false) ∧
    (GetMissingFiles W s).map (fun it => it.Filename)
      = (s.m_Items.map (fun it => it.Filename)).filter (fun p => !W.wxFileExists p) ∧
    (∀ s2, ClearMissing E W s = Except.ok s2 →
      GetMissingFiles W s2 = [] ∧
      (s2.m_Items.map (fun it => it.Filename)
        ++ (GetMissingFiles W s).map (fun it => it.Filename)).Perm
          (s.m_Items.map (fun it => it.Filename)) ∧
      ∀ p, ¬ (p ∈ s2.m_Items.map (fun it => it.Filename) ∧
        p ∈ (GetMissingFiles W s).map (fun it => it.Filename))) := by
  have hmap : (GetMissingFiles W s).map (fun it => it.Filename)
      = (s.m_Items.map (fun it => it.Filename)).filter (fun p => !W.wxFileExists p) :=
    filter_filenames (fun p => !W.wxFileExists p) s.m_Items
  refine ⟨List.filter_sublist _, ?_, hmap, ?_⟩
  · intro it
    simp [GetMissingFiles]
  · intro s2 h
    have hp := ClearMissing_ok E W s s2 h
    simp only [filenames] at hp
    refine ⟨?_, ?_, ?_⟩
    · have hall : ∀ it ∈ s2.m_Items, W.wxFileExists it.Filename = true := by
        intro it hit
        have : it.Filename ∈ s2.m_Items.map (fun it => it.Filename) :=
          List.mem_map.mpr ⟨it, hit, rfl⟩
        rw [hp.1] at this
        exact (List.mem_filter.mp this).2
      simp only [GetMissingFiles, List.filter_eq_nil_iff]
      intro it hit
      simp [hall it hit]
    · rw [hp.1, hmap]
      have := List.filter_append_perm W.wxFileExists (s.m_Items.map (fun it => it.Filename))
      simpa using this
    · rintro p ⟨h1, h2⟩
      rw [hp.1] at h1
      rw [hmap] at h2
      have e1 := (List.mem_filter.mp h1).2
      have e2 := (List.mem_filter.mp h2).2
      simp [e1] at e2

/-- Witness of C14: of `A`, `B`, `C` with `B` missing, `ClearMissing` keeps `A`, `C`
and a query afterwards finds nothing missing. -/
theorem C14_get_missing_files_is_a_pure_filter_witness :
    ∃ s2, ClearMissing testEnv worldWithoutB storeABC = Except.ok s2 ∧
      GetMissingFiles worldWithoutB storeABC = [RecentItem.mk "B" none] ∧
      GetMissingFiles worldWithoutB s2 = [] :=
  ⟨_, rfl, rfl,
    ((C14_get_missing_files_is_a_pure_filter testEnv worldWithoutB storeABC).2.2.2 _ rfl).1⟩

theorem destroyAll_eq (hs : List Nat) :
    ∀ m : Menu, destroyAll m hs =
      { items := m.items.filter (fun x => !hs.contains x.handle)
        destroyed := m.destroyed ++ hs } := by
  induction hs with
  | nil => intro m; simp [destroyAll]
  | cons h rest ih =>
    intro m
    have := ih (m.Destroy h)
    simp only [destroyAll, List.foldl_cons] at this ⊢
    rw [this]
    simp only [Menu.Destroy, List.filter_filter, List.append_assoc, List.singleton_append,
      Menu.mk.injEq, and_true]
    apply List.filter_congr
    intro x _
    simp only [List.contains_cons, Bool.not_or, bne]
    rw [Bool.and_comm]

theorem mem_projectedHandles (s : RecentIsoManager) (h : Nat) :
    h ∈ projectedHandles s ↔
      (∃ it ∈ s.m_Items, it.ItemPtr = some h) ∨ s.m_Separator = some h ∨
      s.m_ClearSeparator = some h ∨ s.m_Clear = some h ∨ s.m_ClearMissing = some h := by
  simp only [projectedHandles, List.mem_append, List.mem_filterMap, List.mem_reverse,
    Option.mem_toList, Option.mem_def, or_assoc]

theorem projectedHandles_of_nothingProjected (s : RecentIsoManager) (h : nothingProjected s) :
    projectedHandles s = [] := by
  obtain ⟨h1, h2, h3, h4, h5⟩ := h
  have : s.m_Items.reverse.filterMap (fun it => it.ItemPtr) = [] := by
    rw [List.filterMap_eq_nil_iff]
    intro it hit
    exact h1 it (List.mem_reverse.mp hit)
  simp [projectedHandles, this, h2, h3, h4, h5]

theorem map_clearPtr_of_null (l : List RecentItem) (h : ∀ it ∈ l, it.ItemPtr = none) :
    l.map clearPtr = l := by
  conv_rhs => rw [← List.map_id l]
  apply List.map_congr_left
  intro it hit
  have := h it hit
  cases it
  simp only [clearPtr, id]
  simp only at this
  rw [this]

theorem RemoveAllFromMenu_of_nothingProjected (s : RecentIsoManager)
    (h : nothingProjected s) : RemoveAllFromMenu s = s := by
  cases hm : s.m_Menu with
  | none => exact RemoveAllFromMenu_null s hm
  | some m =>
    rw [RemoveAllFromMenu_eq s m hm, projectedHandles_of_nothingProjected s h,
      map_clearPtr_of_null _ h.1]
    obtain ⟨_, h2, h3, h4, h5⟩ := h
    cases s
    simp only at hm h2 h3 h4 h5
    simp [destroyAll, hm, h2, h3, h4, h5]

theorem nothingProjected_RemoveAllFromMenu (s : RecentIsoManager) (m : Menu)
    (hm : s.m_Menu = some m) : nothingProjected (RemoveAllFromMenu s) := by
  rw [RemoveAllFromMenu_eq s m hm]
  refine ⟨?_, rfl, rfl, rfl, rfl⟩
  intro it hit
  simp only [List.mem_map] at hit
  obtain ⟨x, _, rfl⟩ := hit
  rfl

/-- C15: on a manager with a non-null menu `RemoveAllFromMenu` leaves every item
pointer and the separator, clear-separator, clear-missing and clear handles null and
the paths, order and count of the entries, the capacity and `m_cursel` unchanged. It
calls `Destroy` once for each non-null pointer it held (`projectedHandles`), and for
nothing else, and the menu loses exactly the items with these handles; when the
handles held are pairwise distinct each of them is destroyed exactly once. A second
call, or a call when nothing is projected, destroys nothing and changes nothing. -/
theorem C15_remove_all_is_complete_and_idempotent (s : RecentIsoManager) (m : Menu)
    (hm : s.m_Menu = some m) :
    ∃ m2, (RemoveAllFromMenu s).m_Menu = some m2 ∧
      nothingProjected (RemoveAllFromMenu s) ∧
      (RemoveAllFromMenu s).m_Items.map (fun it => it.Filename)
        = s.m_Items.map (fun it => it.Filename) ∧
      (RemoveAllFromMenu s).m_Items.length = s.m_Items.length ∧
      (RemoveAllFromMenu s).m_MaxLength = s.m_MaxLength ∧
      (RemoveAllFromMenu s).m_cursel = s.m_cursel ∧
      m2.destroyed = m.destroyed ++ projectedHandles s ∧
      m2.items = m.items.filter (fun x => !(projectedHandles s).contains x.handle) ∧
      (∀ h, h ∈ projectedHandles s ↔
        (∃ it ∈ s.m_Items, it.ItemPtr = some h) ∨ s.m_Separator = some h ∨
        s.m_ClearSeparator = some h ∨ s.m_Clear = some h ∨ s.m_ClearMissing = some h) ∧
      ((projectedHandles s).Nodup → ∀ h ∈ projectedHandles s,
        m2.destroyed.count h = m.destroyed.count h + 1) ∧
      RemoveAllFromMenu (RemoveAllFromMenu s) = RemoveAllFromMenu s ∧
      (nothingProjected s → RemoveAllFromMenu s = s) := by
  have hf := RemoveAllFromMenu_fields s
  have hnp := nothingProjected_RemoveAllFromMenu s m hm
  refine ⟨destroyAll m (projectedHandles s), by rw [RemoveAllFromMenu_eq s m hm], hnp, hf.1,
    hf.2.1, hf.2.2.1, hf.2.2.2.1, ?_, ?_, mem_projectedHandles s, ?_,
    RemoveAllFromMenu_of_nothingProjected _ hnp, RemoveAllFromMenu_of_nothingProjected s⟩
  · rw [destroyAll_eq]
  · rw [destroyAll_eq]
  · intro hnd h hh
    rw [destroyAll_eq]
    simp only [List.count_append]
    rw [List.count_eq_one_of_mem hnd hh]

/-- Witness of C15: a store with two projected entries and a separator. -/
theorem C15_remove_all_is_complete_and_idempotent_witness :
    ∃ m2, (RemoveAllFromMenu overfullStore).m_Menu = some m2 ∧
      nothingProjected (RemoveAllFromMenu overfullStore) ∧
      m2.destroyed = [2, 3, 1] ∧ m2.items = [] ∧
      RemoveAllFromMenu (RemoveAllFromMenu overfullStore) = RemoveAllFromMenu overfullStore := by
  obtain ⟨m2, h1, h2, _, _, _, _, hd, hi, _, _, hidem, _⟩ :=
    C15_remove_all_is_complete_and_idempotent overfullStore
      { items := [separatorItem 1,
                  radioItemFor testEnv testWorld 5000 2 1 (RecentItem.mk "B" none),
                  radioItemFor testEnv testWorld 5000 3 0 (RecentItem.mk "A" none)]
        destroyed := [] } rfl
  exact ⟨m2, h1, h2, by rw [hd]; rfl, by rw [hi]; rfl, hidem⟩

theorem destroyed_lt_freshHandle (m : Menu) {d : Nat} (h : d ∈ m.destroyed) :
    d < m.freshHandle := by
  have : d ≤ maxOf m.destroyed := le_maxOf h
  unfold Menu.freshHandle
  omega

theorem evictLoop_snoc (cap : Nat) (l : List RecentItem) (x : RecentItem) (h : 1 ≤ cap) :
    ∃ pre, evictLoop cap (l ++ [x]) = pre ++ [x] ∧ pre.length ≤ l.length := by
  refine ⟨l.drop (l.length + 1 - cap), ?_, ?_⟩
  · rw [evictLoop_eq_drop]
    simp only [List.length_append, List.length_singleton]
    exact List.drop_append_of_le_length (by omega)
  · rw [List.length_drop]; omega

theorem assignHandles_radioItems (E : Env) (W : World) (fid : Int) (l : List RecentItem) :
    ∀ h, ∀ it ∈ assignHandles l h, ∃ hi x, it.ItemPtr = some hi ∧ h ≤ hi ∧
      x ∈ radioItems E W fid l h ∧ x.handle = hi ∧ x.kind = ItemKind.radio ∧
      x.help = it.Filename := by
  induction l with
  | nil => intro h it hit; simp [assignHandles] at hit
  | cons a rest ih =>
    intro h it hit
    simp only [assignHandles, List.mem_cons] at hit
    rcases hit with rfl | hit
    · exact ⟨h, radioItemFor E W fid h rest.length a, rfl, le_refl _,
        by simp [radioItems], rfl, rfl, rfl⟩
    · obtain ⟨hi, x, h1, h2, h3, h4, h5, h6⟩ := ih (h + 1) it hit
      exact ⟨hi, x, h1, by omega, by simp [radioItems, h3], h4, h5, h6⟩

theorem mem_Check (m : Menu) (h : Nat) (x : MenuItem) (hx : x ∈ m.items) :
    ∃ y ∈ (m.Check h).items, y.handle = x.handle ∧ y.kind = x.kind ∧ y.help = x.help ∧
      y.id = x.id ∧ y.label = x.label ∧ y.enabled = x.enabled ∧
      (x.handle = h → y.checked = true) := by
  refine ⟨if x.handle = h then { x with checked := true } else x, ?_, ?_⟩
  · simp only [Menu.Check, List.mem_map]
    exact ⟨x, hx, rfl⟩
  · by_cases hh : x.handle = h
    · simp [hh]
    · simp [hh]

/-- The shape of the store and of the menu after the new-entry part of `Add`. -/
theorem added_shape (E : Env) (W : World) (s : RecentIsoManager) (m : Menu) (n : String)
    (hcap : 1 ≤ s.m_MaxLength) :
    ∃ older : List RecentItem,
      (added E W s m n).m_Items
        = (assignHandles (RecentItem.mk n none :: older)
            ((destroyAll m (projectedHandles s)).freshHandle + 1)).reverse ∧
      older.length ≤ s.m_Items.length ∧
      (added E W s m n).m_cursel = ((added E W s m n).m_Items.length : Int) - 1 ∧
      (added E W s m n).m_Menu = some (Menu.Check
        { items := (destroyAll m (projectedHandles s)).items ++
            separatorItem (destroyAll m (projectedHandles s)).freshHandle ::
            (radioItems E W s.m_firstIdForMenuItems_or_wxID_ANY (RecentItem.mk n none :: older)
                ((destroyAll m (projectedHandles s)).freshHandle + 1) ++
              [separatorItem ((destroyAll m (projectedHandles s)).freshHandle + (older.length + 1) + 1),
               actionItem ((destroyAll m (projectedHandles s)).freshHandle + (older.length + 1) + 2)
                 E.MenuId_IsoClearMissing "Clear missing files",
               actionItem ((destroyAll m (projectedHandles s)).freshHandle + (older.length + 1) + 3)
                 E.MenuId_IsoClear "Clear ISO list"])
          destroyed := (destroyAll m (projectedHandles s)).destroyed }
        ((destroyAll m (projectedHandles s)).freshHandle + 1)) := by
  obtain ⟨pre, hpre, hlen⟩ := evictLoop_snoc s.m_MaxLength (s.m_Items.map clearPtr)
    (RecentItem.mk n none) hcap
  refine ⟨pre.reverse, ?_, by simpa using hlen, ?_, ?_⟩
  · simp only [added]
    rw [(checkItem_fields _ _).1]
    simp only [repopulated, hpre, List.reverse_append, List.reverse_cons, List.reverse_nil,
      List.nil_append, List.singleton_append]
  · simp only [added]
    rw [(checkItem_fields _ _).1, (checkItem_fields _ _).2.2.1]
  · simp only [added]
    rw [(checkItem_fields _ _).2.2.2.2.2.2.2.2]
    simp only [repopulated, hpre, List.reverse_append, List.reverse_cons, List.reverse_nil,
      List.nil_append, List.singleton_append, Option.map_some', List.length_append,
      List.length_singleton, List.length_reverse]

theorem preparedMenu_fields (s : RecentIsoManager) (m : Menu) :
    (∀ x ∈ m.items, x ∈ (preparedMenu s m).items) ∧ (preparedMenu s m).destroyed = m.destroyed := by
  unfold preparedMenu
  split
  · refine ⟨?_, rfl⟩
    intro x hx
    simp only [Menu.AppendSeparator, Menu.appendItem, List.mem_append]
    exact Or.inl hx
  · exact ⟨fun x hx => hx, rfl⟩

theorem old_handles_lt_fresh (m : Menu) (hs : List Nat) :
    (∀ x ∈ m.items, x.handle < (destroyAll m hs).freshHandle) ∧
    (∀ d ∈ m.destroyed, d < (destroyAll m hs).freshHandle) ∧
    (∀ d ∈ hs, d < (destroyAll m hs).freshHandle) := by
  have heq := destroyAll_eq hs m
  refine ⟨?_, ?_, ?_⟩
  · intro x hx
    by_cases hc : hs.contains x.handle = true
    · apply destroyed_lt_freshHandle
      rw [heq]
      simp only [List.mem_append]
      right
      simpa using hc
    · have : x ∈ (destroyAll m hs).items := by
        rw [heq]
        simp only [List.mem_filter]
        exact ⟨hx, by simpa using hc⟩
      exact handle_lt_freshHandle _ this
  · intro d hd
    apply destroyed_lt_freshHandle
    rw [heq]
    simp [hd]
  · intro d hd
    apply destroyed_lt_freshHandle
    rw [heq]
    simp [hd]

/-- C17: on a store with a non-null menu and a capacity of at least one, `Add` of a
non-empty raw path whose normalized form is not in the store completes (the final
access `m_Items[size-1].ItemPtr` is in bounds and non-null). Afterwards the store is
not empty, its last entry has the normalized path, `m_cursel` is the last index,
every entry holds the handle of a radio item of the menu that shows its path, a
handle that no item of the menu had before and that has not been destroyed, and the
item of the last entry is checked. -/
theorem C17_add_new_selects_last_entry (E : Env) (W : World) (s : RecentIsoManager) (m : Menu)
    (src : String) (hm : s.m_Menu = some m) (hcap : 1 ≤ s.m_MaxLength) (hsrc : src ≠ "")
    (hnew : E.Normalize src ∉ s.m_Items.map (fun it => it.Filename)) :
    ∃ s2 m2 last h, Add E W s src = Except.ok s2 ∧ s2.m_Menu = some m2 ∧
      s2.m_Items ≠ [] ∧
      s2.m_Items[s2.m_Items.length - 1]? = some last ∧
      last.Filename = E.Normalize src ∧ last.ItemPtr = some h ∧
      s2.m_cursel = (s2.m_Items.length : Int) - 1 ∧
      (∀ it ∈ s2.m_Items, ∃ hi x, it.ItemPtr = some hi ∧ x ∈ m2.items ∧ x.handle = hi ∧
        x.kind = ItemKind.radio ∧ x.help = it.Filename ∧
        (∀ y ∈ m.items, y.handle ≠ hi) ∧ hi ∉ m2.destroyed) ∧
      (∃ x ∈ m2.items, x.handle = h ∧ x.help = E.Normalize src ∧ x.checked = true) ∧
      (∀ x ∈ m2.items, x.handle = h → x.checked = true) := by
  have hp := addPrepared_fields s m hm
  have hpm := preparedMenu_fields s m
  have hadd : Add E W s src
      = Except.ok (added E W (addPrepared s m) (preparedMenu s m) (E.Normalize src)) := by
    rw [Add_new E W s m src hsrc hnew hm]
    exact addNew_eq E W _ _ _ hp.2.2.2 (by rw [hp.2.1]; exact hcap)
  obtain ⟨older, hitems, _, hcur, hmenu⟩ :=
    added_shape E W (addPrepared s m) (preparedMenu s m) (E.Normalize src)
      (by rw [hp.2.1]; exact hcap)
  have hold := old_handles_lt_fresh (preparedMenu s m) (projectedHandles (addPrepared s m))
  generalize hf : (destroyAll (preparedMenu s m) (projectedHandles (addPrepared s m))).freshHandle
    = f at hitems hmenu hold
  obtain ⟨M, hM⟩ : ∃ M : Menu, M =
      { items := ((destroyAll (preparedMenu s m) (projectedHandles (addPrepared s m))).items ++
            separatorItem f ::
            (radioItems E W (addPrepared s m).m_firstIdForMenuItems_or_wxID_ANY
                (RecentItem.mk (E.Normalize src) none :: older) (f + 1) ++
              [separatorItem (f + (older.length + 1) + 1),
               actionItem (f + (older.length + 1) + 2) E.MenuId_IsoClearMissing
                 "Clear missing files",
               actionItem (f + (older.length + 1) + 3) E.MenuId_IsoClear "Clear ISO list"]))
        destroyed := (destroyAll (preparedMenu s m)
            (projectedHandles (addPrepared s m))).destroyed } := ⟨_, rfl⟩
  rw [← hM] at hmenu
  have hMitems : ∀ x ∈ radioItems E W (addPrepared s m).m_firstIdForMenuItems_or_wxID_ANY
      (RecentItem.mk (E.Normalize src) none :: older) (f + 1), x ∈ M.items := by
    intro x hx
    rw [hM]
    simp only [List.mem_append, List.mem_cons]
    right; right; left; exact hx
  have hMdes : M.destroyed = (destroyAll (preparedMenu s m)
      (projectedHandles (addPrepared s m))).destroyed := by rw [hM]
  have hfresh : ∀ hi, f + 1 ≤ hi → (∀ y ∈ m.items, y.handle ≠ hi) ∧ hi ∉ (M.Check (f + 1)).destroyed := by
    intro hi hge
    constructor
    · intro y hy heq
      have := hold.1 y (hpm.1 y hy)
      omega
    · intro hin
      have hin2 : hi ∈ (destroyAll (preparedMenu s m)
          (projectedHandles (addPrepared s m))).destroyed := by
        rw [← hMdes]; exact hin
      have := destroyed_lt_freshHandle _ hin2
      omega
  refine ⟨_, M.Check (f + 1), { Filename := E.Normalize src, ItemPtr := some (f + 1) }, f + 1,
    hadd, hmenu, ?_, ?_, rfl, rfl, hcur, ?_, ?_, ?_⟩
  · rw [hitems]; simp [assignHandles]
  · rw [hitems]; simp [assignHandles, assignHandles_length]
  · intro it hit
    rw [hitems] at hit
    obtain ⟨hi, x, h1, h2, h3, h4, h5, h6⟩ :=
      assignHandles_radioItems E W (addPrepared s m).m_firstIdForMenuItems_or_wxID_ANY _ _ it
        (List.mem_reverse.mp hit)
    obtain ⟨y, hy, e1, e2, e3, _⟩ := mem_Check M (f + 1) x (hMitems x h3)
    exact ⟨hi, y, h1, hy, by rw [e1, h4], by rw [e2, h5], by rw [e3, h6], hfresh hi h2⟩
  · obtain ⟨y, hy, e1, _, e3, _, _, _, e7⟩ := mem_Check M (f + 1)
      (radioItemFor E W (addPrepared s m).m_firstIdForMenuItems_or_wxID_ANY (f + 1) older.length
        (RecentItem.mk (E.Normalize src) none))
      (hMitems _ (by simp [radioItems]))
    exact ⟨y, hy, e1, e3, e7 rfl⟩
  · intro x hx hh
    simp only [Menu.Check, List.mem_map] at hx
    obtain ⟨z, _, rfl⟩ := hx
    by_cases hz : z.handle = f + 1
    · simp [hz]
    · simp only [hz, if_false] at hh

/-- Witness of C17: adding `C` to a store that holds `A` and `B` with capacity one. -/
theorem C17_add_new_selects_last_entry_witness :
    ∃ s2 m2 last h, Add testEnv testWorld overfullStore "C" = Except.ok s2 ∧
      s2.m_Menu = some m2 ∧ s2.m_Items ≠ [] ∧
      s2.m_Items[s2.m_Items.length - 1]? = some last ∧
      last.Filename = "C" ∧ last.ItemPtr = some h ∧
      s2.m_cursel = (s2.m_Items.length : Int) - 1 ∧
      (∃ x ∈ m2.items, x.handle = h ∧ x.help = "C" ∧ x.checked = true) := by
  obtain ⟨s2, m2, last, h, h1, h2, h3, h4, h5, h6, h7, _, h9, _⟩ :=
    C17_add_new_selects_last_entry testEnv testWorld overfullStore
      { items := [separatorItem 1,
                  radioItemFor testEnv testWorld 5000 2 1 (RecentItem.mk "B" none),
                  radioItemFor testEnv testWorld 5000 3 0 (RecentItem.mk "A" none)]
        destroyed := [] } "C" rfl (by decide) (by decide) (by decide)
  exact ⟨s2, m2, last, h, h1, h2, h3, h4, h5, h6, h7, h9⟩

theorem selectionMatches_eq (s : RecentIsoManager) (id : Int) (it : RecentItem) :
    selectionMatches s id it = ((itemOf s it).map (fun x => x.id) == some id) := by
  unfold selectionMatches itemOf Menu.GetId
  cases it.ItemPtr with
  | none => rfl
  | some h =>
    cases s.m_Menu with
    | none => rfl
    | some m => rfl

theorem scan_of_correlated (s : RecentIsoManager) (h : identifiersCorrelated s) (i : Nat)
    (it : RecentItem) (hi : s.m_Items[i]? = some it) :
    selectionScan s (s.m_firstIdForMenuItems_or_wxID_ANY + (i : Int)) s.m_Items 0 = i := by
  have := selectionScan_first s (s.m_firstIdForMenuItems_or_wxID_ANY + (i : Int)) s.m_Items 0 i it
    hi ?_ ?_
  · simpa using this
  · obtain ⟨x, hx, hid, _⟩ := h i it hi
    rw [selectionMatches_eq, hx]
    simp [hid]
  · intro j hj jt hjt
    obtain ⟨x, hx, hid, _⟩ := h j jt hjt
    rw [selectionMatches_eq, hx]
    simp only [Option.map_some', hid, beq_eq_false_iff_ne, ne_eq, Option.some.injEq]
    omega

theorem find_radioItems (E : Env) (W : World) (fid : Int) (l : List RecentItem) :
    ∀ (h0 k : Nat) (it : RecentItem) (tail : List MenuItem), l[k]? = some it →
      (radioItems E W fid l h0 ++ tail).find? (fun x => x.handle == h0 + k)
        = some (radioItemFor E W fid (h0 + k) (l.length - 1 - k) it) := by
  induction l with
  | nil => intro h0 k it tail h; simp at h
  | cons a rest ih =>
    intro h0 k it tail h
    cases k with
    | zero =>
      simp at h
      subst h
      simp [radioItems, radioItemFor]
    | succ k1 =>
      simp at h
      have hne : (h0 == h0 + (k1 + 1)) = false := by simp
      have := ih (h0 + 1) k1 it tail h
      have e1 : h0 + 1 + k1 = h0 + (k1 + 1) := by omega
      have e2 : (a :: rest).length - 1 - (k1 + 1) = rest.length - 1 - k1 := by
        simp only [List.length_cons]; omega
      rw [e1] at this
      simp only [radioItems, List.cons_append, List.find?_cons, radioItemFor, hne]
      rw [e2]
      exact this

theorem assignHandles_getElem? (l : List RecentItem) :
    ∀ (h0 k : Nat), (assignHandles l h0)[k]?
      = (l[k]?).map (fun it => { it with ItemPtr := some (h0 + k) }) := by
  induction l with
  | nil => intro h0 k; simp [assignHandles]
  | cons a rest ih =>
    intro h0 k
    cases k with
    | zero => simp [assignHandles]
    | succ k1 =>
      simp only [assignHandles, List.getElem?_cons_succ, ih]
      have : h0 + 1 + k1 = h0 + (k1 + 1) := by omega
      rw [this]

theorem wrapInt32_of_fit (x : Int) (h1 : INT_MIN ≤ x) (h2 : x ≤ INT_MAX) : wrapInt32 x = x := by
  unfold wrapInt32
  unfold INT_MIN at h1
  unfold INT_MAX at h2
  omega

theorem repopulated_correlated (E : Env) (W : World) (s : RecentIsoManager) (m : Menu)
    (hbase : s.m_firstIdForMenuItems_or_wxID_ANY ≠ wxID_ANY)
    (hfit : identifiersFit s.m_firstIdForMenuItems_or_wxID_ANY s.m_Items.length) :
    identifiersCorrelated (repopulated E W s m) := by
  intro i it hi
  have hi2 : ((assignHandles s.m_Items.reverse (m.freshHandle + 1)).reverse)[i]? = some it := hi
  have hlt : i < (assignHandles s.m_Items.reverse (m.freshHandle + 1)).length := by
    have := (List.getElem?_eq_some_iff.mp hi2).1
    simpa using this
  rw [List.getElem?_reverse hlt, assignHandles_getElem?] at hi2
  have hlen : (assignHandles s.m_Items.reverse (m.freshHandle + 1)).length = s.m_Items.length := by
    rw [assignHandles_length, List.length_reverse]
  rw [hlen] at hi2 hlt
  cases hk : s.m_Items.reverse[s.m_Items.length - 1 - i]? with
  | none => rw [hk] at hi2; simp at hi2
  | some it0 =>
    rw [hk] at hi2
    simp only [Option.map_some', Option.some.injEq] at hi2
    subst hi2
    have hold : m.items.find? (fun x => x.handle == m.freshHandle + 1 + (s.m_Items.length - 1 - i))
        = none := by
      rw [List.find?_eq_none]
      intro x hx
      have := handle_lt_freshHandle m hx
      simp only [beq_iff_eq]
      omega
    have hfind := find_radioItems E W s.m_firstIdForMenuItems_or_wxID_ANY s.m_Items.reverse
      (m.freshHandle + 1) (s.m_Items.length - 1 - i) it0
      [separatorItem (m.freshHandle + s.m_Items.length + 1),
       actionItem (m.freshHandle + s.m_Items.length + 2) E.MenuId_IsoClearMissing
         "Clear missing files",
       actionItem (m.freshHandle + s.m_Items.length + 3) E.MenuId_IsoClear "Clear ISO list"] hk
    refine ⟨radioItemFor E W s.m_firstIdForMenuItems_or_wxID_ANY
      (m.freshHandle + 1 + (s.m_Items.length - 1 - i))
      (s.m_Items.reverse.length - 1 - (s.m_Items.length - 1 - i)) it0, ?_, ?_, rfl, rfl⟩
    · have hsep : ((separatorItem m.freshHandle).handle
          == m.freshHandle + 1 + (s.m_Items.length - 1 - i)) = false := by
        simp only [separatorItem, beq_eq_false_iff_ne, ne_eq]
        omega
      have hneg : ¬ ((separatorItem m.freshHandle).handle
          == m.freshHandle + 1 + (s.m_Items.length - 1 - i)) = true := by
        rw [hsep]; simp
      show List.find? _ (m.items ++ separatorItem m.freshHandle :: _) = _
      rw [List.find?_append, hold, Option.none_or, List.find?_cons]
      simp only [hsep]
      exact hfind
    · have : (repopulated E W s m).m_firstIdForMenuItems_or_wxID_ANY
          = s.m_firstIdForMenuItems_or_wxID_ANY := rfl
      rw [this]
      simp only [radioItemFor, hbase, ne_eq, not_false_eq_true, if_true, List.length_reverse]
      have : s.m_Items.length - 1 - (s.m_Items.length - 1 - i) = i := by omega
      rw [this]
      exact wrapInt32_of_fit _ (hfit i hlt).1 (hfit i hlt).2

theorem correlated_checkItem (s : RecentIsoManager) (c : Int) (h : Nat)
    (hc : identifiersCorrelated s) :
    identifiersCorrelated (checkItem { s with m_cursel := c } h) := by
  intro i it hi
  obtain ⟨x, hx, hid, hhelp, hkind⟩ := hc i it hi
  refine ⟨if x.handle = h then { x with checked := true } else x, ?_, ?_, ?_, ?_⟩
  · unfold itemOf at hx ⊢
    cases hp : it.ItemPtr with
    | none => rw [hp] at hx; cases hx
    | some hd =>
      rw [hp] at hx
      cases hm : s.m_Menu with
      | none => rw [hm] at hx; cases hx
      | some m =>
        rw [hm] at hx
        simp only at hx
        simp only [checkItem, hm, Option.map_some', Menu.Check, List.find?_map]
        have hcomp : ((fun x : MenuItem => x.handle == hd) ∘
            fun it : MenuItem => if it.handle = h then { it with checked := true } else it)
            = fun x : MenuItem => x.handle == hd := by
          funext y
          simp only [Function.comp]
          split <;> rfl
        rw [hcomp, hx]
        rfl
  · split <;> exact hid
  · split <;> exact hhelp
  · split <;> exact hkind

theorem correlated_of_nil (s : RecentIsoManager) (h : s.m_Items = []) :
    identifiersCorrelated s := by
  intro i it hi
  rw [h] at hi
  simp at hi

theorem distinct_of_correlated (s : RecentIsoManager) (h : identifiersCorrelated s) :
    identifiersDistinct s := by
  intro i j it jt hi hj heq
  obtain ⟨x, hx, hid, _⟩ := h i it hi
  obtain ⟨y, hy, hjd, _⟩ := h j jt hj
  rw [hx, hy] at heq
  simp only [Option.map_some', Option.some.injEq] at heq
  rw [hid, hjd] at heq
  omega

theorem correlated_all (s : RecentIsoManager) (h : identifiersCorrelated s) :
    identifiersCorrelated s ∧ identifiersDistinct s ∧ scanFindsEntries s :=
  ⟨h, distinct_of_correlated s h, fun i it hi => scan_of_correlated s h i it hi⟩

theorem Repopulate_correlated (E : Env) (W : World) (s : RecentIsoManager) (m : Menu)
    (hm : s.m_Menu = some m) (hbase : s.m_firstIdForMenuItems_or_wxID_ANY ≠ wxID_ANY)
    (hfit : identifiersFit s.m_firstIdForMenuItems_or_wxID_ANY s.m_Items.length) :
    ∃ s2, Repopulate E W s = Except.ok s2 ∧ s2.m_Items.length = s.m_Items.length ∧
      identifiersCorrelated s2 := by
  by_cases hne : s.m_Items = []
  · exact ⟨s, Repopulate_nil E W s hne, rfl, correlated_of_nil s hne⟩
  · refine ⟨_, Repopulate_eq E W s m hm hne, ?_, repopulated_correlated E W s m hbase hfit⟩
    show ((assignHandles s.m_Items.reverse (m.freshHandle + 1)).reverse).length = _
    rw [List.length_reverse, assignHandles_length, List.length_reverse]

/-- C16 counterexample: the store `B`, `C` has a non-null menu and the identifier base
2147483647, which is not `wxID_ANY`. `Repopulate` completes, and the item of the
entry at index 1 carries the identifier -2147483648, the 32-bit sum of the base and
the index, not 2147483648: the entries are not correlated with `base + i`. -/
theorem C16_counterexample :
    storeAtIntMax.m_Menu = some emptyMenu ∧
    storeAtIntMax.m_firstIdForMenuItems_or_wxID_ANY = 2147483647 ∧
    storeAtIntMax.m_firstIdForMenuItems_or_wxID_ANY ≠ wxID_ANY ∧
    ∃ s2 it, Repopulate testEnv testWorld storeAtIntMax = Except.ok s2 ∧
      s2.m_Items[1]? = some it ∧
      (itemOf s2 it).map (fun x => x.id) = some (-2147483648) ∧
      s2.m_firstIdForMenuItems_or_wxID_ANY + 1 = 2147483648 ∧
      ¬ entryCorrelated s2 1 it ∧ ¬ identifiersCorrelated s2 := by
  refine ⟨rfl, rfl, by decide, repopulated testEnv testWorld storeAtIntMax emptyMenu,
    RecentItem.mk "C" (some 2), ?_, rfl, ?_, rfl, ?_, ?_⟩
  · exact Repopulate_eq testEnv testWorld storeAtIntMax emptyMenu rfl (by decide)
  · rfl
  · rintro ⟨x, hx, hid, -, -⟩
    have hx2 : itemOf (repopulated testEnv testWorld storeAtIntMax emptyMenu)
        (RecentItem.mk "C" (some 2))
        = some (radioItemFor testEnv testWorld INT_MAX 2 1 (RecentItem.mk "C" none)) := rfl
    rw [hx2] at hx
    cases hx
    revert hid
    decide
  · intro h
    obtain ⟨x, hx, hid, -, -⟩ := h 1 (RecentItem.mk "C" (some 2)) rfl
    have hx2 : itemOf (repopulated testEnv testWorld storeAtIntMax emptyMenu)
        (RecentItem.mk "C" (some 2))
        = some (radioItemFor testEnv testWorld INT_MAX 2 1 (RecentItem.mk "C" none)) := rfl
    rw [hx2] at hx
    cases hx
    revert hid
    decide

/-- C16: on a manager with a non-null menu and an identifier base other than
`wxID_ANY`, `Repopulate` and `ClearMissing` complete, and so does, with a capacity of
at least one, an `Add` that inserts a new entry. Provided the sum `base + i` lies in
the range of a 32-bit `int` for every index `i` of the resulting store (the entries
of the store for `Repopulate`, those whose file exists for `ClearMissing`, one more
than the store holds, cut to the capacity, for `Add`), after each of them the entry
at every index `i` points to a radio item of the menu that carries the identifier
`base + i` and shows the entry's path, the identifiers of different entries differ,
and the scan of `OnChangedSelection` for the identifier `base + i` stops at index
`i`. -/
theorem C16_identifiers_follow_store_index (E : Env) (W : World) (s : RecentIsoManager)
    (m : Menu) (hm : s.m_Menu = some m)
    (hbase : s.m_firstIdForMenuItems_or_wxID_ANY ≠ wxID_ANY) :
    (identifiersFit s.m_firstIdForMenuItems_or_wxID_ANY s.m_Items.length →
      ∃ s2, Repopulate E W s = Except.ok s2 ∧ s2.m_Items.length = s.m_Items.length ∧
        identifiersCorrelated s2 ∧ identifiersDistinct s2 ∧ scanFindsEntries s2) ∧
    (identifiersFit s.m_firstIdForMenuItems_or_wxID_ANY
        (s.m_Items.filter (fun item => W.wxFileExists item.Filename)).length →
      ∃ s2, ClearMissing E W s = Except.ok s2 ∧
        s2.m_Items.length
          = (s.m_Items.filter (fun item => W.wxFileExists item.Filename)).length ∧
        identifiersCorrelated s2 ∧ identifiersDistinct s2 ∧ scanFindsEntries s2) ∧
    (∀ src, identifiersFit s.m_firstIdForMenuItems_or_wxID_ANY
        (min (s.m_Items.length + 1) s.m_MaxLength) →
      1 ≤ s.m_MaxLength → src ≠ "" →
      E.Normalize src ∉ s.m_Items.map (fun it => it.Filename) →
      ∃ s2, Add E W s src = Except.ok s2 ∧
        s2.m_Items.length = min (s.m_Items.length + 1) s.m_MaxLength ∧
        identifiersCorrelated s2 ∧ identifiersDistinct s2 ∧ scanFindsEntries s2) := by
  refine ⟨?_, ?_, ?_⟩
  · intro hfit
    by_cases hne : s.m_Items = []
    · exact ⟨s, Repopulate_nil E W s hne, rfl, correlated_all s (correlated_of_nil s hne)⟩
    · refine ⟨_, Repopulate_eq E W s m hm hne, ?_,
        correlated_all _ (repopulated_correlated E W s m hbase hfit)⟩
      show ((assignHandles s.m_Items.reverse (m.freshHandle + 1)).reverse).length = _
      rw [List.length_reverse, assignHandles_length, List.length_reverse]
  · intro hfit
    have hr := RemoveAllFromMenu_eq s m hm
    have hlen : ((RemoveAllFromMenu s).m_Items.filter
        (fun item => W.wxFileExists item.Filename)).length
        = (s.m_Items.filter (fun item => W.wxFileExists item.Filename)).length := by
      rw [hr]
      show ((s.m_Items.map clearPtr).filter (fun item => W.wxFileExists item.Filename)).length = _
      rw [List.filter_map, List.length_map]
      rfl
    obtain ⟨s2, h, hl, hc⟩ := Repopulate_correlated E W
      { RemoveAllFromMenu s with
        m_Items := (RemoveAllFromMenu s).m_Items.filter (fun item => W.wxFileExists item.Filename) }
      (destroyAll m (projectedHandles s)) (by rw [hr]) (by rw [hr]; exact hbase)
      (by
        show identifiersFit (RemoveAllFromMenu s).m_firstIdForMenuItems_or_wxID_ANY
          ((RemoveAllFromMenu s).m_Items.filter (fun item => W.wxFileExists item.Filename)).length
        rw [hlen, hr]
        exact hfit)
    exact ⟨s2, h, by rw [hl]; exact hlen, correlated_all s2 hc⟩
  · intro src hfit hcap hsrc hnew
    have hp := addPrepared_fields s m hm
    have hlen : (evictLoop (addPrepared s m).m_MaxLength
        ((addPrepared s m).m_Items.map clearPtr ++ [RecentItem.mk (E.Normalize src) none])).length
        = min (s.m_Items.length + 1) s.m_MaxLength := by
      rw [hp.1, hp.2.1, evictLoop_eq_drop, List.length_drop]
      simp only [List.length_append, List.length_map, List.length_singleton]
      omega
    refine ⟨added E W (addPrepared s m) (preparedMenu s m) (E.Normalize src), ?_, ?_, ?_⟩
    · rw [Add_new E W s m src hsrc hnew hm]
      exact addNew_eq E W _ _ _ hp.2.2.2 (by rw [hp.2.1]; exact hcap)
    · rw [← hlen]
      simp only [added]
      rw [(checkItem_fields _ _).1]
      show ((assignHandles _ _).reverse).length = _
      rw [List.length_reverse, assignHandles_length, List.length_reverse]
    · apply correlated_all
      simp only [added]
      apply correlated_checkItem
      apply repopulated_correlated
      · simp only [hp.2.2.1]
        exact hbase
      · show identifiersFit (addPrepared s m).m_firstIdForMenuItems_or_wxID_ANY _
        rw [hlen, hp.2.2.1]
        exact hfit

/-- Witness of C16: the store `B`, `C` rebuilt, the store `A`, `B`, `C` after
`ClearMissing` without `B`, and `C` added to a store that holds `A` and `B`. -/
theorem C16_identifiers_follow_store_index_witness :
    (∃ s2, Repopulate testEnv testWorld storeBC = Except.ok s2 ∧
      s2.m_Items.length = storeBC.m_Items.length ∧
      identifiersCorrelated s2 ∧ identifiersDistinct s2 ∧ scanFindsEntries s2) ∧
    (∃ s2, ClearMissing testEnv worldWithoutB storeABC = Except.ok s2 ∧
      s2.m_Items.length
        = (storeABC.m_Items.filter (fun item => worldWithoutB.wxFileExists item.Filename)).length ∧
      identifiersCorrelated s2 ∧ identifiersDistinct s2 ∧ scanFindsEntries s2) ∧
    (∃ s2, Add testEnv testWorld overfullStore "C" = Except.ok s2 ∧
      s2.m_Items.length = min (overfullStore.m_Items.length + 1) overfullStore.m_MaxLength ∧
      identifiersCorrelated s2 ∧ identifiersDistinct s2 ∧ scanFindsEntries s2) :=
  ⟨(C16_identifiers_follow_store_index testEnv testWorld storeBC emptyMenu rfl (by decide)).1
      (by decide),
   (C16_identifiers_follow_store_index testEnv worldWithoutB storeABC emptyMenu rfl
      (by decide)).2.1 (by decide),
   (C16_identifiers_follow_store_index testEnv testWorld overfullStore
      { items := [separatorItem 1,
                  radioItemFor testEnv testWorld 5000 2 1 (RecentItem.mk "B" none),
                  radioItemFor testEnv testWorld 5000 3 0 (RecentItem.mk "A" none)]
        destroyed := [] } rfl (by decide)).2.2 "C" (by decide) (by decide) (by decide)
      (by decide)⟩

/-- After a completed `Add` of a non-empty path `m_cursel` is the index of an entry
with the normalized path: the first one when the path was present, the last entry
when it was new. -/
theorem Add_ok_selects (E : Env) (W : World) (s s2 : RecentIsoManager) (src : String)
    (h : Add E W s src = Except.ok s2) (hsrc : src ≠ "") :
    ∃ (k : Nat) (it : RecentItem), s2.m_cursel = (k : Int) ∧ s2.m_Items[k]? = some it ∧
      it.Filename = E.Normalize src ∧
      (E.Normalize src ∈ filenames s → s2.m_Items = s.m_Items ∧
        ∀ j, j < k → ∀ jt, s.m_Items[j]? = some jt → jt.Filename ≠ E.Normalize src) ∧
      (E.Normalize src ∉ filenames s → k + 1 = s2.m_Items.length) := by
  by_cases hin : E.Normalize src ∈ filenames s
  · have hin2 := hin
    simp only [filenames] at hin2
    have hsc : addScan (E.Normalize src) s.m_Items 0 ≠ none := by
      intro hn
      exact (addScan_none _ _ 0).mp hn hin2
    obtain ⟨⟨j, it⟩, hj⟩ := Option.ne_none_iff_exists'.mp hsc
    obtain ⟨k, hk, hget, hf, hfirst⟩ := addScan_some _ _ 0 j it hj
    rw [Add_present E W s src k it hsrc hget hf hfirst] at h
    refine ⟨k, it, ?_, ?_, hf, ?_, fun hn => absurd hin hn⟩
    · cases hp : it.ItemPtr with
      | none => rw [hp] at h; cases h; rfl
      | some hd => rw [hp] at h; cases h; rfl
    · cases hp : it.ItemPtr with
      | none => rw [hp] at h; cases h; exact hget
      | some hd => rw [hp] at h; cases h; exact hget
    · intro _
      refine ⟨?_, hfirst⟩
      cases hp : it.ItemPtr with
      | none => rw [hp] at h; cases h; rfl
      | some hd => rw [hp] at h; cases h; rfl
  · cases hm : s.m_Menu with
    | none =>
      obtain ⟨f, hf⟩ := Add_new_null E W s src hsrc hin hm
      rw [hf] at h; cases h
    | some m =>
      rw [Add_new E W s m src hsrc hin hm] at h
      obtain ⟨m1, hm1, hcap, rfl⟩ := addNew_ok E W _ _ _ h
      obtain ⟨older, hitems, _, hcur, _⟩ := added_shape E W (addPrepared s m) m1 (E.Normalize src) hcap
      have hlen : (added E W (addPrepared s m) m1 (E.Normalize src)).m_Items.length
          = older.length + 1 := by
        rw [hitems]; simp [assignHandles, assignHandles_length]
      refine ⟨older.length, RecentItem.mk (E.Normalize src)
        (some ((destroyAll m1 (projectedHandles (addPrepared s m))).freshHandle + 1)),
        ?_, ?_, ?_, fun hy => absurd hy hin, fun _ => hlen.symm⟩
      · rw [hcur, hlen]; push_cast; omega
      · rw [hitems]; simp [assignHandles, assignHandles_length]
      · rfl

theorem loadLoop_total (E : Env) (W : World) (ini : IniInterface) :
    ∀ (n i : Nat) (s : RecentIsoManager) (m : Menu), s.m_Menu = some m → 1 ≤ s.m_MaxLength →
      ∃ s2 m2, loadLoop E W ini n i s = Except.ok s2 ∧ s2.m_Menu = some m2 ∧
        s2.m_MaxLength = s.m_MaxLength := by
  intro n
  induction n with
  | zero => intro i s m hm _; exact ⟨s, m, rfl, hm, rfl⟩
  | succ n ih =>
    intro i s m hm hcap
    simp only [loadLoop]
    cases hr : ini.read i with
    | none => exact ih (i + 1) s m hm hcap
    | some t =>
      dsimp only
      by_cases hn : E.GetFullName t ≠ ""
      · rw [if_pos hn]
        obtain ⟨s1, h1⟩ := Add_total E W s m (E.GetFullPath t) hm hcap
        have hp := Add_ok E W s s1 _ h1
        obtain ⟨m1, hm1⟩ : ∃ m1, s1.m_Menu = some m1 := by
          have := hp.2.2.1
          rw [hm] at this
          exact Option.isSome_iff_exists.mp this
        obtain ⟨s2, m2, h2, hm2, hc2⟩ := ih (i + 1) s1 m1 hm1 (by rw [hp.1]; exact hcap)
        refine ⟨s2, m2, ?_, hm2, by rw [hc2, hp.1]⟩
        rw [h1]
        exact h2
      · rw [if_neg hn]
        exact ih (i + 1) s m hm hcap

/-- C12: on a manager with a non-null menu, with a usable settings source, a
configured capacity of at least one and a non-empty current image path,
`LoadListFrom` completes. Afterwards `m_cursel` is the index of an entry whose
`Filename` is the normalized current image path. When that path was already in the
store after the saved keys were read (state `s3`), the entries are those of `s3`
and the entry is the first with that path; otherwise it is the last entry and the
paths are those of `s3` followed by it, without the oldest ones that exceed the
capacity. -/
theorem C12_load_represents_current_image (E : Env) (W : World) (s : RecentIsoManager)
    (ini : IniInterface) (m : Menu) (hm : s.m_Menu = some m) (hok : ini.IsOk = true)
    (hcap : 1 ≤ W.g_Conf.RecentIsoCount) (hcur : W.g_Conf.CurrentIso ≠ "") :
    ∃ (s3 s2 : RecentIsoManager) (k : Nat) (it : RecentItem),
      loadLoop E W ini W.g_Conf.RecentIsoCount 0
        { RemoveAllFromMenu s with m_MaxLength := W.g_Conf.RecentIsoCount } = Except.ok s3 ∧
      LoadListFrom E W s ini = Except.ok s2 ∧
      s2.m_cursel = (k : Int) ∧ s2.m_Items[k]? = some it ∧
      it.Filename = E.Normalize W.g_Conf.CurrentIso ∧
      (E.Normalize W.g_Conf.CurrentIso ∈ s3.m_Items.map (fun e => e.Filename) →
        s2.m_Items = s3.m_Items ∧
        ∀ j, j < k → ∀ jt, s3.m_Items[j]? = some jt →
          jt.Filename ≠ E.Normalize W.g_Conf.CurrentIso) ∧
      (E.Normalize W.g_Conf.CurrentIso ∉ s3.m_Items.map (fun e => e.Filename) →
        k + 1 = s2.m_Items.length ∧
        s2.m_Items.map (fun e => e.Filename)
          = (s3.m_Items.map (fun e => e.Filename) ++ [E.Normalize W.g_Conf.CurrentIso]).drop
              (s3.m_Items.length + 1 - W.g_Conf.RecentIsoCount)) := by
  have hr := RemoveAllFromMenu_eq s m hm
  obtain ⟨s3, m3, h3, hm3, hc3⟩ := loadLoop_total E W ini W.g_Conf.RecentIsoCount 0
    { RemoveAllFromMenu s with m_MaxLength := W.g_Conf.RecentIsoCount }
    (destroyAll m (projectedHandles s)) (by rw [hr]) hcap
  have hc3b : s3.m_MaxLength = W.g_Conf.RecentIsoCount := hc3
  obtain ⟨s2, h2⟩ := Add_total E W s3 m3 W.g_Conf.CurrentIso hm3 (by rw [hc3b]; exact hcap)
  obtain ⟨k, it, hk1, hk2, hk3, hk4, hk5⟩ := Add_ok_selects E W s3 s2 _ h2 hcur
  have hp := Add_ok E W s3 s2 _ h2
  refine ⟨s3, s2, k, it, h3, ?_, hk1, hk2, hk3, hk4, ?_⟩
  · unfold LoadListFrom
    simp only [hok, Bool.not_true, Bool.false_eq_true, if_false]
    rw [h3]
    exact h2
  · intro hnew
    refine ⟨hk5 hnew, ?_⟩
    have hf := hp.2.2.2.1
    simp only [filenames] at hf hnew
    rw [hf]
    simp [hcur, addPath, hnew, hc3b]

/-- Witness of C12: loading the saved paths `A` and `B` with capacity two while the
image `C` is current evicts `A` and selects `C`, the last entry. -/
theorem C12_load_represents_current_image_witness :
    ∃ (s2 : RecentIsoManager) (k : Nat) (it : RecentItem),
      LoadListFrom testEnv worldWithCurrentC (emptyStore (some emptyMenu) 2 5000) iniAB
        = Except.ok s2 ∧
      s2.m_cursel = (k : Int) ∧ s2.m_Items[k]? = some it ∧ it.Filename = "C" ∧
      s2.m_Items.map (fun e => e.Filename) = ["B", "C"] := by
  obtain ⟨s3, s2, k, it, _, h2, h3, h4, h5, _, _⟩ :=
    C12_load_represents_current_image testEnv worldWithCurrentC
      (emptyStore (some emptyMenu) 2 5000) iniAB emptyMenu rfl rfl (by decide) (by decide)
  refine ⟨s2, k, it, h2, h3, h4, h5, ?_⟩
  have h2b : LoadListFrom testEnv worldWithCurrentC (emptyStore (some emptyMenu) 2 5000) iniAB
      = Except.ok _ := rfl
  rw [h2b] at h2
  cases h2
  rfl

/-- A property that every completed `Add` preserves is preserved by the loop of
`LoadListFrom`. -/
theorem loadLoop_preserves (E : Env) (W : World) (ini : IniInterface)
    (P : RecentIsoManager → Prop)
    (hP : ∀ s s2 src, P s → Add E W s src = Except.ok s2 → P s2) :
    ∀ (n i : Nat) (s s2 : RecentIsoManager), loadLoop E W ini n i s = Except.ok s2 →
      P s → P s2 := by
  intro n
  induction n with
  | zero =>
    intro i s s2 h hs
    simp only [loadLoop] at h
    cases h
    exact hs
  | succ n ih =>
    intro i s s2 h hs
    simp only [loadLoop] at h
    cases hr : ini.read i with
    | none =>
      rw [hr] at h
      exact ih (i + 1) s s2 h hs
    | some t =>
      rw [hr] at h
      dsimp only at h
      by_cases hn : E.GetFullName t ≠ ""
      · rw [if_pos hn] at h
        cases ha : Add E W s (E.GetFullPath t) with
        | error f => rw [ha] at h; cases h
        | ok s1 =>
          rw [ha] at h
          exact ih (i + 1) s1 s2 h (hP s s1 _ hs ha)
      · rw [if_neg hn] at h
        exact ih (i + 1) s s2 h hs

/-- `LoadListFrom` with a usable settings source establishes every property that
holds once the projection is removed and the capacity refreshed, and that every
completed `Add` preserves. -/
theorem LoadListFrom_preserves (E : Env) (W : World) (s s2 : RecentIsoManager)
    (ini : IniInterface) (P : RecentIsoManager → Prop)
    (hP : ∀ s s2 src, P s → Add E W s src = Except.ok s2 → P s2)
    (h : LoadListFrom E W s ini = Except.ok s2) (hok : ini.IsOk = true)
    (hs : P { RemoveAllFromMenu s with m_MaxLength := W.g_Conf.RecentIsoCount }) : P s2 := by
  unfold LoadListFrom at h
  simp only [hok, Bool.not_true, Bool.false_eq_true, if_false] at h
  cases hl : loadLoop E W ini W.g_Conf.RecentIsoCount 0
      { RemoveAllFromMenu s with m_MaxLength := W.g_Conf.RecentIsoCount } with
  | error f => rw [hl] at h; cases h
  | ok s3 =>
    rw [hl] at h
    exact hP s3 s2 _ (loadLoop_preserves E W ini P hP _ _ _ _ hl hs) h

theorem LoadListFrom_unusable (E : Env) (W : World) (s s2 : RecentIsoManager)
    (ini : IniInterface) (h : LoadListFrom E W s ini = Except.ok s2) (hok : ini.IsOk = false) :
    s2 = s := by
  unfold LoadListFrom at h
  simp only [hok, Bool.not_false, if_true] at h
  cases h
  rfl

/-- What a completed `Add` leaves untouched when it inserts nothing. -/
theorem Add_ok_frame (E : Env) (W : World) (s s2 : RecentIsoManager) (src : String)
    (h : Add E W s src = Except.ok s2) (hold : src = "" ∨ E.Normalize src ∈ filenames s) :
    s2.m_Items = s.m_Items ∧ s2.m_Separator = s.m_Separator ∧
    s2.m_ClearSeparator = s.m_ClearSeparator ∧ s2.m_ClearMissing = s.m_ClearMissing ∧
    s2.m_Clear = s.m_Clear := by
  by_cases hsrc : src = ""
  · subst hsrc
    rw [Add_empty] at h
    cases h
    exact ⟨rfl, rfl, rfl, rfl, rfl⟩
  · have hin : E.Normalize src ∈ filenames s := hold.resolve_left hsrc
    have hin2 := hin
    simp only [filenames] at hin2
    have hsc : addScan (E.Normalize src) s.m_Items 0 ≠ none := by
      intro hn
      exact (addScan_none _ _ 0).mp hn hin2
    obtain ⟨⟨j, it⟩, hj⟩ := Option.ne_none_iff_exists'.mp hsc
    obtain ⟨k, hk, hget, hf, hfirst⟩ := addScan_some _ _ 0 j it hj
    rw [Add_present E W s src k it hsrc hget hf hfirst] at h
    cases hp : it.ItemPtr with
    | none => rw [hp] at h; cases h; exact ⟨rfl, rfl, rfl, rfl, rfl⟩
    | some hd => rw [hp] at h; cases h; exact ⟨rfl, rfl, rfl, rfl, rfl⟩

theorem Add_keeps_emptyMeansUnprojected (E : Env) (W : World) (s s2 : RecentIsoManager)
    (src : String) (hs : emptyMeansUnprojected s) (h : Add E W s src = Except.ok s2) :
    emptyMeansUnprojected s2 := by
  by_cases hold : src = "" ∨ E.Normalize src ∈ filenames s
  · obtain ⟨h1, h2, h3, h4, h5⟩ := Add_ok_frame E W s s2 src h hold
    intro he
    rw [h1] at he
    rw [h2, h3, h4, h5]
    exact hs he
  · simp only [not_or] at hold
    obtain ⟨k, it, _, _, _, _, hlen⟩ := Add_ok_selects E W s s2 src h hold.1
    intro he
    have := hlen hold.2
    rw [he] at this
    simp at this

theorem step_keeps_emptyMeansUnprojected (E : Env) (W : World) (s s2 : RecentIsoManager)
    (op : Op) (hm : ∃ m, s.m_Menu = some m) (hs : emptyMeansUnprojected s)
    (h : step E W s op = Except.ok s2) :
    (∃ m, s2.m_Menu = some m) ∧ emptyMeansUnprojected s2 := by
  obtain ⟨m, hm⟩ := hm
  have hsome : ∀ t : RecentIsoManager, t.m_Menu.isSome = s.m_Menu.isSome → ∃ m2, t.m_Menu = some m2 := by
    intro t ht
    rw [hm] at ht
    exact Option.isSome_iff_exists.mp ht
  have hnp := nothingProjected_RemoveAllFromMenu s m hm
  cases op with
  | add src =>
    exact ⟨hsome s2 (Add_ok E W s s2 src h).2.2.1, Add_keeps_emptyMeansUnprojected E W s s2 src hs h⟩
  | clear =>
    have hc := Clear_ok E W s s2 h
    refine ⟨hsome s2 (by rw [hc.2.2.2.2.1]; exact (RemoveAllFromMenu_fields s).2.2.2.2.2), ?_⟩
    intro _
    rw [hc.2.2.2.2.2.1, hc.2.2.2.2.2.2.1, hc.2.2.2.2.2.2.2.2, hc.2.2.2.2.2.2.2.1]
    exact ⟨hnp.2.1, hnp.2.2.1, hnp.2.2.2.2, hnp.2.2.2.1⟩
  | clearMissing =>
    have hc := ClearMissing_ok E W s s2 h
    refine ⟨hsome s2 hc.2.2.2.2.2, ?_⟩
    intro he
    simp only [step, ClearMissing] at h
    have hlen := (Repopulate_ok E W _ s2 h).2.1
    rw [he] at hlen
    have hnil : (RemoveAllFromMenu s).m_Items.filter (fun item => W.wxFileExists item.Filename) = [] := by
      apply List.eq_nil_of_length_eq_zero
      simpa using hlen.symm
    rw [Repopulate_nil E W _ hnil] at h
    cases h
    exact ⟨hnp.2.1, hnp.2.2.1, hnp.2.2.2.2, hnp.2.2.2.1⟩
  | loadListFrom ini =>
    simp only [step] at h
    cases hok : ini.IsOk with
    | false =>
      have := LoadListFrom_unusable E W s s2 ini h hok
      subst this
      exact ⟨⟨m, hm⟩, hs⟩
    | true =>
      rcases LoadListFrom_ok E W s s2 ini h with ⟨hf, _⟩ | ⟨_, _, _, hsm, _⟩
      · rw [hok] at hf; cases hf
      · refine ⟨hsome s2 hsm, ?_⟩
        apply LoadListFrom_preserves E W s s2 ini emptyMeansUnprojected
          (fun a b src ha hab => Add_keeps_emptyMeansUnprojected E W a b src ha hab) h hok
        intro _
        exact ⟨hnp.2.1, hnp.2.2.1, hnp.2.2.2.2, hnp.2.2.2.1⟩
  | select evt =>
    simp only [step] at h
    cases hr : OnChangedSelection E W s evt with
    | error f => rw [hr] at h; cases h
    | ok r =>
      rw [hr] at h
      simp only at h
      cases h
      unfold OnChangedSelection at hr
      simp only at hr
      split at hr
      · cases hr; exact ⟨⟨m, hm⟩, hs⟩
      · split at hr
        · cases hr
        · split at hr
          · cases hr; exact ⟨⟨m, hm⟩, hs⟩
          · split at hr
            · cases hr
            · split at hr <;> (cases hr; exact ⟨⟨m, hm⟩, hs⟩)

theorem construct_emptyMeansUnprojected (E : Env) (W : World) (menu : Menu) (firstId : Int)
    (loader : IniInterface) (s0 : RecentIsoManager)
    (h : construct E W (some menu) firstId loader = Except.ok s0) :
    (∃ m, s0.m_Menu = some m) ∧ emptyMeansUnprojected s0 := by
  have := step_keeps_emptyMeansUnprojected E W
    { m_Items := []
      m_Menu := some menu
      m_MaxLength := W.g_Conf.RecentIsoCount
      m_cursel := 0
      m_firstIdForMenuItems_or_wxID_ANY := firstId
      m_Separator := none
      m_ClearSeparator := none
      m_Clear := none
      m_ClearMissing := none } s0 (Op.loadListFrom loader) ⟨menu, rfl⟩
    (fun _ => ⟨rfl, rfl, rfl, rfl⟩) h
  exact this

theorem run_keeps_emptyMeansUnprojected (E : Env) (ops : List (World × Op)) :
    ∀ (s s2 : RecentIsoManager), run E s ops = Except.ok s2 → (∃ m, s.m_Menu = some m) →
      emptyMeansUnprojected s → (∃ m, s2.m_Menu = some m) ∧ emptyMeansUnprojected s2 := by
  induction ops with
  | nil =>
    intro s s2 h hm hs
    simp only [run] at h
    cases h
    exact ⟨hm, hs⟩
  | cons c rest ih =>
    intro s s2 h hm hs
    obtain ⟨W, op⟩ := c
    simp only [run] at h
    cases hst : step E W s op with
    | error f => rw [hst] at h; cases h
    | ok s1 =>
      rw [hst] at h
      have h1 := step_keeps_emptyMeansUnprojected E W s s1 op hm hs hst
      exact ih s1 s2 h h1.1 h1.2

/-- C19: in every state reached from a manager constructed with a non-null menu by a
sequence of `Add`, `Clear`, `ClearMissing`, `LoadListFrom` and selection events,
whatever the capacity, a store without entries has a null separator, clear
separator, clear-missing and clear handle; hence the condition of
`pxAssert( m_Separator == NULL )` in `Add` holds whenever a call reaches it. -/
theorem C19_empty_store_has_no_projection (E : Env) (W0 : World) (menu : Menu) (firstId : Int)
    (loader : IniInterface) (ops : List (World × Op)) (s0 s : RecentIsoManager)
    (hconstruct : construct E W0 (some menu) firstId loader = Except.ok s0)
    (hrun : run E s0 ops = Except.ok s) :
    (s.m_Items = [] → s.m_Separator = none ∧ s.m_ClearSeparator = none ∧
      s.m_ClearMissing = none ∧ s.m_Clear = none) ∧
    ∀ src, addAssertion s src = true := by
  have h0 := construct_emptyMeansUnprojected E W0 menu firstId loader s0 hconstruct
  have h1 := (run_keeps_emptyMeansUnprojected E ops s0 s hrun h0.1 h0.2).2
  refine ⟨h1, ?_⟩
  intro src
  unfold addAssertion
  by_cases hsrc : src = ""
  · simp [hsrc]
  · by_cases hlen : s.m_Items.length ≤ 0
    · have he : s.m_Items = [] := List.eq_nil_of_length_eq_zero (by omega)
      simp [hsrc, hlen, (h1 he).1]
    · simp [hsrc, hlen]

/-- Witness of C19: a manager constructed from `A`, `B`, then cleared. -/
theorem C19_empty_store_has_no_projection_witness :
    ∃ s0 s, construct testEnv testWorld (some emptyMenu) 5000 iniAB = Except.ok s0 ∧
      s0.m_Separator ≠ none ∧
      run testEnv s0 [(testWorld, Op.add "C"), (testWorld, Op.clear)] = Except.ok s ∧
      s.m_Items = [] ∧
      ((s.m_Items = [] → s.m_Separator = none ∧ s.m_ClearSeparator = none ∧
        s.m_ClearMissing = none ∧ s.m_Clear = none) ∧
      ∀ src, addAssertion s src = true) :=
  ⟨_, _, rfl, by decide, rfl, rfl,
    C19_empty_store_has_no_projection testEnv testWorld emptyMenu 5000 iniAB
      [(testWorld, Op.add "C"), (testWorld, Op.clear)] _ _ rfl rfl⟩

theorem Add_keeps_selectionValid (E : Env) (W : World) (s s2 : RecentIsoManager) (src : String)
    (hs : selectionValidIfNonempty s) (h : Add E W s src = Except.ok s2) :
    selectionValidIfNonempty s2 := by
  by_cases hsrc : src = ""
  · subst hsrc
    rw [Add_empty] at h
    cases h
    exact hs
  · obtain ⟨k, it, hk1, hk2, _⟩ := Add_ok_selects E W s s2 src h hsrc
    intro _
    exact ⟨k, hk1, (List.getElem?_eq_some_iff.mp hk2).1⟩

theorem selectionValid_of_same (s t : RecentIsoManager) (hs : selectionValidIfNonempty s)
    (hlen : t.m_Items.length = s.m_Items.length) (hcur : t.m_cursel = s.m_cursel) :
    selectionValidIfNonempty t := by
  intro hne
  have hne2 : s.m_Items ≠ [] := by
    intro he
    rw [he] at hlen
    exact hne (List.eq_nil_of_length_eq_zero hlen)
  obtain ⟨k, hk, hlt⟩ := hs hne2
  exact ⟨k, by rw [hcur]; exact hk, by rw [hlen]; exact hlt⟩

theorem OnChangedSelection_cursel (E : Env) (W : World) (s : RecentIsoManager)
    (evt : wxCommandEvent) (r : SelectionOutcome)
    (h : OnChangedSelection E W s evt = Except.ok r) :
    r.state.m_Items = s.m_Items ∧
    (r.state.m_cursel = s.m_cursel ∨
      ∃ k : Nat, r.state.m_cursel = (k : Int) ∧ k < s.m_Items.length) := by
  unfold OnChangedSelection at h
  simp only at h
  split at h
  · cases h; exact ⟨rfl, Or.inl rfl⟩
  · rename_i hlt
    split at h
    · cases h
    · split at h
      · cases h; exact ⟨rfl, Or.inl rfl⟩
      · split at h
        · cases h
        · split at h <;>
            (cases h; exact ⟨rfl, Or.inr ⟨_, rfl, by omega⟩⟩)

theorem step_keeps_selectionValid (E : Env) (W : World) (s s2 : RecentIsoManager) (op : Op)
    (hs : selectionValidIfNonempty s) (h : step E W s op = Except.ok s2)
    (hkeep : op = Op.clearMissing → GetMissingFiles W s = []) :
    selectionValidIfNonempty s2 := by
  cases op with
  | add src => exact Add_keeps_selectionValid E W s s2 src hs h
  | clear =>
    have hc := Clear_ok E W s s2 h
    intro hne
    exact absurd hc.1 hne
  | clearMissing =>
    have hc := ClearMissing_ok E W s s2 h
    have hall : (filenames s).filter W.wxFileExists = filenames s := by
      rw [List.filter_eq_self]
      intro p hp
      simp only [filenames, List.mem_map] at hp
      obtain ⟨it, hit, rfl⟩ := hp
      have hmiss := hkeep rfl
      simp only [GetMissingFiles, List.filter_eq_nil_iff] at hmiss
      have := hmiss it hit
      simpa using this
    have hlen : s2.m_Items.length = s.m_Items.length := by
      have := congrArg List.length hc.1
      rw [hall] at this
      simpa [filenames] using this
    exact selectionValid_of_same s s2 hs hlen hc.2.2.2.1
  | loadListFrom ini =>
    simp only [step] at h
    cases hok : ini.IsOk with
    | false =>
      have := LoadListFrom_unusable E W s s2 ini h hok
      subst this
      exact hs
    | true =>
      apply LoadListFrom_preserves E W s s2 ini selectionValidIfNonempty
        (fun a b src ha hab => Add_keeps_selectionValid E W a b src ha hab) h hok
      have hr := RemoveAllFromMenu_fields s
      exact selectionValid_of_same s _ hs hr.2.1 hr.2.2.2.1
  | select evt =>
    simp only [step] at h
    cases hr : OnChangedSelection E W s evt with
    | error f => rw [hr] at h; cases h
    | ok r =>
      rw [hr] at h
      simp only at h
      cases h
      obtain ⟨hi, hc⟩ := OnChangedSelection_cursel E W s evt r hr
      rcases hc with hc | ⟨k, hk, hlt⟩
      · exact selectionValid_of_same s _ hs (by rw [hi]) hc
      · intro _
        exact ⟨k, hk, by rw [hi]; exact hlt⟩

theorem construct_selectionValid (E : Env) (W : World) (menu : Option Menu) (firstId : Int)
    (loader : IniInterface) (s0 : RecentIsoManager)
    (h : construct E W menu firstId loader = Except.ok s0) : selectionValidIfNonempty s0 := by
  have := step_keeps_selectionValid E W
    { m_Items := []
      m_Menu := menu
      m_MaxLength := W.g_Conf.RecentIsoCount
      m_cursel := 0
      m_firstIdForMenuItems_or_wxID_ANY := firstId
      m_Separator := none
      m_ClearSeparator := none
      m_Clear := none
      m_ClearMissing := none } s0 (Op.loadListFrom loader)
    (fun hne => absurd rfl hne) h (fun hc => by cases hc)
  exact this

theorem run_keeps_selectionValid (E : Env) (ops : List (World × Op)) :
    ∀ (s s2 : RecentIsoManager), run E s ops = Except.ok s2 →
      clearMissingRemovesNothing E s ops = true →
      selectionValidIfNonempty s → selectionValidIfNonempty s2 := by
  induction ops with
  | nil =>
    intro s s2 h _ hs
    simp only [run] at h
    cases h
    exact hs
  | cons c rest ih =>
    intro s s2 h hkeep hs
    obtain ⟨W, op⟩ := c
    simp only [run] at h
    simp only [clearMissingRemovesNothing, Bool.and_eq_true] at hkeep
    cases hst : step E W s op with
    | error f => rw [hst] at h; cases h
    | ok s1 =>
      rw [hst] at h hkeep
      simp only at h hkeep
      apply ih s1 s2 h hkeep.2
      apply step_keeps_selectionValid E W s s1 op hs hst
      intro hop
      have h1 := hkeep.1
      rw [hop] at h1
      simpa using h1

/-- C11, counterexample: a manager constructed with nothing loaded has no entries and
`m_cursel` 0. A manager constructed from `A`, `B` has `m_cursel` 1; after a
`ClearMissing` that removes `B` one entry is left and `m_cursel` is still 1, after a
`Clear` no entry is left and `m_cursel` is still 1: in neither state is `m_cursel` a
valid index, and it has not been given another value. -/
theorem C11_counterexample :
    ∃ s0 s1 s2 s3,
      construct testEnv testWorld (some emptyMenu) 5000 iniEmpty = Except.ok s0 ∧
      s0.m_Items.length = 0 ∧ s0.m_cursel = 0 ∧
      construct testEnv testWorld (some emptyMenu) 5000 iniAB = Except.ok s1 ∧
      s1.m_Items.length = 2 ∧ s1.m_cursel = 1 ∧
      run testEnv s1 [(worldWithoutB, Op.clearMissing)] = Except.ok s2 ∧
      s2.m_Items.length = 1 ∧ s2.m_cursel = 1 ∧
      ¬ (0 ≤ s2.m_cursel ∧ s2.m_cursel < (s2.m_Items.length : Int)) ∧
      run testEnv s1 [(testWorld, Op.clear)] = Except.ok s3 ∧
      s3.m_Items.length = 0 ∧ s3.m_cursel = 1 ∧
      ¬ (0 ≤ s3.m_cursel ∧ s3.m_cursel < (s3.m_Items.length : Int)) :=
  ⟨_, _, _, _, rfl, rfl, rfl, rfl, rfl, rfl, rfl, rfl, rfl, by decide, rfl, rfl, rfl, by decide⟩

/-- C11, amended: in every state reached from the constructed store by a sequence of
`Add`, `Clear`, `ClearMissing`, `LoadListFrom` and selection events in which no
`ClearMissing` removes an entry, `m_cursel` is a valid index into the entries
whenever the store is not empty. `Clear` and `ClearMissing` never change
`m_cursel`. -/
theorem C11_selection_index_valid_unless_entries_removed (E : Env) (W0 : World)
    (menu : Option Menu) (firstId : Int) (loader : IniInterface) (ops : List (World × Op))
    (s0 s : RecentIsoManager)
    (hconstruct : construct E W0 menu firstId loader = Except.ok s0)
    (hrun : run E s0 ops = Except.ok s)
    (hkeep : clearMissingRemovesNothing E s0 ops = true) :
    (s.m_Items ≠ [] → ∃ k : Nat, s.m_cursel = (k : Int) ∧ k < s.m_Items.length) ∧
    (∀ W t t2, Clear E W t = Except.ok t2 → t2.m_cursel = t.m_cursel) ∧
    (∀ W t t2, ClearMissing E W t = Except.ok t2 → t2.m_cursel = t.m_cursel) :=
  ⟨run_keeps_selectionValid E ops s0 s hrun hkeep
      (construct_selectionValid E W0 menu firstId loader s0 hconstruct),
   fun W t t2 h => (Clear_ok E W t t2 h).2.2.1,
   fun W t t2 h => (ClearMissing_ok E W t t2 h).2.2.2.1⟩

/-- Witness of C11: a constructed store, an `Add` that evicts, a selection of the
first entry and a `ClearMissing` that removes nothing. -/
theorem C11_selection_index_valid_unless_entries_removed_witness :
    ∃ s0 s, construct testEnv testWorld (some emptyMenu) 5000 iniAB = Except.ok s0 ∧
      run testEnv s0 [(testWorld, Op.add "C"), (testWorld, Op.select ⟨5000, false⟩),
        (testWorld, Op.clearMissing)] = Except.ok s ∧
      s.m_Items.map (fun it => it.Filename) = ["B", "C"] ∧ s.m_cursel = 0 ∧
      (s.m_Items ≠ [] → ∃ k : Nat, s.m_cursel = (k : Int) ∧ k < s.m_Items.length) :=
  ⟨_, _, rfl, rfl, rfl, rfl,
    (C11_selection_index_valid_unless_entries_removed testEnv testWorld (some emptyMenu) 5000
      iniAB [(testWorld, Op.add "C"), (testWorld, Op.select ⟨5000, false⟩),
        (testWorld, Op.clearMissing)] _ _ rfl rfl rfl).1⟩

theorem enableLoop_eq (W : World) (d : Bool) (l : List RecentItem) :
    ∀ s : RecentIsoManager, (∀ it ∈ l, it.ItemPtr ≠ none) →
      enableLoop W d l s = Except.ok
        { s with m_Menu := s.m_Menu.map (fun m =>
            { m with items := m.items.map (enabledAfter (enableFlags W d l)) }) } := by
  induction l with
  | nil =>
    intro s _
    simp only [enableLoop, enableFlags, List.filterMap_nil]
    have : enabledAfter [] = id := by funext x; rfl
    rw [this]
    cases s
    rename_i items menu a b c d1 e f g
    cases menu <;> simp
  | cons a rest ih =>
    intro s h
    have ha := h a (List.mem_cons_self _ _)
    cases hp : a.ItemPtr with
    | none => exact absurd hp ha
    | some hd =>
      simp only [enableLoop, hp]
      rw [ih _ (fun it hit => h it (List.mem_cons_of_mem _ hit))]
      have hfl : enableFlags W d (a :: rest)
          = (hd, d && W.wxFileExists a.Filename) :: enableFlags W d rest := by
        simp [enableFlags, hp]
      rw [hfl]
      cases hm : s.m_Menu with
      | none => simp [enableItem, hm]
      | some m =>
        simp only [enableItem, hm, Option.map_some', Menu.Enable, List.map_map]
        congr 4

theorem enableLoop_null (W : World) (d : Bool) (l : List RecentItem) :
    ∀ s : RecentIsoManager, (∃ it ∈ l, it.ItemPtr = none) →
      enableLoop W d l s = Except.error Fault.nullDeref := by
  induction l with
  | nil => intro s h; obtain ⟨it, hit, _⟩ := h; simp at hit
  | cons a rest ih =>
    intro s h
    cases hp : a.ItemPtr with
    | none => simp only [enableLoop, hp]
    | some hd =>
      simp only [enableLoop, hp]
      apply ih
      obtain ⟨it, hit, hnone⟩ := h
      rcases List.mem_cons.mp hit with rfl | hit
      · rw [hp] at hnone; cases hnone
      · exact ⟨it, hit, hnone⟩

theorem enabledAfter_handle (flags : List (Nat × Bool)) :
    ∀ x : MenuItem, (enabledAfter flags x).handle = x.handle := by
  induction flags with
  | nil => intro x; rfl
  | cons hb rest ih =>
    intro x
    simp only [enabledAfter, List.foldl_cons]
    have := ih (if x.handle = hb.1 then { x with enabled := hb.2 } else x)
    simp only [enabledAfter] at this
    rw [this]
    split <;> rfl

theorem enabledAfter_other (flags : List (Nat × Bool)) :
    ∀ x : MenuItem, (∀ hb ∈ flags, hb.1 ≠ x.handle) → enabledAfter flags x = x := by
  induction flags with
  | nil => intro x _; rfl
  | cons hb rest ih =>
    intro x h
    have h0 : ¬ x.handle = hb.1 := fun e => h hb (List.mem_cons_self _ _) e.symm
    simp only [enabledAfter, List.foldl_cons, h0, if_false]
    exact ih x (fun c hc => h c (List.mem_cons_of_mem _ hc))

theorem enabledAfter_enabled (flags : List (Nat × Bool)) :
    ∀ (x : MenuItem) (h : Nat) (b : Bool), (flags.map Prod.fst).Nodup → (h, b) ∈ flags →
      x.handle = h → (enabledAfter flags x).enabled = b := by
  induction flags with
  | nil => intro x h b _ hin; simp at hin
  | cons hb rest ih =>
    intro x h b hnd hin hx
    subst hx
    simp only [List.map_cons, List.nodup_cons] at hnd
    simp only [enabledAfter, List.foldl_cons]
    rcases List.mem_cons.mp hin with heq | hin2
    · subst heq
      simp only [if_true]
      have := enabledAfter_other rest { x with enabled := b } (by
        intro c hc hch
        apply hnd.1
        simp only [List.mem_map]
        exact ⟨c, hc, hch⟩)
      simp only [enabledAfter] at this
      rw [this]
    · have := ih (if x.handle = hb.1 then { x with enabled := hb.2 } else x) x.handle b hnd.2 hin2
        (by split <;> rfl)
      simp only [enabledAfter] at this
      exact this

theorem filterMap_ItemPtr_map_some (l : List RecentItem) (h : ∀ e ∈ l, e.ItemPtr ≠ none) :
    (l.filterMap (fun e => e.ItemPtr)).map some = l.map (fun e => e.ItemPtr) := by
  induction l with
  | nil => rfl
  | cons a rest ih =>
    have ha := h a (List.mem_cons_self _ _)
    cases hpa : a.ItemPtr with
    | none => exact absurd hpa ha
    | some ha2 =>
      simp only [List.filterMap_cons, hpa, List.map_cons]
      rw [ih (fun e he => h e (List.mem_cons_of_mem _ he))]

/-- C18: a manager is constructed with a non-null menu and capacity two from the
saved paths `A` and `B`, and every entry has an item. The same settings are then
loaded again while `A` is the current image: `LoadListFrom` removes the projection
and every `Add` finds its path present, so nothing is rebuilt; every `ItemPtr` is
null, the menu is empty and `EnableItems` dereferences a null pointer. In general
`EnableItems` faults as soon as one entry has a null `ItemPtr`; when no entry has,
it completes, leaves the entries unchanged and, the handles of the entries being
pairwise distinct, leaves the item of every entry enabled exactly when `display`
holds and the entry's path exists. -/
theorem C18_enable_items_after_reload :
    (∃ s0 s, construct testEnv testWorld (some emptyMenu) 5000 iniAB = Except.ok s0 ∧
      s0.m_Items.map (fun it => it.ItemPtr) = [some 9, some 8] ∧
      run testEnv s0 [(isoWorld, Op.loadListFrom iniAB)] = Except.ok s ∧
      s.m_Items.map (fun it => it.Filename) = ["A", "B"] ∧
      s.m_Items.map (fun it => it.ItemPtr) = [none, none] ∧
      s.m_Menu.map (fun m => m.items) = some [] ∧
      EnableItems testWorld s true = Except.error Fault.nullDeref) ∧
    (∀ (W : World) (s : RecentIsoManager) (display : Bool),
      (∃ it ∈ s.m_Items, it.ItemPtr = none) →
      EnableItems W s display = Except.error Fault.nullDeref) ∧
    (∀ (W : World) (s : RecentIsoManager) (display : Bool),
      (∀ it ∈ s.m_Items, it.ItemPtr ≠ none) →
      ∃ s2, EnableItems W s display = Except.ok s2 ∧ s2.m_Items = s.m_Items ∧
        ((s.m_Items.map (fun it => it.ItemPtr)).Nodup →
          ∀ it ∈ s.m_Items, ∀ h m2, it.ItemPtr = some h → s2.m_Menu = some m2 →
            ∀ x ∈ m2.items, x.handle = h →
              x.enabled = (display && W.wxFileExists it.Filename))) := by
  refine ⟨⟨_, _, rfl, rfl, rfl, rfl, rfl, rfl, rfl⟩, ?_, ?_⟩
  · intro W s display h
    exact enableLoop_null W display s.m_Items s h
  · intro W s display h
    refine ⟨_, enableLoop_eq W display s.m_Items s h, rfl, ?_⟩
    intro hnd it hit hd m2 hp hm2 x hx hxh
    cases hm : s.m_Menu with
    | none => simp [hm] at hm2
    | some m =>
      simp only [hm, Option.map_some', Option.some.injEq] at hm2
      subst hm2
      simp only [List.mem_map] at hx
      obtain ⟨x0, _, rfl⟩ := hx
      rw [enabledAfter_handle] at hxh
      apply enabledAfter_enabled _ x0 hd _ ?_ ?_ hxh
      · have hkeys : (enableFlags W display s.m_Items).map Prod.fst
            = s.m_Items.filterMap (fun e => e.ItemPtr) := by
          simp only [enableFlags, List.map_filterMap]
          congr 1
          funext e
          cases e.ItemPtr <;> rfl
        rw [hkeys]
        have hmap := filterMap_ItemPtr_map_some s.m_Items h
        rw [← hmap] at hnd
        exact List.Nodup.of_map _ hnd
      · simp only [enableFlags, List.mem_filterMap]
        exact ⟨it, hit, by simp [hp]⟩

/-- Witness of C18: `EnableItems` completes on a store whose two entries have items
and faults on a store whose entries have none. -/
theorem C18_enable_items_after_reload_witness :
    (∃ s2, EnableItems worldWithoutB overfullStore true = Except.ok s2 ∧
      s2.m_Items = overfullStore.m_Items) ∧
    EnableItems testWorld storeBC true = Except.error Fault.nullDeref := by
  obtain ⟨s2, h1, h2, _⟩ :=
    C18_enable_items_after_reload.2.2 worldWithoutB overfullStore true (by decide)
  exact ⟨⟨s2, h1, h2⟩,
    C18_enable_items_after_reload.2.1 testWorld storeBC true
      ⟨RecentItem.mk "B" none, by decide, rfl⟩⟩

end RecentIso
